import Mathlib

/-!
BParticles C wrapper: mesh construction and frame cache.

A shallow embedding of `source/blender/simulations/bparticles/c_wrapper.cpp`
and of the vector structs of `source/blender/blenlib/BLI_math.hpp`.

Conventions of the embedding:

* C `float` is an abstract type `F` whose operations are uninterpreted
  (class `CFloat`); no algebraic law of the reals is assumed.
* `uint` arithmetic is arithmetic on `Nat` reduced modulo `2^32`.
* The element counts of a mesh are C `int`s.  A `uint` value from `2^31` on that is handed to
  such a count is a negative number there, and no mesh is made for it (`none`).
* C arrays are lists.  A read or a write through an index outside the array
  is undefined in C; the embedding returns `none` there, so a function that
  returns `some` performed only in-bounds accesses.
* Heap blocks are identified by addresses (natural numbers) handed out by `Heap`.
-/

namespace BParticles

/-! ## Machine integers -/

/-- Number of values of a C `uint`. -/
def UINT_SIZE : Nat := 2 ^ 32

/-- Multiplication of two `uint` values. -/
def uint_mul (a b : Nat) : Nat := (a * b) % UINT_SIZE

/-- Addition of two `uint` values. -/
def uint_add (a b : Nat) : Nat := (a + b) % UINT_SIZE

/-- Number of non-negative values of a C `int`. -/
def INT_SIZE : Nat := 2 ^ 31

/-- Modelled from the spec: the element counts of a mesh (the parameters of
`BKE_mesh_new_nomain` and the counters `totvert`, `totedge`, `totloop`, `totpoly`; BKE_mesh.h
and DNA_mesh_types.h are not part of the sources at hand) are C `int`s.  A `uint` value below
`2^31` arrives unchanged; a larger one arrives as a negative count, for which no mesh is made
(`none`). -/
def int_count (x : Nat) : Option Nat :=
  if x < INT_SIZE then some x else none

/-! ## Arrays -/

/-- Assignment through `xs[i]` to (part of) the element: defined only when `i` is inside the
array. -/
def modifyAt {α : Type} (xs : List α) (i : Nat) (f : α → α) : Option (List α) :=
  match xs[i]? with
  | some x => some (xs.set i (f x))
  | none => none

/-! ## BLI_math.hpp -/

/-- Colour with 8-bit channels, `struct rgba_b`. -/
structure rgba_b where
  r : Nat
  g : Nat
  b : Nat
  a : Nat
deriving DecidableEq, Repr

/-- Floating-point colour, `struct rgba_f`. -/
structure rgba_f (F : Type) where
  r : F
  g : F
  b : F
  a : F
deriving DecidableEq, Repr

/-- Vector of three floats, `struct float3`. -/
structure float3 (F : Type) where
  x : F
  y : F
  z : F
deriving DecidableEq, Repr

/-- The operations on C `float` used by the program.  `rgba_float_to_uchar` is the colour
conversion called by the constructor `rgba_b(rgba_f)`; its definition is in the C math library
and is left uninterpreted. -/
class CFloat (F : Type) where
  ofInt : Int → F
  add : F → F → F
  mul : F → F → F
  rgba_float_to_uchar : rgba_f F → rgba_b

/-- The `operator+(float3 a, float3 b)` of BLI_math.hpp. -/
def float3.add {F : Type} [CFloat F] (a b : float3 F) : float3 F :=
  ⟨CFloat.add a.x b.x, CFloat.add a.y b.y, CFloat.add a.z b.z⟩

/-- The `operator*(float3 a, float b)` of BLI_math.hpp. -/
def float3.mul {F : Type} [CFloat F] (a : float3 F) (b : F) : float3 F :=
  ⟨CFloat.mul a.x b, CFloat.mul a.y b, CFloat.mul a.z b⟩

/-- The converting constructor `rgba_b(rgba_f other)`. -/
def rgba_b.of_rgba_f {F : Type} [CFloat F] (other : rgba_f F) : rgba_b :=
  CFloat.rgba_float_to_uchar other

/-- Conversion of a colour channel that is an integer: the clamping conversion gives 0 up to
`0.0f` and 255 from `1.0f` on. -/
def int_channel_to_uchar (v : Int) : Nat :=
  if v ≤ 0 then 0 else 255

/-- Integers as a stand-in for the floats of small integer value, on concrete examples: sums
and products of such floats are exact, and the colour conversion clamps every channel. -/
instance instCFloatInt : CFloat Int where
  ofInt := fun i => i
  add := fun a b => a + b
  mul := fun a b => a * b
  rgba_float_to_uchar := fun c =>
    ⟨int_channel_to_uchar c.r, int_channel_to_uchar c.g, int_channel_to_uchar c.b,
      int_channel_to_uchar c.a⟩

/-! ## Mesh data (DNA_meshdata_types.h, DNA_mesh_types.h) -/

/-- Mesh vertex: coordinate `co[3]` and normal `short no[3]`. -/
structure MVert (F : Type) where
  co : float3 F
  no0 : Int
  no1 : Int
  no2 : Int
deriving DecidableEq, Repr

/-- Mesh edge joining vertices `v1` and `v2`. -/
structure MEdge where
  v1 : Nat
  v2 : Nat
deriving DecidableEq, Repr

/-- Face corner: vertex index `v` and edge index `e`. -/
structure MLoop where
  v : Nat
  e : Nat
deriving DecidableEq, Repr

/-- Polygon: the loops `loopstart .. loopstart + totloop - 1`. -/
structure MPoly where
  loopstart : Nat
  totloop : Nat
deriving DecidableEq, Repr

/-- Colour of a face corner. -/
structure MLoopCol where
  r : Nat
  g : Nat
  b : Nat
  a : Nat
deriving DecidableEq, Repr

/-- The part of `struct Mesh` the wrapper touches.  `ldata` holds the named loop-colour layers
of the loop custom data. -/
structure Mesh (F : Type) where
  totvert : Nat
  totedge : Nat
  totloop : Nat
  totpoly : Nat
  mvert : List (MVert F)
  medge : List MEdge
  mloop : List MLoop
  mpoly : List MPoly
  ldata : List (String × List MLoopCol)
deriving DecidableEq, Repr

/-- Modelled from the spec: `BKE_mesh_new_nomain` (BKE_mesh.h) is not part of the sources at
hand.  It returns a mesh with the requested numbers of vertices, edges, loops and polygons, all
zero-initialised, and no loop-colour layer ("zero vertices, zero faces" for the empty mesh). -/
def BKE_mesh_new_nomain {F : Type} [CFloat F]
    (verts_len edges_len _tessface_len loops_len polys_len : Nat) : Mesh F :=
  { totvert := verts_len
    totedge := edges_len
    totloop := loops_len
    totpoly := polys_len
    mvert := List.replicate verts_len
      ⟨⟨CFloat.ofInt 0, CFloat.ofInt 0, CFloat.ofInt 0⟩, 0, 0, 0⟩
    medge := List.replicate edges_len ⟨0, 0⟩
    mloop := List.replicate loops_len ⟨0, 0⟩
    mpoly := List.replicate polys_len ⟨0, 0⟩
    ldata := [] }

/-! ## Tetrahedron instancing (c_wrapper.cpp, lines 85-164) -/

/-- The table `tetrahedon_vertices[4]`. -/
def tetrahedon_vertices {F : Type} [CFloat F] : List (float3 F) :=
  [⟨CFloat.ofInt 1, CFloat.ofInt (-1), CFloat.ofInt (-1)⟩,
   ⟨CFloat.ofInt 1, CFloat.ofInt 1, CFloat.ofInt 1⟩,
   ⟨CFloat.ofInt (-1), CFloat.ofInt (-1), CFloat.ofInt 1⟩,
   ⟨CFloat.ofInt (-1), CFloat.ofInt 1, CFloat.ofInt (-1)⟩]

/-- The table `tetrahedon_loop_starts[4]`. -/
def tetrahedon_loop_starts : List Nat := [0, 3, 6, 9]

/-- The table `tetrahedon_loop_lengths[4]`. -/
def tetrahedon_loop_lengths : List Nat := [3, 3, 3, 3]

/-- The table `tetrahedon_loop_vertices[12]`. -/
def tetrahedon_loop_vertices : List Nat := [0, 1, 2, 0, 3, 1, 0, 2, 3, 1, 2, 3]

/-- The table `tetrahedon_loop_edges[12]`. -/
def tetrahedon_loop_edges : List Nat := [0, 3, 1, 2, 4, 0, 1, 5, 2, 3, 5, 4]

/-- The table `tetrahedon_edges[6][2]`. -/
def tetrahedon_edges : List (Nat × Nat) := [(0, 1), (0, 2), (0, 3), (1, 2), (1, 3), (2, 3)]

/-- The loop `for (uint i = 0; i < n; i++) body`, threading the state written by the body. -/
def for_uint {σ : Type} (n : Nat) (body : σ → Nat → Option σ) (init : σ) : Option σ :=
  (List.range n).foldlM body init

/-- Body of the loop of `distribute_tetrahedons_range` for one `instance` (lines 106-134).
The state is the mesh together with the loop-colour layer `loop_colors`. -/
def distribute_tetrahedons_instance {F : Type} [CFloat F]
    (centers : List (float3 F)) (scales : List F) (colors : List (rgba_f F))
    (st : Mesh F × List MLoopCol) (inst : Nat) : Option (Mesh F × List MLoopCol) := do
  let mesh := st.1
  let loop_colors := st.2
  let vertex_offset := uint_mul inst (tetrahedon_vertices (F := F)).length
  let face_offset := uint_mul inst tetrahedon_loop_starts.length
  let loop_offset := uint_mul inst tetrahedon_loop_vertices.length
  let edge_offset := uint_mul inst tetrahedon_edges.length
  let center ← centers[inst]?
  let mvert ← for_uint (tetrahedon_vertices (F := F)).length (fun mvert i => do
    let tv ← (tetrahedon_vertices (F := F))[i]?
    let scale ← scales[inst]?
    modifyAt mvert (uint_add vertex_offset i)
      (fun v => { v with co := float3.add center (float3.mul tv scale) })) mesh.mvert
  let mpoly ← for_uint tetrahedon_loop_starts.length (fun mpoly i => do
    let ls ← tetrahedon_loop_starts[i]?
    let mpoly ← modifyAt mpoly (uint_add face_offset i)
      (fun p => { p with loopstart := uint_add loop_offset ls })
    let ll ← tetrahedon_loop_lengths[i]?
    modifyAt mpoly (uint_add face_offset i) (fun p => { p with totloop := ll })) mesh.mpoly
  let color_f ← colors[inst]?
  let color_b := rgba_b.of_rgba_f color_f
  let loop_col : MLoopCol := ⟨color_b.r, color_b.g, color_b.b, color_b.a⟩
  let (mloop, loop_colors) ← for_uint tetrahedon_loop_vertices.length
    (fun (s : List MLoop × List MLoopCol) i => do
      let lv ← tetrahedon_loop_vertices[i]?
      let mloop ← modifyAt s.1 (uint_add loop_offset i)
        (fun l => { l with v := uint_add vertex_offset lv })
      let le ← tetrahedon_loop_edges[i]?
      let mloop ← modifyAt mloop (uint_add loop_offset i)
        (fun l => { l with e := uint_add edge_offset le })
      let loop_colors ← modifyAt s.2 (uint_add loop_offset i) (fun _ => loop_col)
      pure (mloop, loop_colors)) (mesh.mloop, loop_colors)
  let medge ← for_uint tetrahedon_edges.length (fun medge i => do
    let te ← tetrahedon_edges[i]?
    let medge ← modifyAt medge (uint_add edge_offset i)
      (fun e => { e with v1 := uint_add vertex_offset te.1 })
    modifyAt medge (uint_add edge_offset i)
      (fun e => { e with v2 := uint_add vertex_offset te.2 })) mesh.medge
  pure ({ mesh with mvert := mvert, mpoly := mpoly, mloop := mloop, medge := medge },
        loop_colors)

/-- An `IndexRange` / `tbb::blocked_range<uint>`: the instances `start .. start + size - 1`. -/
structure IndexRange where
  start : Nat
  size : Nat
deriving DecidableEq, Repr

/-- The instances of a range in iteration order. -/
def IndexRange.toList (range : IndexRange) : List Nat :=
  List.range' range.start range.size

/-- The function `distribute_tetrahedons_range`: the loop `for (uint instance : range)`. -/
def distribute_tetrahedons_range {F : Type} [CFloat F]
    (st : Mesh F × List MLoopCol) (range : IndexRange)
    (centers : List (float3 F)) (scales : List F) (colors : List (rgba_f F)) :
    Option (Mesh F × List MLoopCol) :=
  range.toList.foldlM (distribute_tetrahedons_instance centers scales colors) st

/-- Modelled from the spec: the value `CD_DEFAULT` gives to a new loop-colour entry; the custom
data layers are not part of the sources at hand.  Every entry of the layer is overwritten
before the mesh is returned. -/
def mloopcol_default : MLoopCol := ⟨255, 255, 255, 255⟩

/-- Allocation part of `distribute_tetrahedons` (lines 142-152): the mesh with
`amount * ARRAY_SIZE(..)` elements and the loop-colour layer of `mesh->totloop` default
colours added by `CustomData_add_layer_named`.  The `uint` products are handed to the `int`
counts of `BKE_mesh_new_nomain`. -/
def distribute_tetrahedons_alloc {F : Type} [CFloat F] (centers : List (float3 F)) :
    Option (Mesh F × List MLoopCol) := do
  let amount := centers.length
  let verts_len ← int_count (uint_mul amount (tetrahedon_vertices (F := F)).length)
  let edges_len ← int_count (uint_mul amount tetrahedon_edges.length)
  let loops_len ← int_count (uint_mul amount tetrahedon_loop_vertices.length)
  let polys_len ← int_count (uint_mul amount tetrahedon_loop_starts.length)
  let mesh : Mesh F := BKE_mesh_new_nomain verts_len edges_len 0 loops_len polys_len
  pure (mesh, List.replicate mesh.totloop mloopcol_default)

/-- The loop-colour layer is part of the mesh's loop custom data under the name "Color"; the
embedding stores its final contents into the mesh when the construction is over. -/
def store_loop_colors {F : Type} (st : Mesh F × List MLoopCol) : Mesh F :=
  { st.1 with ldata := [("Color", st.2)] }

/-- The function `distribute_tetrahedons`, built without TBB: one call of
`distribute_tetrahedons_range` on `IndexRange(amount)`. -/
def distribute_tetrahedons {F : Type} [CFloat F]
    (centers : List (float3 F)) (scales : List F) (colors : List (rgba_f F)) :
    Option (Mesh F) := do
  let amount := centers.length
  let st ← distribute_tetrahedons_alloc centers
  let st ← distribute_tetrahedons_range st ⟨0, amount⟩ centers scales colors
  pure (store_loop_colors st)

/-- The function `distribute_tetrahedons`, built with TBB: `tbb::parallel_for` hands the
chunks of `blocked_range<uint>(0, amount, 1000)` to `distribute_tetrahedons_range`; `chunks`
is the order in which the chunks end up being processed. -/
def distribute_tetrahedons_tbb {F : Type} [CFloat F] (chunks : List IndexRange)
    (centers : List (float3 F)) (scales : List F) (colors : List (rgba_f F)) :
    Option (Mesh F) := do
  let st ← distribute_tetrahedons_alloc centers
  let st ← chunks.foldlM
    (fun st range => distribute_tetrahedons_range st range centers scales colors) st
  pure (store_loop_colors st)

/-- A list of chunks splits `[start, stop)` into consecutive chunks, in increasing order. -/
def IsConsecutiveSplit : List IndexRange → Nat → Nat → Prop
  | [], start, stop => start = stop
  | c :: cs, start, stop => c.start = start ∧ IsConsecutiveSplit cs (start + c.size) stop

/-- The function `distribute_points`.  The `uint` value `points.size()` is handed to the `int`
vertex count of `BKE_mesh_new_nomain`. -/
def distribute_points {F : Type} [CFloat F] (points : List (float3 F)) : Option (Mesh F) := do
  let verts_len ← int_count points.length
  let mesh : Mesh F := BKE_mesh_new_nomain verts_len 0 0 0 0
  let mvert ← for_uint mesh.totvert (fun mvert i => do
    let p ← points[i]?
    let mvert ← modifyAt mvert i (fun v => { v with co := p })
    modifyAt mvert i (fun v => { v with no2 := 32767 })) mesh.mvert
  pure { mesh with mvert := mvert }

/-! ## Attribute storage: blocks and containers

The block and container classes (`AttributesBlock`, `AttributesBlockContainer`) are declared
in headers that are not part of the sources at hand; they are modelled from the design
document (sections 3, 4.2, 4.3 and 4.5). -/

/-- Modelled from the spec: the attribute type descriptors (section 4.1) that the wrapper
names: `FN::CPP_TYPE<float>()`, `FN::CPP_TYPE<float3>()` and `FN::CPP_TYPE<rgba_f>()`. -/
inductive CPPType where
  | Float
  | Float3
  | RgbaF
deriving DecidableEq, Repr

/-- Number of floats one element of the type occupies. -/
def CPPType.floats_per_element : CPPType → Nat
  | .Float => 1
  | .Float3 => 3
  | .RgbaF => 4

/-- Modelled from the spec: a type-erased attribute value (section 4.1), of one of the three
types the wrapper reads. -/
inductive GenericValue (F : Type) where
  | ofFloat (v : F)
  | ofFloat3 (v : float3 F)
  | ofRgbaF (v : rgba_f F)
deriving DecidableEq, Repr

/-- The descriptor of the value's type. -/
def GenericValue.type {F : Type} : GenericValue F → CPPType
  | .ofFloat _ => .Float
  | .ofFloat3 _ => .Float3
  | .ofRgbaF _ => .RgbaF

/-- The floats of a value in memory order. -/
def GenericValue.floats {F : Type} : GenericValue F → List F
  | .ofFloat v => [v]
  | .ofFloat3 v => [v.x, v.y, v.z]
  | .ofRgbaF v => [v.r, v.g, v.b, v.a]

/-- Typed view of a value as `float`. -/
def GenericValue.as_float {F : Type} : GenericValue F → Option F
  | .ofFloat v => some v
  | _ => none

/-- Typed view of a value as `float3`. -/
def GenericValue.as_float3 {F : Type} : GenericValue F → Option (float3 F)
  | .ofFloat3 v => some v
  | _ => none

/-- Typed view of a value as `rgba_f`. -/
def GenericValue.as_rgba_f {F : Type} : GenericValue F → Option (rgba_f F)
  | .ofRgbaF v => some v
  | _ => none

/-- All results, when every element has one. -/
def collect {α : Type} : List (Option α) → Option (List α)
  | [] => some []
  | none :: _ => none
  | some a :: rest => (collect rest).map (fun as => a :: as)

/-- Modelled from the spec: the attribute block (sections 2, 3 and 4.2), in the high-water-mark
design with swap-remove compaction.  `columns` holds one array of `capacity` values per
attribute name, `active_count` is the number of leading slots considered live, and `used` is
the free/used mark of every slot. -/
structure AttributesBlock (V : Type) where
  capacity : Nat
  active_count : Nat
  used : List Bool
  columns : List (String × List V)
deriving DecidableEq, Repr

/-- Modelled from the spec: a new block of the given capacity, every slot free, every column
filled with the given default value. -/
def AttributesBlock.new {V : Type} (capacity : Nat) (defaults : List (String × V)) :
    AttributesBlock V :=
  { capacity := capacity
    active_count := 0
    used := List.replicate capacity false
    columns := defaults.map (fun d => (d.1, List.replicate capacity d.2)) }

/-- Modelled from the spec: `try_allocate_slot()` (section 4.2) returns an unused slot index if
`active_count < capacity`, and signals "block full" (`none`) otherwise. -/
def AttributesBlock.try_allocate_slot {V : Type} (b : AttributesBlock V) :
    Option (Nat × AttributesBlock V) :=
  if b.active_count < b.capacity then
    some (b.active_count,
      { b with active_count := b.active_count + 1, used := b.used.set b.active_count true })
  else
    none

/-- Modelled from the spec: `deallocate_slot(index)` (section 4.2) marks a slot free; when the
slot is not the trailing one, the data of the last live slot is moved into it (swap-remove).
Freeing a slot that is not in use is rejected (`none`). -/
def AttributesBlock.deallocate_slot {V : Type} (b : AttributesBlock V) (index : Nat) :
    Option (AttributesBlock V) :=
  if b.used[index]? = some true then
    let last := b.active_count - 1
    let used := b.used.set index false
    if index = last then
      some { b with active_count := last, used := used }
    else
      some { b with
        active_count := last
        used := (used.set index true).set last false
        columns := b.columns.map (fun c =>
          (c.1, match c.2[last]? with
                | some v => c.2.set index v
                | none => c.2)) }
  else
    none

/-- An operation on a block. -/
inductive BlockOp where
  | allocate
  | free (index : Nat)
deriving DecidableEq, Repr

/-- Outcome of a sequence of operations on a block: the block, and how many allocations and
how many frees took place. -/
structure BlockRun (V : Type) where
  block : AttributesBlock V
  allocations : Nat
  frees : Nat

/-- One operation: an allocation that finds the block full and a free that is rejected leave
the block as it is and do not count. -/
def BlockRun.step {V : Type} (r : BlockRun V) : BlockOp → BlockRun V
  | .allocate =>
    match r.block.try_allocate_slot with
    | some (_, b) => { r with block := b, allocations := r.allocations + 1 }
    | none => r
  | .free index =>
    match r.block.deallocate_slot index with
    | some b => { r with block := b, frees := r.frees + 1 }
    | none => r

/-- A sequence of allocate/free operations on a block. -/
def AttributesBlock.run {V : Type} (b : AttributesBlock V) (ops : List BlockOp) : BlockRun V :=
  ops.foldl BlockRun.step ⟨b, 0, 0⟩

/-- Modelled from the spec: `attribute_span(name)` (section 4.2), the view over the live portion
of one attribute's column, length-matched to `active_count`. -/
def AttributesBlock.attribute_span {V : Type} (b : AttributesBlock V) (name : String) :
    Option (List V) :=
  match b.columns.lookup name with
  | some column => if b.active_count ≤ column.length then some (column.take b.active_count)
                   else none
  | none => none

/-- Modelled from the spec: the block container (sections 3 and 4.3): an ordered sequence of
blocks sharing one attribute schema. -/
structure AttributesBlockContainer (F : Type) where
  schema : List (String × CPPType)
  block_capacity : Nat
  blocks : List (AttributesBlock (GenericValue F))
deriving DecidableEq, Repr

/-- Modelled from the spec: `count_active()` (section 4.3), the sum of the blocks' active
counts. -/
def AttributesBlockContainer.count_active {F : Type} (c : AttributesBlockContainer F) : Nat :=
  (c.blocks.map (fun b => b.active_count)).sum

/-- Modelled from the spec: `active_blocks()` (section 4.3), the blocks with at least one live
particle, in block-creation order. -/
def AttributesBlockContainer.active_blocks {F : Type} (c : AttributesBlockContainer F) :
    List (AttributesBlock (GenericValue F)) :=
  c.blocks.filter (fun b => decide (0 < b.active_count))

/-- Modelled from the spec: `flatten_attribute` (sections 4.3 and 4.5): the live spans of the
attribute in all active blocks, in block order then slot order.  An unknown name or a
descriptor other than the attribute's fails fast (`none`). -/
def AttributesBlockContainer.flatten_attribute {F : Type} (c : AttributesBlockContainer F)
    (name : String) (type : CPPType) : Option (List (GenericValue F)) :=
  match c.schema.lookup name with
  | some t =>
    if t = type then
      match collect (c.active_blocks.map (fun b => b.attribute_span name)) with
      | some spans =>
        if spans.flatten.all (fun v => decide (v.type = type)) then some spans.flatten else none
      | none => none
    else none
  | none => none

/-- Modelled from the spec: `flatten_attribute<float3>(name)`. -/
def AttributesBlockContainer.flatten_attribute_float3 {F : Type}
    (c : AttributesBlockContainer F) (name : String) : Option (List (float3 F)) :=
  match c.flatten_attribute name .Float3 with
  | some values => collect (values.map GenericValue.as_float3)
  | none => none

/-- Modelled from the spec: `flatten_attribute<float>(name)`. -/
def AttributesBlockContainer.flatten_attribute_float {F : Type}
    (c : AttributesBlockContainer F) (name : String) : Option (List F) :=
  match c.flatten_attribute name .Float with
  | some values => collect (values.map GenericValue.as_float)
  | none => none

/-- Modelled from the spec: `flatten_attribute<rgba_f>(name)`. -/
def AttributesBlockContainer.flatten_attribute_rgba_f {F : Type}
    (c : AttributesBlockContainer F) (name : String) : Option (List (rgba_f F)) :=
  match c.flatten_attribute name .RgbaF with
  | some values => collect (values.map GenericValue.as_rgba_f)
  | none => none

/-- Modelled from the spec: `flatten_attribute(name, GenericMutableArrayRef(type, buffer, size))`
(section 4.5): the flattened values written into a caller-provided buffer of `size` elements;
the result is the buffer's contents as floats.  The buffer must hold exactly `count_active()`
elements. -/
def AttributesBlockContainer.flatten_attribute_into {F : Type}
    (c : AttributesBlockContainer F) (name : String) (type : CPPType) (size : Nat) :
    Option (List F) :=
  match c.flatten_attribute name type with
  | some values =>
    if values.length = size then some (values.flatMap GenericValue.floats) else none
  | none => none

/-- Errors of `unflatten_attribute`. -/
inductive UnflattenError where
  | size_mismatch
  | schema_violation
deriving DecidableEq, Repr

/-- Modelled from the spec: the write-back of `unflatten_attribute` (section 4.5) into the live
spans of the active blocks, block by block in canonical flatten order. -/
def unflatten_blocks {V : Type} (name : String) :
    List (AttributesBlock V) → List V → List (AttributesBlock V)
  | [], _ => []
  | b :: rest, values =>
    if 0 < b.active_count then
      { b with columns := b.columns.map (fun c =>
          if c.1 = name then (c.1, values.take b.active_count ++ c.2.drop b.active_count)
          else c) }
        :: unflatten_blocks name rest (values.drop b.active_count)
    else
      b :: unflatten_blocks name rest values

/-- Modelled from the spec: `unflatten_attribute` (section 4.5), the write-back of a flat buffer
into the active slots in canonical flatten order.  A buffer whose length differs from the
container's element count is rejected with a size-mismatch error. -/
def AttributesBlockContainer.unflatten_attribute {F : Type} (c : AttributesBlockContainer F)
    (name : String) (type : CPPType) (values : List (GenericValue F)) :
    Except UnflattenError (AttributesBlockContainer F) :=
  if values.length ≠ c.count_active then
    .error .size_mismatch
  else if c.schema.lookup name = some type ∧ values.all (fun v => decide (v.type = type)) then
    .ok { c with blocks := unflatten_blocks name c.blocks values }
  else
    .error .schema_violation

/-- Well-formed block: the capacity bounds the active count, the marks cover the capacity and
every column has `capacity` values. -/
def AttributesBlock.valid {V : Type} (b : AttributesBlock V) : Prop :=
  b.active_count ≤ b.capacity ∧ b.used.length = b.capacity ∧
    (∀ i, b.used[i]? = some true ↔ i < b.active_count) ∧
    ∀ c ∈ b.columns, c.2.length = b.capacity

/-- Well-formed container: every block is well formed and carries exactly the columns of the
schema, under distinct names, with values of the declared types. -/
def AttributesBlockContainer.valid {F : Type} (c : AttributesBlockContainer F) : Prop :=
  (c.schema.map (fun s => s.1)).Nodup ∧
  ∀ b ∈ c.blocks, b.valid ∧ b.columns.map (fun col => col.1) = c.schema.map (fun s => s.1) ∧
    ∀ col ∈ b.columns, ∀ v ∈ col.2, c.schema.lookup col.1 = some v.type

/-! ## The particle state registry -/

/-- Modelled from the spec: the name-keyed mapping `StringMap` (section 4.4), as the sequence of
its entries in iteration order. -/
structure StringMap (V : Type) where
  entries : List (String × V)
deriving DecidableEq, Repr

/-- The keys are unique. -/
def StringMap.valid {V : Type} (m : StringMap V) : Prop :=
  (m.entries.map (fun e => e.1)).Nodup

/-- Modelled from the spec: `lookup_ptr(key)`, the value stored under the key or the "not
found" signal. -/
def StringMap.lookup_ptr {V : Type} (m : StringMap V) (key : String) : Option V :=
  m.entries.lookup key

/-- Modelled from the spec: `lookup_default(key, default_value)`. -/
def StringMap.lookup_default {V : Type} (m : StringMap V) (key : String) (default_value : V) :
    V :=
  match m.entries.lookup key with
  | some v => v
  | none => default_value

/-- Modelled from the spec: the values visited by `foreach_value`, in iteration order. -/
def StringMap.foreach_value {V : Type} (m : StringMap V) : List V :=
  m.entries.map (fun e => e.2)

/-- Modelled from the spec: the pairs visited by `foreach_key_value_pair`, in iteration
order. -/
def StringMap.foreach_key_value_pair {V : Type} (m : StringMap V) : List (String × V) :=
  m.entries

/-- The values of the map seen as the non-null pointers `V *` that the map stores. -/
def StringMap.as_pointers {V : Type} (m : StringMap V) : StringMap (Option V) :=
  ⟨m.entries.map (fun e => (e.1, some e.2))⟩

/-- The class `ParticlesState`: the registry of particle containers. -/
structure ParticlesState (F : Type) where
  particle_containers : StringMap (AttributesBlockContainer F)
deriving DecidableEq, Repr

/-- The class `SimulationState`, as far as the wrapper reads it. -/
structure SimulationState (F : Type) where
  particles : ParticlesState F
deriving DecidableEq, Repr

/-! ## Guarded allocator

`MEM_calloc_arrayN`, `MEM_malloc_arrayN`, `MEM_reallocN` and `MEM_freeN` belong to the
allocator library, which is not part of the sources at hand. -/

/-- Modelled from the spec: the allocation-tracking harness of section 8: the addresses of the
blocks that are allocated and not yet released, and the next fresh address. -/
structure Heap where
  next : Nat
  live : List Nat
deriving DecidableEq, Repr

/-- Every outstanding block was handed out by the allocator, once. -/
def Heap.valid (h : Heap) : Prop :=
  h.live.Nodup ∧ ∀ p ∈ h.live, p < h.next

/-- Modelled from the spec: `MEM_malloc_arrayN` / `MEM_calloc_arrayN` hand out a fresh block. -/
def Heap.alloc (h : Heap) : Nat × Heap :=
  (h.next, { next := h.next + 1, live := h.next :: h.live })

/-- Modelled from the spec: `MEM_freeN` releases an outstanding block; releasing a block that is
not outstanding (a second time, or never allocated) is an error (`none`). -/
def Heap.free (h : Heap) (p : Nat) : Option Heap :=
  if p ∈ h.live then some { h with live := h.live.erase p } else none

/-- Modelled from the spec: `MEM_reallocN` hands out a fresh block for the new size and releases
the old one, when there is one. -/
def Heap.realloc (h : Heap) (old : Option Nat) : Option (Nat × Heap) :=
  match old with
  | none => some h.alloc
  | some p =>
    match h.free p with
    | some h1 => some h1.alloc
    | none => none

/-! ## The frame cache (DNA_modifier_types.h) -/

/-- The struct `BParticlesAttributeCacheFloat`; `values` is a nullable pointer to a float
buffer, given with the buffer's contents. -/
structure BParticlesAttributeCacheFloat (F : Type) where
  name : String
  floats_per_particle : Nat
  values : Option (Nat × List F)
deriving DecidableEq, Repr

/-- The struct `BParticlesTypeCache`. -/
structure BParticlesTypeCache (F : Type) where
  name : String
  particle_amount : Nat
  num_attributes_float : Nat
  attributes_float : Option (Nat × List (BParticlesAttributeCacheFloat F))
deriving DecidableEq, Repr

/-- The struct `BParticlesFrameCache`. -/
structure BParticlesFrameCache (F : Type) where
  frame : F
  num_particle_types : Nat
  particle_types : Option (Nat × List (BParticlesTypeCache F))
deriving DecidableEq, Repr

/-- The cache fields of the struct `BParticlesModifierData`. -/
structure BParticlesModifierData (F : Type) where
  cached_frames : Option (Nat × List (BParticlesFrameCache F))
  num_cached_frames : Nat
deriving DecidableEq, Repr

/-- Sizes of the `name` character arrays of `BParticlesTypeCache` and of
`BParticlesAttributeCacheFloat`; the struct declarations are not part of the sources at hand,
so the sizes are parameters. -/
structure NameSizes where
  sizeof_type_name : Nat
  sizeof_attribute_name : Nat
deriving DecidableEq, Repr

/-- The C string left in a zero-filled destination by `strncpy(dst, src, n)`. -/
def strncpy (src : String) (n : Nat) : String :=
  String.mk (src.data.take n)

/-- The elements seen by `BLI::ref_c_array(array, size)`: the first `size` elements behind the
pointer.  Undefined (`none`) when the array behind the pointer is shorter. -/
def ref_c_array {α : Type} (array : Option (Nat × List α)) (size : Nat) : Option (List α) :=
  match array with
  | some (_, elems) => if size ≤ elems.length then some (elems.take size) else none
  | none => if size = 0 then some [] else none

/-- Body of the innermost loop of `BParticles_modifier_free_cache` (lines 190-192): the value
buffer of one attribute entry, unless the pointer is null. -/
def free_cached_attribute {F : Type} (heap : Heap)
    (cached_attribute : BParticlesAttributeCacheFloat F) : Option Heap :=
  match cached_attribute.values with
  | some (p, _) => heap.free p
  | none => some heap

/-- Innermost loop of `BParticles_modifier_free_cache` with its trailing statement
(lines 188-196): the value buffers of one type record, then its attribute array. -/
def free_cached_type {F : Type} (heap : Heap) (cached_type : BParticlesTypeCache F) :
    Option Heap := do
  let attributes ← ref_c_array cached_type.attributes_float cached_type.num_attributes_float
  let heap ← attributes.foldlM free_cached_attribute heap
  match cached_type.attributes_float with
  | some (p, _) => heap.free p
  | none => some heap

/-- Middle loop of `BParticles_modifier_free_cache` with its trailing statement
(lines 186-200): the type records of one frame record, then the array holding them. -/
def free_cached_frame {F : Type} (heap : Heap) (cached_frame : BParticlesFrameCache F) :
    Option Heap := do
  let types ← ref_c_array cached_frame.particle_types cached_frame.num_particle_types
  let heap ← types.foldlM free_cached_type heap
  match cached_frame.particle_types with
  | some (p, _) => heap.free p
  | none => some heap

/-- The function `BParticles_modifier_free_cache`.  The assertion `BLI_assert` of the early
return is checked. -/
def BParticles_modifier_free_cache {F : Type} (bpmd : BParticlesModifierData F) (heap : Heap) :
    Option (BParticlesModifierData F × Heap) :=
  match bpmd.cached_frames with
  | none => if bpmd.num_cached_frames = 0 then some (bpmd, heap) else none
  | some (p, _) => do
    let frames ← ref_c_array bpmd.cached_frames bpmd.num_cached_frames
    let heap ← frames.foldlM free_cached_frame heap
    let heap ← heap.free p
    pure ({ bpmd with cached_frames := none, num_cached_frames := 0 }, heap)

/-- A zero-filled `BParticlesAttributeCacheFloat`, as `MEM_calloc_arrayN` leaves it. -/
def BParticlesAttributeCacheFloat.zero {F : Type} : BParticlesAttributeCacheFloat F :=
  ⟨"", 0, none⟩

/-- A zero-filled `BParticlesTypeCache`, as `MEM_calloc_arrayN` leaves it. -/
def BParticlesTypeCache.zero {F : Type} : BParticlesTypeCache F :=
  ⟨"", 0, 0, none⟩

/-- One attribute of a cached type (lines 326-334, 336-344, 346-354): the entry `index` of
`attributes_float` gets its width and name, a fresh value buffer of `particle_amount`
elements, and the flattened attribute in that buffer. -/
def cache_attribute {F : Type} (sizes : NameSizes) (container : AttributesBlockContainer F)
    (particle_amount : Nat) (index : Nat) (name : String) (type : CPPType)
    (st : Heap × List (BParticlesAttributeCacheFloat F)) :
    Option (Heap × List (BParticlesAttributeCacheFloat F)) := do
  let (p, heap) := st.1.alloc
  let values ← container.flatten_attribute_into name type particle_amount
  let attributes ← modifyAt st.2 index (fun a =>
    { a with floats_per_particle := type.floats_per_element
             name := strncpy name sizes.sizeof_attribute_name
             values := some (p, values) })
  pure (heap, attributes)

/-- Body of the loop over the containers in `BParticles_modifier_cache_state`
(lines 316-354), for the entry `particle_types[i]`. -/
def cache_type {F : Type} (sizes : NameSizes) (container_name : String)
    (container : AttributesBlockContainer F) (heap : Heap)
    (cached_type : BParticlesTypeCache F) : Option (Heap × BParticlesTypeCache F) := do
  let particle_amount := container.count_active
  let num_attributes_float := 3
  let (p, heap) := heap.alloc
  let attributes := List.replicate num_attributes_float BParticlesAttributeCacheFloat.zero
  let st ← cache_attribute sizes container particle_amount 0 "Position" .Float3
    (heap, attributes)
  let st ← cache_attribute sizes container particle_amount 1 "Size" .Float st
  let st ← cache_attribute sizes container particle_amount 2 "Color" .RgbaF st
  pure (st.1,
    { cached_type with
      name := strncpy container_name (sizes.sizeof_type_name - 1)
      particle_amount := particle_amount
      num_attributes_float := num_attributes_float
      attributes_float := some (p, st.2) })

/-- The loop over `containers.index_iterator()` in `BParticles_modifier_cache_state`
(lines 315-355), iteration `i`: the state is the heap and the array `particle_types`. -/
def cache_types_step {F : Type} (sizes : NameSizes) (container_names : List String)
    (containers : List (AttributesBlockContainer F))
    (s : Heap × List (BParticlesTypeCache F)) (i : Nat) :
    Option (Heap × List (BParticlesTypeCache F)) := do
  let container ← containers[i]?
  let name ← container_names[i]?
  let old ← s.2[i]?
  let r ← cache_type sizes name container s.1 old
  pure (r.1, s.2.set i r.2)

/-- The function `BParticles_modifier_cache_state`. -/
def BParticles_modifier_cache_state {F : Type} (sizes : NameSizes)
    (bpmd : BParticlesModifierData F) (heap : Heap) (state : SimulationState F) (frame : F) :
    Option (BParticlesModifierData F × Heap) := do
  let pairs := state.particles.particle_containers.foreach_key_value_pair
  let container_names := pairs.map (fun kv => kv.1)
  let containers := pairs.map (fun kv => kv.2)
  let (p_types, heap) := heap.alloc
  let particle_types := List.replicate containers.length BParticlesTypeCache.zero
  let (heap, particle_types) ← for_uint containers.length
    (cache_types_step sizes container_names containers) (heap, particle_types)
  let cached_frame : BParticlesFrameCache F :=
    { frame := frame
      num_particle_types := containers.length
      particle_types := some (p_types, particle_types) }
  let old_frames ← ref_c_array bpmd.cached_frames bpmd.num_cached_frames
  let (p_frames, heap) ← heap.realloc (bpmd.cached_frames.map (fun a => a.1))
  pure ({ cached_frames := some (p_frames, old_frames ++ [cached_frame])
          num_cached_frames := bpmd.num_cached_frames + 1 }, heap)

/-- The empty cache: no frame-record array. -/
def BParticlesModifierData.empty {F : Type} : BParticlesModifierData F :=
  ⟨none, 0⟩

/-- Caching a sequence of frames, one call of `BParticles_modifier_cache_state` per frame. -/
def cache_states {F : Type} (sizes : NameSizes) (bpmd : BParticlesModifierData F) (heap : Heap)
    (calls : List (SimulationState F × F)) : Option (BParticlesModifierData F × Heap) :=
  calls.foldlM (fun s call => BParticles_modifier_cache_state sizes s.1 s.2 call.1 call.2)
    (bpmd, heap)

/-- Addresses of the heap blocks a type record points to. -/
def BParticlesTypeCache.pointers {F : Type} (t : BParticlesTypeCache F) : List Nat :=
  match t.attributes_float with
  | some (p, attributes) =>
    attributes.filterMap (fun a => a.values.map (fun v => v.1)) ++ [p]
  | none => []

/-- Addresses of the heap blocks a frame record points to. -/
def BParticlesFrameCache.pointers {F : Type} (f : BParticlesFrameCache F) : List Nat :=
  match f.particle_types with
  | some (p, types) => types.flatMap BParticlesTypeCache.pointers ++ [p]
  | none => []

/-- Addresses of the heap blocks the cache points to. -/
def BParticlesModifierData.pointers {F : Type} (bpmd : BParticlesModifierData F) : List Nat :=
  match bpmd.cached_frames with
  | some (p, frames) => frames.flatMap BParticlesFrameCache.pointers ++ [p]
  | none => []

/-- The counts of a type record agree with the array behind its pointer. -/
def BParticlesTypeCache.valid {F : Type} (t : BParticlesTypeCache F) : Prop :=
  match t.attributes_float with
  | some (_, attributes) => attributes.length = t.num_attributes_float
  | none => t.num_attributes_float = 0

/-- The counts of a frame record and of its type records agree with the arrays behind their
pointers. -/
def BParticlesFrameCache.valid {F : Type} (f : BParticlesFrameCache F) : Prop :=
  match f.particle_types with
  | some (_, types) => types.length = f.num_particle_types ∧ ∀ t ∈ types, t.valid
  | none => f.num_particle_types = 0

/-- A modifier cache holding `num_cached_frames` frame records: all counts agree with the
arrays behind the pointers, and the null cache holds no record. -/
def BParticlesModifierData.valid {F : Type} (bpmd : BParticlesModifierData F) : Prop :=
  match bpmd.cached_frames with
  | some (_, frames) => frames.length = bpmd.num_cached_frames ∧ ∀ f ∈ frames, f.valid
  | none => bpmd.num_cached_frames = 0

/-- The cache owns its heap blocks: they are pairwise distinct and outstanding. -/
def BParticlesModifierData.owned {F : Type} (bpmd : BParticlesModifierData F) (heap : Heap) :
    Prop :=
  bpmd.pointers.Nodup ∧ ∀ p ∈ bpmd.pointers, p ∈ heap.live

/-- The frame records of a cache. -/
def BParticlesModifierData.frames {F : Type} (bpmd : BParticlesModifierData F) :
    List (BParticlesFrameCache F) :=
  match bpmd.cached_frames with
  | some (_, frames) => frames
  | none => []

/-! ## Mesh extraction (c_wrapper.cpp, lines 207-291) -/

/-- The accumulation `foreach_value([&](container) { vector.extend(flatten(container)); })`. -/
def extend_all {α β : Type} (containers : List β) (flatten : β → Option (List α)) :
    Option (List α) :=
  containers.foldlM (fun acc container => do
    let values ← flatten container
    pure (acc ++ values)) []

/-- The function `BParticles_modifier_point_mesh_from_state`. -/
def BParticles_modifier_point_mesh_from_state {F : Type} [CFloat F] (state : SimulationState F) :
    Option (Mesh F) := do
  let positions ← extend_all state.particles.particle_containers.foreach_value
    (fun container => container.flatten_attribute_float3 "Position")
  distribute_points positions

/-- The function `BParticles_modifier_mesh_from_state`: the three vectors are extended
container by container, then handed to `distribute_tetrahedons`. -/
def BParticles_modifier_mesh_from_state {F : Type} [CFloat F] (state : SimulationState F) :
    Option (Mesh F) := do
  let acc ← state.particles.particle_containers.foreach_value.foldlM
    (fun (acc : List (float3 F) × List F × List (rgba_f F)) container => do
      let positions ← container.flatten_attribute_float3 "Position"
      let colors ← container.flatten_attribute_rgba_f "Color"
      let sizes ← container.flatten_attribute_float "Size"
      pure (acc.1 ++ positions, acc.2.1 ++ sizes, acc.2.2 ++ colors))
    ([], [], [])
  distribute_tetrahedons acc.1 acc.2.1 acc.2.2

/-- A float buffer read as an array of `float3`: three consecutive floats per element. -/
def float3_array {F : Type} : List F → List (float3 F)
  | x :: y :: z :: rest => ⟨x, y, z⟩ :: float3_array rest
  | _ => []

/-- A float buffer read as an array of `rgba_f`: four consecutive floats per element. -/
def rgba_f_array {F : Type} : List F → List (rgba_f F)
  | r :: g :: b :: a :: rest => ⟨r, g, b, a⟩ :: rgba_f_array rest
  | _ => []

/-- The floats read through `ArrayRef<T>((T *)values, size)` when `T` occupies
`floats_per_element` floats: the first `size * floats_per_element` floats of the buffer.
Undefined (`none`) when the buffer is shorter, or null with `size > 0`. -/
def array_ref_floats {F : Type} (values : Option (Nat × List F)) (floats_per_element : Nat)
    (size : Nat) : Option (List F) :=
  match values with
  | some (_, buffer) =>
    if size * floats_per_element ≤ buffer.length then
      some (buffer.take (size * floats_per_element))
    else none
  | none => if size = 0 then some [] else none

/-- Body of the loop of `BParticles_modifier_mesh_from_cache` (lines 246-251) for the type
record `particle_types[i]`. -/
def mesh_from_cache_step {F : Type} (particle_types : List (BParticlesTypeCache F))
    (acc : List (float3 F) × List F × List (rgba_f F)) (i : Nat) :
    Option (List (float3 F) × List F × List (rgba_f F)) := do
  let type ← particle_types[i]?
  let attributes_float ← type.attributes_float
  let a0 ← attributes_float.2[0]?
  let positions ← array_ref_floats a0.values 3 type.particle_amount
  let a1 ← attributes_float.2[1]?
  let sizes ← array_ref_floats a1.values 1 type.particle_amount
  let a2 ← attributes_float.2[2]?
  let colors ← array_ref_floats a2.values 4 type.particle_amount
  pure (acc.1 ++ float3_array positions, acc.2.1 ++ sizes, acc.2.2 ++ rgba_f_array colors)

/-- The function `BParticles_modifier_mesh_from_cache`. -/
def BParticles_modifier_mesh_from_cache {F : Type} [CFloat F]
    (cached_frame : BParticlesFrameCache F) : Option (Mesh F) := do
  let particle_types := match cached_frame.particle_types with
    | some (_, types) => types
    | none => []
  let acc ← for_uint cached_frame.num_particle_types (mesh_from_cache_step particle_types)
    ([], [], [])
  distribute_tetrahedons acc.1 acc.2.1 acc.2.2

/-- The function `BParticles_state_extract_type__tetrahedons`; the state is returned along
with the mesh. -/
def BParticles_state_extract_type__tetrahedons {F : Type} [CFloat F]
    (simulation_state : SimulationState F) (particle_type : String) :
    Option (Mesh F × SimulationState F) :=
  let particles := simulation_state.particles
  match particles.particle_containers.lookup_ptr particle_type with
  | none => some (BKE_mesh_new_nomain 0 0 0 0 0, simulation_state)
  | some container => do
    let positions ← container.flatten_attribute_float3 "Position"
    let sizes ← container.flatten_attribute_float "Size"
    let colors ← container.flatten_attribute_rgba_f "Color"
    let mesh ← distribute_tetrahedons positions sizes colors
    pure (mesh, simulation_state)

/-- The function `BParticles_state_extract_type__points`; the state is returned along with the
mesh. -/
def BParticles_state_extract_type__points {F : Type} [CFloat F]
    (simulation_state : SimulationState F) (particle_type : String) :
    Option (Mesh F × SimulationState F) :=
  let particles := simulation_state.particles
  match particles.particle_containers.as_pointers.lookup_default particle_type none with
  | none => some (BKE_mesh_new_nomain 0 0 0 0 0, simulation_state)
  | some container => do
    let positions ← container.flatten_attribute_float3 "Position"
    let mesh ← distribute_points positions
    pure (mesh, simulation_state)

/-! ## Auxiliary definitions for the tetrahedron construction -/

/-- The array after the assignments `xs[off + t] = g t xs[off + t]` for `t < w`. -/
def write_block {α : Type} (xs : List α) (off w : Nat) (g : Nat → α → α) : List α :=
  xs.mapIdx (fun k x => if off ≤ k ∧ k < off + w then g (k - off) x else x)

/-- The state after the assignments made for one instance, from the values read for the instance
and the four offsets. -/
def instance_writes {F : Type} [CFloat F] (center : float3 F) (scale : F) (loop_col : MLoopCol)
    (vertex_offset face_offset loop_offset edge_offset : Nat) (st : Mesh F × List MLoopCol) :
    Mesh F × List MLoopCol :=
  ({ st.1 with
      mvert := write_block st.1.mvert vertex_offset 4 (fun i v =>
        { v with co := float3.add center (float3.mul
            ((tetrahedon_vertices (F := F)).getD i ⟨CFloat.ofInt 0, CFloat.ofInt 0, CFloat.ofInt 0⟩)
            scale) })
      mpoly := write_block st.1.mpoly face_offset 4 (fun i _ =>
        ⟨uint_add loop_offset (tetrahedon_loop_starts.getD i 0),
         tetrahedon_loop_lengths.getD i 0⟩)
      mloop := write_block st.1.mloop loop_offset 12 (fun i _ =>
        ⟨uint_add vertex_offset (tetrahedon_loop_vertices.getD i 0),
         uint_add edge_offset (tetrahedon_loop_edges.getD i 0)⟩)
      medge := write_block st.1.medge edge_offset 6 (fun i _ =>
        ⟨uint_add vertex_offset (tetrahedon_edges.getD i (0, 0)).1,
         uint_add vertex_offset (tetrahedon_edges.getD i (0, 0)).2⟩) },
   write_block st.2 loop_offset 12 (fun _ _ => loop_col))

/-- The slots of instance `i`: everything outside the vertex slots `[4i, 4i+4)`, the edge slots
`[6i, 6i+6)`, the loop and loop-colour slots `[12i, 12i+12)` and the polygon slots `[4i, 4i+4)`
is the same in `st2` as in `st1`, and no array changed its size. -/
def writes_only_slots_of {F : Type} (i : Nat) (st1 st2 : Mesh F × List MLoopCol) : Prop :=
  (st2.1.mvert.length = st1.1.mvert.length ∧ st2.1.medge.length = st1.1.medge.length ∧
    st2.1.mloop.length = st1.1.mloop.length ∧ st2.2.length = st1.2.length ∧
    st2.1.mpoly.length = st1.1.mpoly.length) ∧
  (∀ k, ¬ (4 * i ≤ k ∧ k < 4 * i + 4) → st2.1.mvert[k]? = st1.1.mvert[k]?) ∧
  (∀ k, ¬ (6 * i ≤ k ∧ k < 6 * i + 6) → st2.1.medge[k]? = st1.1.medge[k]?) ∧
  (∀ k, ¬ (12 * i ≤ k ∧ k < 12 * i + 12) → st2.1.mloop[k]? = st1.1.mloop[k]?) ∧
  (∀ k, ¬ (12 * i ≤ k ∧ k < 12 * i + 12) → st2.2[k]? = st1.2[k]?) ∧
  (∀ k, ¬ (4 * i ≤ k ∧ k < 4 * i + 4) → st2.1.mpoly[k]? = st1.1.mpoly[k]?)

/-- Bounds under which the work for instance `i` is defined on the state `st`. -/
def instance_in_bounds {F : Type} (centers : List (float3 F)) (scales : List F)
    (colors : List (rgba_f F)) (st : Mesh F × List MLoopCol) (i : Nat) : Prop :=
  12 * i + 12 ≤ UINT_SIZE ∧ i < centers.length ∧ i < scales.length ∧ i < colors.length ∧
    4 * i + 4 ≤ st.1.mvert.length ∧ 4 * i + 4 ≤ st.1.mpoly.length ∧
    12 * i + 12 ≤ st.1.mloop.length ∧ 12 * i + 12 ≤ st.2.length ∧
    6 * i + 6 ≤ st.1.medge.length

/-- Example input with `2^31 + 1` particles. -/
def overflow_centers : List (float3 Int) := List.replicate (2 ^ 31 + 1) ⟨1, 1, 1⟩

/-- One scale for each of the `2^31 + 1` particles. -/
def overflow_scales : List Int := List.replicate (2 ^ 31 + 1) 1

/-- One colour for each of the `2^31 + 1` particles. -/
def overflow_colors : List (rgba_f Int) := List.replicate (2 ^ 31 + 1) ⟨1, 1, 1, 1⟩

/-- The arrays of a mesh of one tetrahedron, zero-filled, with its loop-colour layer. -/
def one_tetrahedron_arrays : Mesh Int × List MLoopCol :=
  (BKE_mesh_new_nomain 4 6 0 12 4, List.replicate 12 mloopcol_default)

/-- Example input with 178956971 particles, the least `n` with `12 * n ≥ 2^31`. -/
def tight_centers : List (float3 Int) := List.replicate 178956971 ⟨1, 1, 1⟩

/-- One scale for each of the 178956971 particles. -/
def tight_scales : List Int := List.replicate 178956971 1

/-- One colour for each of the 178956971 particles. -/
def tight_colors : List (rgba_f Int) := List.replicate 178956971 ⟨1, 1, 1, 1⟩

/-! ## Example data -/

/-- A full block of two particles. -/
def dust_block_0 : AttributesBlock (GenericValue Int) :=
  { capacity := 2
    active_count := 2
    used := [true, true]
    columns := [("Position", [.ofFloat3 ⟨1, 2, 3⟩, .ofFloat3 ⟨4, 5, 6⟩]),
                ("Size", [.ofFloat 7, .ofFloat 8]),
                ("Color", [.ofRgbaF ⟨1, 1, 1, 1⟩, .ofRgbaF ⟨2, 2, 2, 2⟩])] }

/-- A block with one particle and one free slot. -/
def dust_block_1 : AttributesBlock (GenericValue Int) :=
  { capacity := 2
    active_count := 1
    used := [true, false]
    columns := [("Position", [.ofFloat3 ⟨10, 20, 30⟩, .ofFloat3 ⟨0, 0, 0⟩]),
                ("Size", [.ofFloat 70, .ofFloat 0]),
                ("Color", [.ofRgbaF ⟨3, 3, 3, 3⟩, .ofRgbaF ⟨0, 0, 0, 0⟩])] }

/-- A container of three particles in two blocks. -/
def dust_container : AttributesBlockContainer Int :=
  { schema := [("Position", .Float3), ("Size", .Float), ("Color", .RgbaF)]
    block_capacity := 2
    blocks := [dust_block_0, dust_block_1] }

/-- A simulation state with the single particle type "Dust". -/
def dust_state : SimulationState Int :=
  ⟨⟨⟨[("Dust", dust_container)]⟩⟩⟩

/-- Two particle centres. -/
def two_centers : List (float3 Int) := [⟨10, 20, 30⟩, ⟨1, 2, 3⟩]

/-- Two particle scales. -/
def two_scales : List Int := [2, 1]

/-- Two particle colours: red and green, with full alpha. -/
def two_colors : List (rgba_f Int) := [⟨1, 0, 0, 1⟩, ⟨0, 1, 0, 1⟩]

/-! ## Auxiliary definitions for the frame cache -/

/-- The attribute is part of the container's schema with the given type. -/
def AttributesBlockContainer.has_attribute {F : Type} (c : AttributesBlockContainer F)
    (name : String) (type : CPPType) : Prop :=
  c.schema.lookup name = some type

/-- A simulation state whose particle types are well-formed containers carrying the fixed
attribute set of the frame cache and of the mesh construction: "Position" (`float3`), "Size"
(`float`) and "Color" (`rgba_f`). -/
def SimulationState.valid {F : Type} (state : SimulationState F) : Prop :=
  ∀ e ∈ state.particles.particle_containers.entries,
    e.2.valid ∧ e.2.has_attribute "Position" .Float3 ∧ e.2.has_attribute "Size" .Float ∧
      e.2.has_attribute "Color" .RgbaF

/-- The type records of a frame, container by container: what the loop over the containers in
`BParticles_modifier_cache_state` leaves in `particle_types`. -/
def cache_types {F : Type} (sizes : NameSizes) :
    List (String × AttributesBlockContainer F) → Heap → Option (Heap × List (BParticlesTypeCache F))
  | [], heap => some (heap, [])
  | kv :: rest, heap =>
    match cache_type sizes kv.1 kv.2 heap BParticlesTypeCache.zero with
    | some (heap1, t) =>
      match cache_types sizes rest heap1 with
      | some (heap2, ts) => some (heap2, t :: ts)
      | none => none
    | none => none

/-- Releasing a list of blocks one after the other. -/
def Heap.free_all (heap : Heap) (ps : List Nat) : Option Heap :=
  ps.foldlM Heap.free heap

/-- The heap blocks of the cache are outstanding, distinct from each other, and the other
outstanding blocks are `others`. -/
def cache_owns {F : Type} (bpmd : BParticlesModifierData F) (heap : Heap) (others : List Nat) :
    Prop :=
  bpmd.valid ∧ heap.valid ∧ heap.live.Perm (bpmd.pointers ++ others)

/-- The column of a block for an attribute; empty when the block lacks the attribute. -/
def AttributesBlock.column {V : Type} (b : AttributesBlock V) (name : String) : List V :=
  (b.columns.lookup name).getD []

/-- The canonical flattening: the live spans of the active blocks, in block order. -/
def AttributesBlockContainer.live_values {F : Type} (c : AttributesBlockContainer F)
    (name : String) : List (GenericValue F) :=
  (c.active_blocks.map (fun b => (b.column name).take b.active_count)).flatten

/-- The type record `t` is the one `BParticles_modifier_cache_state` writes for the registry
entry `kv`: name and particle count of the container, and the three attribute entries
"Position", "Size", "Color" with the flattened attributes in their value buffers. -/
def is_type_record {F : Type} (sizes : NameSizes) (kv : String × AttributesBlockContainer F)
    (t : BParticlesTypeCache F) : Prop :=
  t.name = strncpy kv.1 (sizes.sizeof_type_name - 1) ∧
  t.particle_amount = kv.2.count_active ∧
  t.num_attributes_float = 3 ∧
  ∃ p p0 p1 p2 vp vs vc,
    t.attributes_float = some (p,
      [⟨strncpy "Position" sizes.sizeof_attribute_name, 3, some (p0, vp)⟩,
       ⟨strncpy "Size" sizes.sizeof_attribute_name, 1, some (p1, vs)⟩,
       ⟨strncpy "Color" sizes.sizeof_attribute_name, 4, some (p2, vc)⟩]) ∧
    kv.2.flatten_attribute_into "Position" .Float3 kv.2.count_active = some vp ∧
    kv.2.flatten_attribute_into "Size" .Float kv.2.count_active = some vs ∧
    kv.2.flatten_attribute_into "Color" .RgbaF kv.2.count_active = some vc

/-- The value buffer of the attribute entry `a` holds `amount * floats_per_particle` floats,
which are the floats of the container's flattened attribute `name`. -/
def holds_flattened {F : Type} (c : AttributesBlockContainer F) (name : String)
    (type : CPPType) (amount : Nat) (a : BParticlesAttributeCacheFloat F) : Prop :=
  ∃ p values flat, a.values = some (p, values) ∧
    values.length = amount * a.floats_per_particle ∧
    c.flatten_attribute name type = some flat ∧
    values = flat.flatMap GenericValue.floats

/-- A full block of five identical particles. -/
def ten_block : AttributesBlock (GenericValue Int) :=
  { capacity := 5
    active_count := 5
    used := List.replicate 5 true
    columns := [("Position", List.replicate 5 (.ofFloat3 ⟨1, 2, 3⟩)),
                ("Size", List.replicate 5 (.ofFloat 7)),
                ("Color", List.replicate 5 (.ofRgbaF ⟨1, 1, 1, 1⟩))] }

/-- A simulation state with the single particle type "Dust" of 10 active particles, in two
blocks. -/
def ten_state : SimulationState Int :=
  ⟨⟨⟨[("Dust", { schema := [("Position", .Float3), ("Size", .Float), ("Color", .RgbaF)]
                 block_capacity := 5
                 blocks := [ten_block, ten_block] })]⟩⟩⟩

/-- A block as far as one attribute is concerned: distinct column names, and a column for the
attribute that covers the live slots. -/
def block_has_column {V : Type} (name : String) (b : AttributesBlock V) : Prop :=
  (b.columns.map (fun c => c.1)).Nodup ∧
    ∃ column, b.columns.lookup name = some column ∧ b.active_count ≤ column.length

/-- The total number of live slots of a list of blocks. -/
def total_active {V : Type} (blocks : List (AttributesBlock V)) : Nat :=
  (blocks.map (fun b => b.active_count)).sum

/-! ## Auxiliary definitions for the contents of the tetrahedron mesh -/

/-- The loop colour of a particle colour: its conversion to bytes (lines 119-121). -/
def loop_color {F : Type} [CFloat F] (color_f : rgba_f F) : MLoopCol :=
  ⟨(rgba_b.of_rgba_f color_f).r, (rgba_b.of_rgba_f color_f).g, (rgba_b.of_rgba_f color_f).b,
    (rgba_b.of_rgba_f color_f).a⟩

/-- The coordinate `co` is `centers[i] + tetrahedon_vertices[t] * scales[i]`. -/
def instance_vertex {F : Type} [CFloat F] (centers : List (float3 F)) (scales : List F)
    (i t : Nat) (co : float3 F) : Prop :=
  ∀ c s tv, centers[i]? = some c → scales[i]? = some s →
    (tetrahedon_vertices (F := F))[t]? = some tv → co = float3.add c (float3.mul tv s)

/-- First corner (position in `tetrahedon_loop_edges`) that uses each edge of the
tetrahedron. -/
def edge_corner_1 : List Nat := [0, 2, 3, 1, 4, 7]

/-- Second corner that uses each edge of the tetrahedron. -/
def edge_corner_2 : List Nat := [5, 6, 8, 9, 11, 10]

/-! ## Auxiliary definitions for the mesh built from a cached frame -/

/-- Body of the loop of `BParticles_modifier_mesh_from_cache` once the type record
`particle_types[i]` is read. -/
def mesh_from_cache_record {F : Type}
    (acc : List (float3 F) × List F × List (rgba_f F)) (type : BParticlesTypeCache F) :
    Option (List (float3 F) × List F × List (rgba_f F)) := do
  let attributes_float ← type.attributes_float
  let a0 ← attributes_float.2[0]?
  let positions ← array_ref_floats a0.values 3 type.particle_amount
  let a1 ← attributes_float.2[1]?
  let sizes ← array_ref_floats a1.values 1 type.particle_amount
  let a2 ← attributes_float.2[2]?
  let colors ← array_ref_floats a2.values 4 type.particle_amount
  pure (acc.1 ++ float3_array positions, acc.2.1 ++ sizes, acc.2.2 ++ rgba_f_array colors)

/-- Body of the `foreach_value` of `BParticles_modifier_mesh_from_state` for one container. -/
def mesh_from_state_container {F : Type}
    (acc : List (float3 F) × List F × List (rgba_f F)) (container : AttributesBlockContainer F) :
    Option (List (float3 F) × List F × List (rgba_f F)) := do
  let positions ← container.flatten_attribute_float3 "Position"
  let colors ← container.flatten_attribute_rgba_f "Color"
  let sizes ← container.flatten_attribute_float "Size"
  pure (acc.1 ++ positions, acc.2.1 ++ sizes, acc.2.2 ++ colors)

/-- The number of active particles of all containers of the state. -/
def SimulationState.count_active {F : Type} (state : SimulationState F) : Nat :=
  (state.particles.particle_containers.foreach_value.map (fun c => c.count_active)).sum

/-! ## Division on `float3` (BLI_math.hpp, lines 170-177 and 242-252) -/

/-- Division and comparison with zero on C `float`, uninterpreted like the other operations.
`eq_zero b` is the test `b == 0.0f`; the constant `0.0f` passes it. -/
class CFloatDiv (F : Type) extends CFloat F where
  div : F → F → F
  eq_zero : F → Bool
  eq_zero_zero : eq_zero (ofInt 0) = true

/-- The expression `a / b` on floats.  A division whose divisor compares equal to zero is
flagged as `none`, so a computation that ends in `some` divided by no zero. -/
def float_div {F : Type} [CFloatDiv F] (a b : F) : Option F :=
  if CFloatDiv.eq_zero b then none else some (CFloatDiv.div a b)

/-- The function `float3::safe_divide`. -/
def float3.safe_divide {F : Type} [CFloatDiv F] (a b : float3 F) : Option (float3 F) := do
  let x ← if CFloatDiv.eq_zero b.x then pure (CFloat.ofInt 0) else float_div a.x b.x
  let y ← if CFloatDiv.eq_zero b.y then pure (CFloat.ofInt 0) else float_div a.y b.y
  let z ← if CFloatDiv.eq_zero b.z then pure (CFloat.ofInt 0) else float_div a.z b.z
  pure ⟨x, y, z⟩

/-- Modelled from the spec: `is_zero_v3` (C math library, not part of the sources at hand) tells
whether a vector is the all-zero vector: every component compares equal to zero. -/
def is_zero_v3 {F : Type} [CFloatDiv F] (v : float3 F) : Bool :=
  CFloatDiv.eq_zero v.x && CFloatDiv.eq_zero v.y && CFloatDiv.eq_zero v.z

/-- The method `float3::is_zero`. -/
def float3.is_zero {F : Type} [CFloatDiv F] (v : float3 F) : Bool :=
  is_zero_v3 v

/-- The three component divisions of `operator/(float3 a, float3 b)`, after its assertion. -/
def float3.div_components {F : Type} [CFloatDiv F] (a b : float3 F) : Option (float3 F) := do
  let x ← float_div a.x b.x
  let y ← float_div a.y b.y
  let z ← float_div a.z b.z
  pure ⟨x, y, z⟩

/-- The `operator/(float3 a, float3 b)` of BLI_math.hpp.  The assertion
`BLI_assert(!b.is_zero())` is checked: a call that violates it is outside the operator's
precondition (`none`). -/
def float3.div {F : Type} [CFloatDiv F] (a b : float3 F) : Option (float3 F) :=
  if b.is_zero then none else float3.div_components a b

/-- Integers as a stand-in for `float`: truncating division, and the test `b = 0`. -/
instance instCFloatDivInt : CFloatDiv Int where
  div := fun a b => a / b
  eq_zero := fun b => decide (b = 0)
  eq_zero_zero := rfl

/-! ## Allocation of new particles in a container

`AttributesBlockContainer::new_particles` belongs to the container class, whose header and
implementation are not part of the sources at hand; it is modelled from the design document
(section 4.3). -/

/-- Modelled from the spec: the default value of an attribute type descriptor (section 4.1),
the zero value of the type. -/
def CPPType.default_value {F : Type} [CFloat F] : CPPType → GenericValue F
  | .Float => .ofFloat (CFloat.ofInt 0)
  | .Float3 => .ofFloat3 ⟨CFloat.ofInt 0, CFloat.ofInt 0, CFloat.ofInt 0⟩
  | .RgbaF => .ofRgbaF ⟨CFloat.ofInt 0, CFloat.ofInt 0, CFloat.ofInt 0, CFloat.ofInt 0⟩

/-- Modelled from the spec: up to `n` slots taken from one block by repeated
`try_allocate_slot()`, until the block signals "block full"; the block afterwards and the slots
obtained. -/
def AttributesBlock.allocate_slots {V : Type} (b : AttributesBlock V) :
    Nat → AttributesBlock V × List Nat
  | 0 => (b, [])
  | n + 1 =>
    match b.try_allocate_slot with
    | some (slot, b2) => ((b2.allocate_slots n).1, slot :: (b2.allocate_slots n).2)
    | none => (b, [])

/-- Modelled from the spec: the first-fit pass of `new_particles(n)` (section 4.3) over the
existing blocks, in block order: every block gives the slots it has left, as long as slots
are wanted.  `index` is the position of the first block of the list in the container. -/
def fill_blocks {V : Type} :
    List (AttributesBlock V) → Nat → Nat → List (AttributesBlock V) × List (Nat × Nat)
  | [], _, _ => ([], [])
  | b :: rest, index, n =>
    ((b.allocate_slots n).1 :: (fill_blocks rest (index + 1) (n - (b.allocate_slots n).2.length)).1,
     (b.allocate_slots n).2.map (fun slot => (index, slot)) ++
       (fill_blocks rest (index + 1) (n - (b.allocate_slots n).2.length)).2)

/-- Modelled from the spec: the second pass of `new_particles(n)` (section 4.3): while slots are
still wanted, a new block is created and gives its slots.  The recursion is bounded by `fuel`
block creations; it ends without a result (`none`) when the fuel is used up, which happens
only when the blocks have no slot at all. -/
def create_blocks {V : Type} (capacity : Nat) (defaults : List (String × V)) :
    Nat → Nat → Nat → Option (List (AttributesBlock V) × List (Nat × Nat))
  | _, _, 0 => some ([], [])
  | 0, _, _ + 1 => none
  | fuel + 1, index, n + 1 =>
    match create_blocks capacity defaults fuel (index + 1)
        (n + 1 - ((AttributesBlock.new capacity defaults).allocate_slots (n + 1)).2.length) with
    | some rest =>
      some (((AttributesBlock.new capacity defaults).allocate_slots (n + 1)).1 :: rest.1,
        ((AttributesBlock.new capacity defaults).allocate_slots (n + 1)).2.map
          (fun slot => (index, slot)) ++ rest.2)
    | none => none

/-- Modelled from the spec: `new_particles(n)` (section 4.3) allocates `n` slots across the
existing blocks, first fit, and creates new blocks for the slots that are still wanted; it
returns the container and the (block, slot) addresses.  The container class is not part of
the sources at hand. -/
def AttributesBlockContainer.new_particles {F : Type} [CFloat F]
    (c : AttributesBlockContainer F) (n : Nat) :
    Option (AttributesBlockContainer F × List (Nat × Nat)) :=
  match create_blocks c.block_capacity (c.schema.map (fun s => (s.1, s.2.default_value)))
      (n - (fill_blocks c.blocks 0 n).2.length) c.blocks.length
      (n - (fill_blocks c.blocks 0 n).2.length) with
  | some created =>
    some ({ c with blocks := (fill_blocks c.blocks 0 n).1 ++ created.1 },
      (fill_blocks c.blocks 0 n).2 ++ created.2)
  | none => none

/-- The quotient `a / b` rounded up. -/
def ceil_div (a b : Nat) : Nat := (a + b - 1) / b

/-- The blocks of the container have the container's block capacity and at most as many live
slots. -/
def AttributesBlockContainer.uniform {F : Type} (c : AttributesBlockContainer F) : Prop :=
  ∀ b ∈ c.blocks, b.capacity = c.block_capacity ∧ b.active_count ≤ b.capacity

/-- The scenario of section 8 after the free: capacity 4, two blocks, three live particles in
block 0 and none in block 1. -/
def scenario_container : AttributesBlockContainer Int :=
  { schema := [("Position", .Float3)]
    block_capacity := 4
    blocks := [{ capacity := 4
                 active_count := 3
                 used := [true, true, true, false]
                 columns := [("Position", [.ofFloat3 ⟨0, 0, 0⟩, .ofFloat3 ⟨3, 0, 0⟩,
                   .ofFloat3 ⟨2, 0, 0⟩, .ofFloat3 ⟨3, 0, 0⟩])] },
               AttributesBlock.new 4 [("Position", .ofFloat3 ⟨0, 0, 0⟩)]] }

/-! ## A state with many particles -/

/-- A full block of `n` particles at the origin. -/
def crowd_block (n : Nat) : AttributesBlock (GenericValue Int) :=
  { capacity := n
    active_count := n
    used := List.replicate n true
    columns := [("Position", List.replicate n (.ofFloat3 ⟨0, 0, 0⟩))] }

/-- A container holding one full block of `n` particles. -/
def crowd_container (n : Nat) : AttributesBlockContainer Int :=
  { schema := [("Position", .Float3)]
    block_capacity := n
    blocks := [crowd_block n] }

/-- A simulation state with the single particle type "Crowd" of `n` active particles. -/
def crowd_state (n : Nat) : SimulationState Int :=
  ⟨⟨⟨[("Crowd", crowd_container n)]⟩⟩⟩

/-! # Theorems -/

/-! ## Lookup of a particle type -/

theorem lookup_eq_none_of_not_key {V : Type} (key : String) :
    ∀ (entries : List (String × V)), (∀ e ∈ entries, e.1 ≠ key) → entries.lookup key = none
  | [], _ => rfl
  | (k, v) :: rest, h => by
    have hk : k ≠ key := h (k, v) (List.mem_cons_self _ _)
    have hrest := lookup_eq_none_of_not_key key rest
      (fun e he => h e (List.mem_cons_of_mem _ he))
    have hbeq : (key == k) = false := by
      simp only [beq_eq_false_iff_ne, ne_eq]
      exact fun h2 => hk h2.symm
    simp [List.lookup, hbeq, hrest]

/-- C1: for every simulation state and every particle-type name that is not a key of the
registry, `BParticles_state_extract_type__tetrahedons` and
`BParticles_state_extract_type__points` both return the empty mesh (0 vertices, 0 edges,
0 loops, 0 polygons) instead of failing, and the state they leave is the state they got. -/
theorem extract_type_absent {F : Type} [CFloat F] (state : SimulationState F)
    (particle_type : String)
    (h : ∀ e ∈ state.particles.particle_containers.entries, e.1 ≠ particle_type) :
    BParticles_state_extract_type__tetrahedons state particle_type
        = some (⟨0, 0, 0, 0, [], [], [], [], []⟩, state) ∧
    BParticles_state_extract_type__points state particle_type
        = some (⟨0, 0, 0, 0, [], [], [], [], []⟩, state) := by
  have h1 := lookup_eq_none_of_not_key particle_type _ h
  have h2 : (state.particles.particle_containers.as_pointers).entries.lookup particle_type
      = none := by
    apply lookup_eq_none_of_not_key
    intro e he
    simp only [StringMap.as_pointers, List.mem_map] at he
    obtain ⟨e0, he0, rfl⟩ := he
    exact h e0 he0
  constructor
  · simp [BParticles_state_extract_type__tetrahedons, StringMap.lookup_ptr, h1,
      BKE_mesh_new_nomain]
  · simp [BParticles_state_extract_type__points, StringMap.lookup_default, h2,
      BKE_mesh_new_nomain]

/-- C1 on the state with the single type "Dust", asked for the type "Smoke". -/
theorem extract_type_absent_witness :
    (∀ e ∈ dust_state.particles.particle_containers.entries, e.1 ≠ "Smoke") ∧
    BParticles_state_extract_type__tetrahedons dust_state "Smoke"
        = some (⟨0, 0, 0, 0, [], [], [], [], []⟩, dust_state) ∧
    BParticles_state_extract_type__points dust_state "Smoke"
        = some (⟨0, 0, 0, 0, [], [], [], [], []⟩, dust_state) :=
  ⟨by simp [dust_state], extract_type_absent dust_state "Smoke" (by simp [dust_state])⟩

/-! ## Tetrahedron construction -/

theorem getElem?_write_block {α : Type} (xs : List α) (off w : Nat) (g : Nat → α → α) (k : Nat) :
    (write_block xs off w g)[k]? =
      (xs[k]?).map (fun x => if off ≤ k ∧ k < off + w then g (k - off) x else x) := by
  simp [write_block, List.getElem?_mapIdx]

theorem length_write_block {α : Type} (xs : List α) (off w : Nat) (g : Nat → α → α) :
    (write_block xs off w g).length = xs.length := by
  simp [write_block]

theorem write_block_zero {α : Type} (xs : List α) (off : Nat) (g : Nat → α → α) :
    write_block xs off 0 g = xs := by
  apply List.ext_getElem?
  intro k
  rw [getElem?_write_block]
  cases xs[k]? <;> simp

theorem modifyAt_write_block {α : Type} (xs : List α) (off w : Nat) (g : Nat → α → α) :
    modifyAt (write_block xs off w g) (off + w) (g w) =
      if off + w < xs.length then some (write_block xs off (w + 1) g) else none := by
  unfold modifyAt
  rw [getElem?_write_block]
  by_cases h : off + w < xs.length
  · rw [if_pos h, List.getElem?_eq_getElem h]
    simp only [Option.map_some', lt_self_iff_false, and_false, if_false]
    congr 1
    apply List.ext_getElem?
    intro k
    rw [List.getElem?_set, getElem?_write_block, getElem?_write_block, length_write_block]
    by_cases hk : off + w = k
    · subst hk
      simp [h]
    · rw [if_neg hk]
      cases xs[k]? with
      | none => rfl
      | some x =>
        simp only [Option.map_some']
        by_cases hr : off ≤ k ∧ k < off + w
        · rw [if_pos hr, if_pos ⟨hr.1, by omega⟩]
        · rw [if_neg hr, if_neg (by omega)]
  · rw [if_neg h, List.getElem?_eq_none (by omega)]
    rfl

theorem for_uint_succ {σ : Type} (n : Nat) (body : σ → Nat → Option σ) (init : σ) :
    for_uint (n + 1) body init = (for_uint n body init).bind (fun s => body s n) := by
  simp [for_uint, List.range_succ, List.foldlM_append]

theorem for_uint_zero {σ : Type} (body : σ → Nat → Option σ) (init : σ) :
    for_uint 0 body init = some init := by
  simp [for_uint]

theorem for_uint_congr {σ : Type} (n : Nat) (f g : σ → Nat → Option σ) (init : σ)
    (h : ∀ s i, i < n → f s i = g s i) : for_uint n f init = for_uint n g init := by
  induction n with
  | zero => simp [for_uint_zero]
  | succ n ih =>
    rw [for_uint_succ, for_uint_succ, ih (fun s i hi => h s i (by omega))]
    cases for_uint n g init with
    | none => rfl
    | some s => exact h s n (by omega)

/-- A loop of in-place assignments to consecutive slots. -/
theorem for_uint_modifyAt {α : Type} (xs : List α) (off w : Nat) (g : Nat → α → α) :
    for_uint w (fun acc t => modifyAt acc (off + t) (g t)) xs =
      if w = 0 ∨ off + w ≤ xs.length then some (write_block xs off w g) else none := by
  induction w with
  | zero => simp [for_uint_zero, write_block_zero]
  | succ w ih =>
    rw [for_uint_succ, ih]
    by_cases h : w = 0 ∨ off + w ≤ xs.length
    · rw [if_pos h, Option.some_bind, modifyAt_write_block]
      by_cases h2 : off + w < xs.length
      · rw [if_pos h2, if_pos (Or.inr (by omega))]
      · rw [if_neg h2, if_neg (by omega)]
    · rw [if_neg h, if_neg (by omega)]
      rfl

theorem modifyAt_modifyAt {α : Type} (xs : List α) (i : Nat) (f g : α → α) :
    (modifyAt xs i f).bind (fun ys => modifyAt ys i g) = modifyAt xs i (fun x => g (f x)) := by
  unfold modifyAt
  cases h : xs[i]? with
  | none => rfl
  | some x =>
    have hi : i < xs.length := by
      by_contra hc
      rw [List.getElem?_eq_none (by omega)] at h
      cases h
    simp [List.getElem?_set, hi]

theorem modifyAt_modifyAt_bind {α β : Type} (xs : List α) (i : Nat) (f g : α → α)
    (k : List α → Option β) :
    (modifyAt xs i f).bind (fun ys => (modifyAt ys i g).bind k) =
      (modifyAt xs i (fun x => g (f x))).bind k := by
  have h := modifyAt_modifyAt xs i f g
  rw [← h, Option.bind_assoc]

/-- A loop that assigns to two arrays independently. -/
theorem for_uint_pair {α β : Type} (n : Nat) (fa : α → Nat → Option α) (fb : β → Nat → Option β)
    (x : α) (y : β) :
    for_uint n (fun (s : α × β) t => (fa s.1 t).bind (fun a => (fb s.2 t).bind
      (fun b => some (a, b)))) (x, y) =
    (for_uint n fa x).bind (fun a => (for_uint n fb y).bind (fun b => some (a, b))) := by
  induction n with
  | zero => simp [for_uint_zero]
  | succ n ih =>
    rw [for_uint_succ, for_uint_succ, for_uint_succ, ih]
    cases for_uint n fa x with
    | none => rfl
    | some a =>
      cases for_uint n fb y with
      | none =>
        cases h : fa a n <;> simp [h]
      | some b =>
        simp only [Option.some_bind]

theorem for_uint_pair_modifyAt {α β : Type} (n o1 o2 : Nat) (g1 : Nat → α → α)
    (g2 : Nat → β → β) (x : List α) (y : List β) :
    for_uint n (fun (s : List α × List β) t => (modifyAt s.1 (o1 + t) (g1 t)).bind (fun a =>
      (modifyAt s.2 (o2 + t) (g2 t)).bind (fun b => some (a, b)))) (x, y) =
    (for_uint n (fun a t => modifyAt a (o1 + t) (g1 t)) x).bind (fun a =>
      (for_uint n (fun b t => modifyAt b (o2 + t) (g2 t)) y).bind (fun b => some (a, b))) :=
  for_uint_pair n (fun a t => modifyAt a (o1 + t) (g1 t)) (fun b t => modifyAt b (o2 + t) (g2 t))
    x y

theorem write_block_comm {α : Type} (xs : List α) (o1 o2 w1 w2 : Nat) (g1 g2 : Nat → α → α)
    (h : o1 + w1 ≤ o2 ∨ o2 + w2 ≤ o1) :
    write_block (write_block xs o1 w1 g1) o2 w2 g2 =
      write_block (write_block xs o2 w2 g2) o1 w1 g1 := by
  apply List.ext_getElem?
  intro k
  simp only [getElem?_write_block]
  cases xs[k]? with
  | none => rfl
  | some x =>
    simp only [Option.map_some']
    by_cases h1 : o1 ≤ k ∧ k < o1 + w1
    · have h2 : ¬ (o2 ≤ k ∧ k < o2 + w2) := by omega
      simp [h1, h2]
    · simp [h1]

theorem uint_add_eq (a b : Nat) (h : a + b < UINT_SIZE) : uint_add a b = a + b := by
  unfold uint_add
  exact Nat.mod_eq_of_lt h

theorem distribute_tetrahedons_instance_eq {F : Type} [CFloat F]
    (centers : List (float3 F)) (scales : List F) (colors : List (rgba_f F))
    (st : Mesh F × List MLoopCol) (inst : Nat) (c : float3 F) (s : F) (col : rgba_f F)
    (hc : centers[inst]? = some c) (hs : scales[inst]? = some s)
    (hcol : colors[inst]? = some col)
    (hv : uint_mul inst 4 + 4 ≤ UINT_SIZE) (hl : uint_mul inst 12 + 12 ≤ UINT_SIZE)
    (he : uint_mul inst 6 + 6 ≤ UINT_SIZE) :
    distribute_tetrahedons_instance centers scales colors st inst =
      if uint_mul inst 4 + 4 ≤ st.1.mvert.length ∧ uint_mul inst 4 + 4 ≤ st.1.mpoly.length ∧
          uint_mul inst 12 + 12 ≤ st.1.mloop.length ∧ uint_mul inst 12 + 12 ≤ st.2.length ∧
          uint_mul inst 6 + 6 ≤ st.1.medge.length then
        some (instance_writes c s
          ⟨(rgba_b.of_rgba_f col).r, (rgba_b.of_rgba_f col).g, (rgba_b.of_rgba_f col).b,
           (rgba_b.of_rgba_f col).a⟩
          (uint_mul inst 4) (uint_mul inst 4) (uint_mul inst 12) (uint_mul inst 6) st)
      else none := by
  unfold distribute_tetrahedons_instance
  simp only [hc, hcol, tetrahedon_vertices, tetrahedon_loop_starts, tetrahedon_loop_vertices,
    tetrahedon_edges, List.length_cons, List.length_nil, Option.bind_eq_bind, Option.some_bind,
    Option.pure_def, Nat.reduceAdd, zero_add]
  have hv2 : ∀ i, i < 4 → uint_add (uint_mul inst 4) i = uint_mul inst 4 + i :=
    fun i hi => uint_add_eq _ _ (by omega)
  have hl2 : ∀ i, i < 12 → uint_add (uint_mul inst 12) i = uint_mul inst 12 + i :=
    fun i hi => uint_add_eq _ _ (by omega)
  have he2 : ∀ i, i < 6 → uint_add (uint_mul inst 6) i = uint_mul inst 6 + i :=
    fun i hi => uint_add_eq _ _ (by omega)
  rw [for_uint_congr 4 _ (fun acc t => modifyAt acc (uint_mul inst 4 + t) (fun v =>
    { v with co := float3.add c (float3.mul
        ((tetrahedon_vertices (F := F)).getD t ⟨CFloat.ofInt 0, CFloat.ofInt 0, CFloat.ofInt 0⟩)
        s) })) _ (by
      intro acc i hi
      rw [hv2 i hi]
      interval_cases i <;> simp [hs, tetrahedon_vertices])]
  rw [for_uint_congr 4 _ (fun acc t => modifyAt acc (uint_mul inst 4 + t) (fun _ =>
    (⟨uint_add (uint_mul inst 12) (tetrahedon_loop_starts.getD t 0),
      tetrahedon_loop_lengths.getD t 0⟩ : MPoly))) _ (by
      intro acc i hi
      rw [hv2 i hi]
      interval_cases i <;>
        simp [tetrahedon_loop_starts, tetrahedon_loop_lengths, modifyAt_modifyAt])]
  rw [for_uint_congr 12 _ (fun (s : List MLoop × List MLoopCol) t =>
    (modifyAt s.1 (uint_mul inst 12 + t) (fun _ =>
      (⟨uint_add (uint_mul inst 4) (tetrahedon_loop_vertices.getD t 0),
        uint_add (uint_mul inst 6) (tetrahedon_loop_edges.getD t 0)⟩ : MLoop))).bind (fun a =>
    (modifyAt s.2 (uint_mul inst 12 + t) (fun _ =>
      (⟨(rgba_b.of_rgba_f col).r, (rgba_b.of_rgba_f col).g, (rgba_b.of_rgba_f col).b,
        (rgba_b.of_rgba_f col).a⟩ : MLoopCol))).bind (fun b => some (a, b)))) _ (by
      intro acc i hi
      rw [hl2 i hi]
      interval_cases i <;>
        simp [tetrahedon_loop_vertices, tetrahedon_loop_edges, modifyAt_modifyAt_bind])]
  rw [for_uint_congr 6 _ (fun acc t => modifyAt acc (uint_mul inst 6 + t) (fun _ =>
    (⟨uint_add (uint_mul inst 4) (tetrahedon_edges.getD t (0, 0)).1,
      uint_add (uint_mul inst 4) (tetrahedon_edges.getD t (0, 0)).2⟩ : MEdge))) _ (by
      intro acc i hi
      rw [he2 i hi]
      interval_cases i <;> simp [tetrahedon_edges, modifyAt_modifyAt])]
  rw [for_uint_pair_modifyAt, for_uint_modifyAt, for_uint_modifyAt, for_uint_modifyAt, for_uint_modifyAt,
    for_uint_modifyAt]
  simp only [OfNat.ofNat_ne_zero, false_or]
  unfold instance_writes
  by_cases h1 : uint_mul inst 4 + 4 ≤ st.1.mvert.length <;>
  by_cases h2 : uint_mul inst 4 + 4 ≤ st.1.mpoly.length <;>
  by_cases h3 : uint_mul inst 12 + 12 ≤ st.1.mloop.length <;>
  by_cases h4 : uint_mul inst 12 + 12 ≤ st.2.length <;>
  by_cases h5 : uint_mul inst 6 + 6 ≤ st.1.medge.length <;>
  simp [h1, h2, h3, h4, h5]

theorem uint_mul_eq (a b : Nat) (h : a * b < UINT_SIZE) : uint_mul a b = a * b := by
  unfold uint_mul
  exact Nat.mod_eq_of_lt h

theorem for_uint_none {σ : Type} (n : Nat) (body : σ → Nat → Option σ) (init : σ)
    (hn : 0 < n) (h : ∀ s i, body s i = none) : for_uint n body init = none := by
  cases n with
  | zero => omega
  | succ n =>
    rw [for_uint_succ]
    cases for_uint n body init with
    | none => rfl
    | some s => exact h s n

/-- Without the centre, the scale or the colour of the instance nothing is built. -/
theorem distribute_tetrahedons_instance_none {F : Type} [CFloat F]
    (centers : List (float3 F)) (scales : List F) (colors : List (rgba_f F))
    (st : Mesh F × List MLoopCol) (inst : Nat)
    (h : centers[inst]? = none ∨ scales[inst]? = none ∨ colors[inst]? = none) :
    distribute_tetrahedons_instance centers scales colors st inst = none := by
  unfold distribute_tetrahedons_instance
  rcases h with h | h | h
  · simp [h]
  · have h4 : (tetrahedon_vertices (F := F)).length = 4 := rfl
    simp only [Option.bind_eq_bind, h4]
    cases centers[inst]? with
    | none => rfl
    | some c =>
      simp only [Option.some_bind]
      rw [for_uint_none 4 _ _ (by omega) (by intro s i; simp [h])]
      rfl
  · simp only [h, Option.bind_eq_bind, Option.none_bind]
    cases centers[inst]? with
    | none => rfl
    | some c =>
      simp only [Option.some_bind]
      cases for_uint _ _ st.1.mvert with
      | none => rfl
      | some a =>
        simp only [Option.some_bind]
        cases for_uint _ _ st.1.mpoly with
        | none => rfl
        | some b => rfl

theorem instance_writes_comm {F : Type} [CFloat F] (c1 c2 : float3 F) (s1 s2 : F)
    (k1 k2 : MLoopCol) (v1 f1 l1 e1 v2 f2 l2 e2 : Nat) (st : Mesh F × List MLoopCol)
    (hv : v1 + 4 ≤ v2 ∨ v2 + 4 ≤ v1) (hf : f1 + 4 ≤ f2 ∨ f2 + 4 ≤ f1)
    (hl : l1 + 12 ≤ l2 ∨ l2 + 12 ≤ l1) (he : e1 + 6 ≤ e2 ∨ e2 + 6 ≤ e1) :
    instance_writes c2 s2 k2 v2 f2 l2 e2 (instance_writes c1 s1 k1 v1 f1 l1 e1 st) =
      instance_writes c1 s1 k1 v1 f1 l1 e1 (instance_writes c2 s2 k2 v2 f2 l2 e2 st) := by
  unfold instance_writes
  simp only
  rw [write_block_comm st.1.mvert v1 v2 4 4 _ _ hv, write_block_comm st.1.mpoly f1 f2 4 4 _ _ hf,
    write_block_comm st.1.mloop l1 l2 12 12 _ _ hl, write_block_comm st.1.medge e1 e2 6 6 _ _ he,
    write_block_comm st.2 l1 l2 12 12 _ _ hl]

theorem instance_writes_lengths {F : Type} [CFloat F] (c : float3 F) (s : F)
    (k : MLoopCol) (v f l e : Nat) (st : Mesh F × List MLoopCol) :
    (instance_writes c s k v f l e st).1.mvert.length = st.1.mvert.length ∧
    (instance_writes c s k v f l e st).1.mpoly.length = st.1.mpoly.length ∧
    (instance_writes c s k v f l e st).1.mloop.length = st.1.mloop.length ∧
    (instance_writes c s k v f l e st).2.length = st.2.length ∧
    (instance_writes c s k v f l e st).1.medge.length = st.1.medge.length := by
  simp [instance_writes, length_write_block]

/-- The work for two instances commutes as long as no offset wraps around. -/
theorem distribute_tetrahedons_instance_comm {F : Type} [CFloat F]
    (centers : List (float3 F)) (scales : List F) (colors : List (rgba_f F))
    (x y : Nat) (hx : 12 * x + 12 ≤ UINT_SIZE) (hy : 12 * y + 12 ≤ UINT_SIZE)
    (z : Option (Mesh F × List MLoopCol)) :
    (z.bind (fun st => distribute_tetrahedons_instance centers scales colors st x)).bind
        (fun st => distribute_tetrahedons_instance centers scales colors st y) =
    (z.bind (fun st => distribute_tetrahedons_instance centers scales colors st y)).bind
        (fun st => distribute_tetrahedons_instance centers scales colors st x) := by
  cases z with
  | none => rfl
  | some st =>
    simp only [Option.some_bind]
    by_cases hxy : x = y
    · subst hxy; rfl
    have hU : UINT_SIZE = 4294967296 := by norm_num [UINT_SIZE]
    by_cases hrx : centers[x]? = none ∨ scales[x]? = none ∨ colors[x]? = none
    · rw [distribute_tetrahedons_instance_none _ _ _ st x hrx]
      cases distribute_tetrahedons_instance centers scales colors st y with
      | none => rfl
      | some st2 =>
        simp only [Option.some_bind, Option.none_bind]
        rw [distribute_tetrahedons_instance_none _ _ _ st2 x hrx]
    by_cases hry : centers[y]? = none ∨ scales[y]? = none ∨ colors[y]? = none
    · rw [distribute_tetrahedons_instance_none _ _ _ st y hry]
      cases distribute_tetrahedons_instance centers scales colors st x with
      | none => rfl
      | some st2 =>
        simp only [Option.some_bind, Option.none_bind]
        rw [distribute_tetrahedons_instance_none _ _ _ st2 y hry]
    obtain ⟨cx, hcx⟩ := Option.ne_none_iff_exists'.mp (fun h => hrx (Or.inl h))
    obtain ⟨sx, hsx⟩ := Option.ne_none_iff_exists'.mp (fun h => hrx (Or.inr (Or.inl h)))
    obtain ⟨kx, hkx⟩ := Option.ne_none_iff_exists'.mp (fun h => hrx (Or.inr (Or.inr h)))
    obtain ⟨cy, hcy⟩ := Option.ne_none_iff_exists'.mp (fun h => hry (Or.inl h))
    obtain ⟨sy, hsy⟩ := Option.ne_none_iff_exists'.mp (fun h => hry (Or.inr (Or.inl h)))
    obtain ⟨ky, hky⟩ := Option.ne_none_iff_exists'.mp (fun h => hry (Or.inr (Or.inr h)))
    have x4 : uint_mul x 4 = x * 4 := uint_mul_eq _ _ (by omega)
    have x12 : uint_mul x 12 = x * 12 := uint_mul_eq _ _ (by omega)
    have x6 : uint_mul x 6 = x * 6 := uint_mul_eq _ _ (by omega)
    have y4 : uint_mul y 4 = y * 4 := uint_mul_eq _ _ (by omega)
    have y12 : uint_mul y 12 = y * 12 := uint_mul_eq _ _ (by omega)
    have y6 : uint_mul y 6 = y * 6 := uint_mul_eq _ _ (by omega)
    have ex := fun st => distribute_tetrahedons_instance_eq centers scales colors st x cx sx kx
      hcx hsx hkx (by omega) (by omega) (by omega)
    have ey := fun st => distribute_tetrahedons_instance_eq centers scales colors st y cy sy ky
      hcy hsy hky (by omega) (by omega) (by omega)
    rw [ex st, ey st]
    split_ifs with h1 h2 h2
    · simp only [Option.some_bind]
      rw [ex, ey]
      obtain ⟨a1, a2, a3, a4, a5⟩ := instance_writes_lengths cx sx
        ⟨(rgba_b.of_rgba_f kx).r, (rgba_b.of_rgba_f kx).g, (rgba_b.of_rgba_f kx).b,
          (rgba_b.of_rgba_f kx).a⟩ (uint_mul x 4) (uint_mul x 4) (uint_mul x 12)
          (uint_mul x 6) st
      obtain ⟨b1, b2, b3, b4, b5⟩ := instance_writes_lengths cy sy
        ⟨(rgba_b.of_rgba_f ky).r, (rgba_b.of_rgba_f ky).g, (rgba_b.of_rgba_f ky).b,
          (rgba_b.of_rgba_f ky).a⟩ (uint_mul y 4) (uint_mul y 4) (uint_mul y 12)
          (uint_mul y 6) st
      rw [a1, a2, a3, a4, a5, b1, b2, b3, b4, b5, if_pos h1, if_pos h2]
      congr 1
      rw [x4, x12, x6, y4, y12, y6]
      apply instance_writes_comm <;> omega
    · simp only [Option.some_bind, Option.none_bind]
      rw [ey]
      obtain ⟨a1, a2, a3, a4, a5⟩ := instance_writes_lengths cx sx
        ⟨(rgba_b.of_rgba_f kx).r, (rgba_b.of_rgba_f kx).g, (rgba_b.of_rgba_f kx).b,
          (rgba_b.of_rgba_f kx).a⟩ (uint_mul x 4) (uint_mul x 4) (uint_mul x 12)
          (uint_mul x 6) st
      rw [a1, a2, a3, a4, a5, if_neg h2]
    · simp only [Option.some_bind, Option.none_bind]
      rw [ex]
      obtain ⟨b1, b2, b3, b4, b5⟩ := instance_writes_lengths cy sy
        ⟨(rgba_b.of_rgba_f ky).r, (rgba_b.of_rgba_f ky).g, (rgba_b.of_rgba_f ky).b,
          (rgba_b.of_rgba_f ky).a⟩ (uint_mul y 4) (uint_mul y 4) (uint_mul y 12)
          (uint_mul y 6) st
      rw [b1, b2, b3, b4, b5, if_neg h1]
    · rfl

theorem foldlM_eq_foldl {σ α : Type} (f : σ → α → Option σ) (l : List α) (init : Option σ) :
    init.bind (fun s => l.foldlM f s) =
      l.foldl (fun acc x => acc.bind (fun s => f s x)) init := by
  induction l generalizing init with
  | nil => cases init <;> rfl
  | cons a l ih =>
    rw [List.foldl_cons, ← ih]
    cases init with
    | none => rfl
    | some s => simp [List.foldlM_cons]

theorem foldlM_flatMap {σ α β : Type} (f : σ → α → Option σ) (g : β → List α) (cs : List β)
    (init : σ) :
    cs.foldlM (fun st c => (g c).foldlM f st) init = (cs.flatMap g).foldlM f init := by
  induction cs generalizing init with
  | nil => rfl
  | cons c cs ih =>
    rw [List.foldlM_cons, List.flatMap_cons, List.foldlM_append]
    cases (g c).foldlM f init with
    | none => rfl
    | some s => exact ih s

theorem consecutive_split_flatMap (cs : List IndexRange) (start stop : Nat)
    (h : IsConsecutiveSplit cs start stop) :
    start ≤ stop ∧ cs.flatMap IndexRange.toList = List.range' start (stop - start) := by
  induction cs generalizing start with
  | nil =>
    simp only [IsConsecutiveSplit] at h
    subst h
    simp
  | cons c cs ih =>
    obtain ⟨h1, h2⟩ := h
    obtain ⟨h3, h4⟩ := ih _ h2
    refine ⟨by omega, ?_⟩
    rw [List.flatMap_cons, h4, IndexRange.toList, h1]
    have := List.range'_append start c.size (stop - (start + c.size)) 1
    simp only [one_mul] at this
    rw [this]
    congr 1
    omega

/-- Processing the chunks of a split in any order is processing the whole range, as long as no
offset wraps around. -/
theorem chunks_eq_whole_range {F : Type} [CFloat F]
    (centers : List (float3 F)) (scales : List F) (colors : List (rgba_f F))
    (n : Nat) (hn : 12 * n < UINT_SIZE) (split chunks : List IndexRange)
    (hs : IsConsecutiveSplit split 0 n) (hp : chunks.Perm split)
    (st : Mesh F × List MLoopCol) :
    chunks.foldlM (fun st range => distribute_tetrahedons_range st range centers scales colors)
        st = distribute_tetrahedons_range st ⟨0, n⟩ centers scales colors := by
  unfold distribute_tetrahedons_range
  rw [foldlM_flatMap]
  have h1 := (consecutive_split_flatMap split 0 n hs).2
  have h2 : (chunks.flatMap IndexRange.toList).Perm (List.range' 0 n) := by
    have := List.Perm.flatMap_right IndexRange.toList hp
    rw [h1] at this
    simpa using this
  have e1 := foldlM_eq_foldl (distribute_tetrahedons_instance centers scales colors)
    (chunks.flatMap IndexRange.toList) (some st)
  have e2 := foldlM_eq_foldl (distribute_tetrahedons_instance centers scales colors)
    (List.range' 0 n) (some st)
  simp only [Option.some_bind] at e1 e2
  rw [IndexRange.toList, e1, e2]
  apply List.Perm.foldl_eq' h2
  intro x hx y hy z
  have hx2 : x < n := by
    have := h2.subset hx
    simp [List.mem_range'] at this
    omega
  have hy2 : y < n := by
    have := h2.subset hy
    simp [List.mem_range'] at this
    omega
  exact distribute_tetrahedons_instance_comm centers scales colors x y (by omega) (by omega) z

theorem getElem?_write_block_of_not_mem {α : Type} (xs : List α) (off w : Nat)
    (g : Nat → α → α) (k : Nat) (h : ¬ (off ≤ k ∧ k < off + w)) :
    (write_block xs off w g)[k]? = xs[k]? := by
  rw [getElem?_write_block]
  cases xs[k]? with
  | none => rfl
  | some x => simp [h]

theorem getElem?_write_block_of_mem {α : Type} (xs : List α) (off w : Nat)
    (g : Nat → α → α) (t : Nat) (ht : t < w) (h : off + t < xs.length) (v : α)
    (hg : ∀ x, g t x = v) :
    (write_block xs off w g)[off + t]? = some v := by
  rw [getElem?_write_block, List.getElem?_eq_getElem h]
  simp [ht, hg]

/-- What a successful run of the work for one instance is, as long as no offset wraps. -/
theorem distribute_tetrahedons_instance_some {F : Type} [CFloat F]
    (centers : List (float3 F)) (scales : List F) (colors : List (rgba_f F))
    (st st2 : Mesh F × List MLoopCol) (i : Nat) (hi : 12 * i + 12 ≤ UINT_SIZE)
    (h : distribute_tetrahedons_instance centers scales colors st i = some st2) :
    ∃ c s k, centers[i]? = some c ∧ scales[i]? = some s ∧ colors[i]? = some k ∧
      (4 * i + 4 ≤ st.1.mvert.length ∧ 4 * i + 4 ≤ st.1.mpoly.length ∧
        12 * i + 12 ≤ st.1.mloop.length ∧ 12 * i + 12 ≤ st.2.length ∧
        6 * i + 6 ≤ st.1.medge.length) ∧
      st2 = instance_writes c s
        ⟨(rgba_b.of_rgba_f k).r, (rgba_b.of_rgba_f k).g, (rgba_b.of_rgba_f k).b,
          (rgba_b.of_rgba_f k).a⟩ (4 * i) (4 * i) (12 * i) (6 * i) st := by
  have hU : UINT_SIZE = 4294967296 := by norm_num [UINT_SIZE]
  by_cases hr : centers[i]? = none ∨ scales[i]? = none ∨ colors[i]? = none
  · rw [distribute_tetrahedons_instance_none _ _ _ st i hr] at h
    cases h
  obtain ⟨c, hc⟩ := Option.ne_none_iff_exists'.mp (fun h => hr (Or.inl h))
  obtain ⟨s, hs⟩ := Option.ne_none_iff_exists'.mp (fun h => hr (Or.inr (Or.inl h)))
  obtain ⟨k, hk⟩ := Option.ne_none_iff_exists'.mp (fun h => hr (Or.inr (Or.inr h)))
  have x4 : uint_mul i 4 = 4 * i := by rw [uint_mul_eq _ _ (by omega)]; omega
  have x12 : uint_mul i 12 = 12 * i := by rw [uint_mul_eq _ _ (by omega)]; omega
  have x6 : uint_mul i 6 = 6 * i := by rw [uint_mul_eq _ _ (by omega)]; omega
  rw [distribute_tetrahedons_instance_eq centers scales colors st i c s k hc hs hk
    (by omega) (by omega) (by omega), x4, x12, x6] at h
  split_ifs at h with hb
  exact ⟨c, s, k, hc, hs, hk, hb, (Option.some.inj h).symm⟩

/-- The work for one instance stays inside the slots of the instance, as long as no offset
wraps. -/
theorem distribute_tetrahedons_instance_frame {F : Type} [CFloat F]
    (centers : List (float3 F)) (scales : List F) (colors : List (rgba_f F))
    (st st2 : Mesh F × List MLoopCol) (i : Nat) (hi : 12 * i + 12 ≤ UINT_SIZE)
    (h : distribute_tetrahedons_instance centers scales colors st i = some st2) :
    writes_only_slots_of i st st2 := by
  obtain ⟨c, s, k, -, -, -, -, rfl⟩ :=
    distribute_tetrahedons_instance_some centers scales colors st st2 i hi h
  unfold writes_only_slots_of instance_writes
  dsimp only
  refine ⟨by simp only [length_write_block, and_self], ?_, ?_, ?_, ?_, ?_⟩ <;>
    intro k hk <;> exact getElem?_write_block_of_not_mem _ _ _ _ _ hk

/-- The work for one instance is defined when its inputs and its slots exist. -/
theorem distribute_tetrahedons_instance_defined {F : Type} [CFloat F]
    (centers : List (float3 F)) (scales : List F) (colors : List (rgba_f F))
    (st : Mesh F × List MLoopCol) (i : Nat) (hi : 12 * i + 12 ≤ UINT_SIZE)
    (hc : i < centers.length) (hs : i < scales.length) (hk : i < colors.length)
    (hb : 4 * i + 4 ≤ st.1.mvert.length ∧ 4 * i + 4 ≤ st.1.mpoly.length ∧
        12 * i + 12 ≤ st.1.mloop.length ∧ 12 * i + 12 ≤ st.2.length ∧
        6 * i + 6 ≤ st.1.medge.length) :
    distribute_tetrahedons_instance centers scales colors st i =
      some (instance_writes centers[i] scales[i]
        ⟨(rgba_b.of_rgba_f colors[i]).r, (rgba_b.of_rgba_f colors[i]).g,
          (rgba_b.of_rgba_f colors[i]).b, (rgba_b.of_rgba_f colors[i]).a⟩
        (4 * i) (4 * i) (12 * i) (6 * i) st) := by
  have hU : UINT_SIZE = 4294967296 := by norm_num [UINT_SIZE]
  have x4 : uint_mul i 4 = 4 * i := by rw [uint_mul_eq _ _ (by omega)]; omega
  have x12 : uint_mul i 12 = 12 * i := by rw [uint_mul_eq _ _ (by omega)]; omega
  have x6 : uint_mul i 6 = 6 * i := by rw [uint_mul_eq _ _ (by omega)]; omega
  rw [distribute_tetrahedons_instance_eq centers scales colors st i centers[i] scales[i]
    colors[i] (List.getElem?_eq_getElem hc) (List.getElem?_eq_getElem hs)
    (List.getElem?_eq_getElem hk) (by omega) (by omega) (by omega), x4, x12, x6, if_pos hb]

theorem instance_writes_mpoly {F : Type} [CFloat F] (c : float3 F) (s : F) (k : MLoopCol)
    (i : Nat) (st : Mesh F × List MLoopCol) (hi : 12 * i + 12 ≤ UINT_SIZE)
    (hb : 4 * i + 4 ≤ st.1.mpoly.length) (j : Nat) (hj : j < 4) :
    (instance_writes c s k (4 * i) (4 * i) (12 * i) (6 * i) st).1.mpoly[4 * i + j]? =
      some ⟨12 * i + 3 * j, 3⟩ := by
  have hU : UINT_SIZE = 4294967296 := by norm_num [UINT_SIZE]
  unfold instance_writes
  dsimp only
  apply getElem?_write_block_of_mem _ _ _ _ j hj (by omega)
  intro x
  interval_cases j <;>
    simp [tetrahedon_loop_starts, tetrahedon_loop_lengths, uint_add_eq _ _ (show 12 * i + 0 < UINT_SIZE by omega),
      uint_add_eq _ _ (show 12 * i + 3 < UINT_SIZE by omega),
      uint_add_eq _ _ (show 12 * i + 6 < UINT_SIZE by omega),
      uint_add_eq _ _ (show 12 * i + 9 < UINT_SIZE by omega)]

/-- The run over a list of instances that are in bounds: it is defined, keeps the sizes and the
counters, and leaves the polygons of every instance of the list as triangles on the loops of the
instance. -/
theorem foldlM_instances {F : Type} [CFloat F]
    (centers : List (float3 F)) (scales : List F) (colors : List (rgba_f F))
    (l : List Nat) (st : Mesh F × List MLoopCol)
    (hl : ∀ i ∈ l, instance_in_bounds centers scales colors st i) :
    ∃ st2, l.foldlM (distribute_tetrahedons_instance centers scales colors) st = some st2 ∧
      (st2.1.mvert.length = st.1.mvert.length ∧ st2.1.mpoly.length = st.1.mpoly.length ∧
        st2.1.mloop.length = st.1.mloop.length ∧ st2.2.length = st.2.length ∧
        st2.1.medge.length = st.1.medge.length) ∧
      (st2.1.totvert = st.1.totvert ∧ st2.1.totedge = st.1.totedge ∧
        st2.1.totloop = st.1.totloop ∧ st2.1.totpoly = st.1.totpoly ∧
        st2.1.ldata = st.1.ldata) ∧
      (∀ i ∈ l, ∀ j, j < 4 → st2.1.mpoly[4 * i + j]? = some ⟨12 * i + 3 * j, 3⟩) ∧
      (∀ k, (∀ i ∈ l, ¬ (4 * i ≤ k ∧ k < 4 * i + 4)) → st2.1.mpoly[k]? = st.1.mpoly[k]?) := by
  induction l generalizing st with
  | nil =>
    exact ⟨st, rfl, ⟨rfl, rfl, rfl, rfl, rfl⟩, ⟨rfl, rfl, rfl, rfl, rfl⟩,
      fun i hi => absurd hi (List.not_mem_nil i), fun _ _ => rfl⟩
  | cons a l ih =>
    obtain ⟨ha, hc, hs, hk, hb⟩ := hl a (List.mem_cons_self _ _)
    have e1 := distribute_tetrahedons_instance_defined centers scales colors st a ha hc hs hk hb
    obtain ⟨l1, l2, l3, l4, l5⟩ := instance_writes_lengths centers[a] scales[a]
      ⟨(rgba_b.of_rgba_f colors[a]).r, (rgba_b.of_rgba_f colors[a]).g,
        (rgba_b.of_rgba_f colors[a]).b, (rgba_b.of_rgba_f colors[a]).a⟩
      (4 * a) (4 * a) (12 * a) (6 * a) st
    obtain ⟨st2, e2, ⟨m1, m2, m3, m4, m5⟩, ⟨t1, t2, t3, t4, t5⟩, hw, hf⟩ := ih _ (by
      intro i hi
      obtain ⟨q1, q2, q3, q4, q5, q6, q7, q8, q9⟩ := hl i (List.mem_cons_of_mem _ hi)
      exact ⟨q1, q2, q3, q4, l1 ▸ q5, l2 ▸ q6, l3 ▸ q7, l4 ▸ q8, l5 ▸ q9⟩)
    refine ⟨st2, ?_, ⟨by omega, by omega, by omega, by omega, by omega⟩,
      ⟨t1, t2, t3, t4, t5⟩, ?_, ?_⟩
    · rw [List.foldlM_cons, e1]
      exact e2
    · intro i hi j hj
      by_cases hil : i ∈ l
      · exact hw i hil j hj
      · have hia : i = a := by
          rcases List.mem_cons.mp hi with h | h
          · exact h
          · exact absurd h hil
        subst hia
        rw [hf (4 * i + j) (by
          intro i2 hi2
          have : i2 ≠ i := fun h => hil (h ▸ hi2)
          omega)]
        exact instance_writes_mpoly _ _ _ i st ha hb.2.1 j hj
    · intro k hk
      rw [hf k (fun i hi => hk i (List.mem_cons_of_mem _ hi))]
      unfold instance_writes
      dsimp only
      exact getElem?_write_block_of_not_mem _ _ _ _ _ (hk a (List.mem_cons_self _ _))

theorem int_count_eq (x : Nat) (h : x < INT_SIZE) : int_count x = some x := by
  unfold int_count
  rw [if_pos h]

theorem distribute_tetrahedons_alloc_eq {F : Type} [CFloat F] (centers : List (float3 F))
    (hn : 12 * centers.length < INT_SIZE) :
    distribute_tetrahedons_alloc centers =
      some (BKE_mesh_new_nomain (4 * centers.length) (6 * centers.length) 0
        (12 * centers.length) (4 * centers.length),
        List.replicate (12 * centers.length) mloopcol_default) := by
  have hU : UINT_SIZE = 4294967296 := by norm_num [UINT_SIZE]
  have hI : INT_SIZE = 2147483648 := by norm_num [INT_SIZE]
  have x4 : uint_mul centers.length 4 = 4 * centers.length := by
    rw [uint_mul_eq _ _ (by omega)]; omega
  have x12 : uint_mul centers.length 12 = 12 * centers.length := by
    rw [uint_mul_eq _ _ (by omega)]; omega
  have x6 : uint_mul centers.length 6 = 6 * centers.length := by
    rw [uint_mul_eq _ _ (by omega)]; omega
  simp only [distribute_tetrahedons_alloc, tetrahedon_vertices, tetrahedon_edges,
    tetrahedon_loop_vertices, tetrahedon_loop_starts, List.length_cons, List.length_nil,
    Nat.reduceAdd, zero_add, x4, x12, x6, int_count_eq _ (show 4 * centers.length < INT_SIZE
      by omega), int_count_eq _ (show 6 * centers.length < INT_SIZE by omega),
    int_count_eq _ hn, Option.bind_eq_bind, Option.some_bind, Option.pure_def,
    BKE_mesh_new_nomain]

/-- A loop count of `2^31` or more arrives at `BKE_mesh_new_nomain` as a negative number: no
mesh is allocated. -/
theorem distribute_tetrahedons_alloc_none {F : Type} [CFloat F] (centers : List (float3 F))
    (h1 : INT_SIZE ≤ 12 * centers.length) (h2 : 12 * centers.length < UINT_SIZE) :
    distribute_tetrahedons_alloc centers = none := by
  have x12 : uint_mul centers.length 12 = 12 * centers.length := by
    rw [uint_mul_eq _ _ (by omega)]; omega
  have hnone : int_count (12 * centers.length) = none := by
    unfold int_count
    rw [if_neg (by omega)]
  simp only [distribute_tetrahedons_alloc, tetrahedon_vertices, tetrahedon_edges,
    tetrahedon_loop_vertices, tetrahedon_loop_starts, List.length_cons, List.length_nil,
    Nat.reduceAdd, zero_add, x12, hnone]
  cases int_count (uint_mul centers.length 4) <;>
    cases int_count (uint_mul centers.length 6) <;> rfl

/-- The sequential build on the arrays of `n` tetrahedra, when the counts fit C `int`. -/
theorem distribute_tetrahedons_eq {F : Type} [CFloat F]
    (centers : List (float3 F)) (scales : List F) (colors : List (rgba_f F))
    (hn : 12 * centers.length < INT_SIZE) :
    distribute_tetrahedons centers scales colors =
      ((List.range' 0 centers.length).foldlM
        (distribute_tetrahedons_instance centers scales colors)
        (BKE_mesh_new_nomain (4 * centers.length) (6 * centers.length) 0
          (12 * centers.length) (4 * centers.length),
          List.replicate (12 * centers.length) mloopcol_default)).bind
        (fun st => some (store_loop_colors st)) := by
  unfold distribute_tetrahedons distribute_tetrahedons_range
  rw [distribute_tetrahedons_alloc_eq centers hn]
  rfl

/-- With a loop count from `2^31` on no mesh is built. -/
theorem distribute_tetrahedons_negative_count {F : Type} [CFloat F]
    (centers : List (float3 F)) (scales : List F) (colors : List (rgba_f F))
    (h1 : INT_SIZE ≤ 12 * centers.length) (h2 : 12 * centers.length < UINT_SIZE) :
    distribute_tetrahedons centers scales colors = none := by
  unfold distribute_tetrahedons
  rw [distribute_tetrahedons_alloc_none centers h1 h2]
  rfl

theorem foldlM_none_of_mem {σ α : Type} (f : σ → α → Option σ) (x : α)
    (hx : ∀ s, f s x = none) :
    ∀ (l : List α) (init : σ), x ∈ l → l.foldlM f init = none
  | [], _, h => by cases h
  | a :: rest, init, h => by
    rw [List.foldlM_cons]
    rcases List.mem_cons.mp h with h | h
    · subst h
      rw [hx init]
      rfl
    · cases f init a with
      | none => rfl
      | some s => exact foldlM_none_of_mem f x hx rest s h

/-- The tetrahedron mesh of `n` centres that come with a scale and a colour each. -/
theorem distribute_tetrahedons_of_inputs {F : Type} [CFloat F]
    (centers : List (float3 F)) (scales : List F) (colors : List (rgba_f F))
    (hn : 12 * centers.length < INT_SIZE)
    (hs : centers.length ≤ scales.length) (hc : centers.length ≤ colors.length) :
    ∃ mesh, distribute_tetrahedons centers scales colors = some mesh ∧
      (mesh.totvert = 4 * centers.length ∧ mesh.mvert.length = 4 * centers.length) ∧
      (mesh.totedge = 6 * centers.length ∧ mesh.medge.length = 6 * centers.length) ∧
      (mesh.totloop = 12 * centers.length ∧ mesh.mloop.length = 12 * centers.length) ∧
      (mesh.totpoly = 4 * centers.length ∧ mesh.mpoly.length = 4 * centers.length) ∧
      (∀ i j, i < centers.length → j < 4 →
        mesh.mpoly[4 * i + j]? = some ⟨12 * i + 3 * j, 3⟩) ∧
      (∀ p, p < 4 * centers.length → mesh.mpoly[p]? = some ⟨3 * p, 3⟩) := by
  have hU : UINT_SIZE = 4294967296 := by norm_num [UINT_SIZE]
  have hI : INT_SIZE = 2147483648 := by norm_num [INT_SIZE]
  obtain ⟨st2, e, ⟨l1, l2, l3, l4, l5⟩, ⟨t1, t2, t3, t4, t5⟩, hw, -⟩ :=
    foldlM_instances centers scales colors (List.range' 0 centers.length)
      (BKE_mesh_new_nomain (4 * centers.length) (6 * centers.length) 0
        (12 * centers.length) (4 * centers.length),
        List.replicate (12 * centers.length) mloopcol_default) (by
        intro i hi
        have hi2 : i < centers.length := by
          simp [List.mem_range'] at hi
          omega
        simp only [instance_in_bounds, BKE_mesh_new_nomain, List.length_replicate]
        omega)
  simp only [BKE_mesh_new_nomain, List.length_replicate] at l1 l2 l3 l4 l5 t1 t2 t3 t4 t5
  have hw2 : ∀ i j, i < centers.length → j < 4 →
      st2.1.mpoly[4 * i + j]? = some ⟨12 * i + 3 * j, 3⟩ := by
    intro i j hi hj
    exact hw i (by simp [List.mem_range']; omega) j hj
  refine ⟨store_loop_colors st2, ?_, ⟨t1, l1⟩, ⟨t2, l5⟩, ⟨t3, l3⟩, ⟨t4, l2⟩, hw2, ?_⟩
  · rw [distribute_tetrahedons_eq centers scales colors hn, e]
    rfl
  · intro p hp
    have := hw2 (p / 4) (p % 4) (by omega) (by omega)
    have e1 : 4 * (p / 4) + p % 4 = p := by omega
    have e2 : 12 * (p / 4) + 3 * (p % 4) = 3 * p := by omega
    rw [e1, e2] at this
    exact this

/-- Without a scale and a colour for every centre no mesh is built. -/
theorem distribute_tetrahedons_none {F : Type} [CFloat F]
    (centers : List (float3 F)) (scales : List F) (colors : List (rgba_f F))
    (h : ¬ (centers.length ≤ scales.length ∧ centers.length ≤ colors.length)) :
    distribute_tetrahedons centers scales colors = none := by
  have hex : ∃ i, i < centers.length ∧ (scales[i]? = none ∨ colors[i]? = none) := by
    by_cases hs : centers.length ≤ scales.length
    · have hc : colors.length < centers.length := by
        by_contra hc
        exact h ⟨hs, by omega⟩
      exact ⟨colors.length, hc, Or.inr (List.getElem?_eq_none (le_refl _))⟩
    · exact ⟨scales.length, by omega, Or.inl (List.getElem?_eq_none (le_refl _))⟩
  obtain ⟨i, hi, hnone⟩ := hex
  unfold distribute_tetrahedons distribute_tetrahedons_range
  cases distribute_tetrahedons_alloc centers with
  | none => rfl
  | some st0 =>
    simp only [IndexRange.toList, Option.bind_eq_bind, Option.pure_def, Option.some_bind]
    rw [foldlM_none_of_mem (distribute_tetrahedons_instance centers scales colors) i
      (fun s => distribute_tetrahedons_instance_none centers scales colors s i
        (hnone.elim (fun h1 => Or.inr (Or.inl h1)) (fun h1 => Or.inr (Or.inr h1))))
      (List.range' 0 centers.length) _ (by simp [List.mem_range']; omega)]
    rfl

/-- C6, as amended: for `n` particle centres with `12 * n < 2^31`, the mesh that
`distribute_tetrahedons` builds has exactly `4n` vertices, `6n` edges, `12n` loops and `4n` polygons, and polygon
`4i + j` (`i < n`, `j < 4`) has `totloop = 3` and `loopstart = 12i + 3j`; so polygon `p` covers
exactly the loops `[3p, 3p + 3)`, and the polygons tile the loop array `[0, 12n)` without gap
or overlap.  The mesh is built exactly when there is a scale and a colour for every centre
(otherwise `scales[instance]` or `colors[instance]` is read out of bounds). -/
theorem distribute_tetrahedons_counts {F : Type} [CFloat F]
    (centers : List (float3 F)) (scales : List F) (colors : List (rgba_f F))
    (hn : 12 * centers.length < INT_SIZE) :
    ((∃ mesh, distribute_tetrahedons centers scales colors = some mesh) ↔
      (centers.length ≤ scales.length ∧ centers.length ≤ colors.length)) ∧
    ∀ mesh, distribute_tetrahedons centers scales colors = some mesh →
      (mesh.totvert = 4 * centers.length ∧ mesh.mvert.length = 4 * centers.length) ∧
      (mesh.totedge = 6 * centers.length ∧ mesh.medge.length = 6 * centers.length) ∧
      (mesh.totloop = 12 * centers.length ∧ mesh.mloop.length = 12 * centers.length) ∧
      (mesh.totpoly = 4 * centers.length ∧ mesh.mpoly.length = 4 * centers.length) ∧
      (∀ i j, i < centers.length → j < 4 →
        mesh.mpoly[4 * i + j]? = some ⟨12 * i + 3 * j, 3⟩) ∧
      (∀ p, p < 4 * centers.length → mesh.mpoly[p]? = some ⟨3 * p, 3⟩) := by
  have hdef : (∃ mesh, distribute_tetrahedons centers scales colors = some mesh) →
      (centers.length ≤ scales.length ∧ centers.length ≤ colors.length) := by
    intro hex
    by_contra hlen
    obtain ⟨mesh, hm⟩ := hex
    rw [distribute_tetrahedons_none centers scales colors hlen] at hm
    cases hm
  refine ⟨⟨hdef, ?_⟩, ?_⟩
  · intro hlen
    obtain ⟨mesh, hm, -⟩ := distribute_tetrahedons_of_inputs centers scales colors hn
      hlen.1 hlen.2
    exact ⟨mesh, hm⟩
  · intro mesh hm
    obtain ⟨hs, hc⟩ := hdef ⟨mesh, hm⟩
    obtain ⟨mesh0, hm0, hprops⟩ := distribute_tetrahedons_of_inputs centers scales colors hn
      hs hc
    rw [hm] at hm0
    cases hm0
    exact hprops

/-- C7, as amended: for `n` with `12 * n < 2^31` and every split of `[0, n)` into consecutive
chunks processed in any order, running `distribute_tetrahedons_range` once per chunk gives the
same mesh arrays and loop colours as one run over the whole range, from every state of the
arrays; hence the TBB build of `distribute_tetrahedons` returns what the sequential build
returns.  The work for an instance `i < n` changes only the vertex slots `[4i, 4i+4)`, the
edge slots `[6i, 6i+6)`, the loop and loop-colour slots `[12i, 12i+12)` and the polygon slots
`[4i, 4i+4)`. -/
theorem distribute_tetrahedons_chunks {F : Type} [CFloat F]
    (centers : List (float3 F)) (scales : List F) (colors : List (rgba_f F))
    (n : Nat) (hn : 12 * n < INT_SIZE) (split chunks : List IndexRange)
    (hs : IsConsecutiveSplit split 0 n) (hp : chunks.Perm split) :
    (∀ st : Mesh F × List MLoopCol,
      chunks.foldlM (fun st range => distribute_tetrahedons_range st range centers scales colors)
        st = distribute_tetrahedons_range st ⟨0, n⟩ centers scales colors) ∧
    (n = centers.length →
      distribute_tetrahedons_tbb chunks centers scales colors =
        distribute_tetrahedons centers scales colors) ∧
    (∀ i st st2, i < n →
      distribute_tetrahedons_instance centers scales colors st i = some st2 →
      writes_only_slots_of i st st2) := by
  have hU : UINT_SIZE = 4294967296 := by norm_num [UINT_SIZE]
  have hI : INT_SIZE = 2147483648 := by norm_num [INT_SIZE]
  have h1 := chunks_eq_whole_range centers scales colors n (by omega) split chunks hs hp
  refine ⟨h1, ?_, ?_⟩
  · intro hlen
    subst hlen
    unfold distribute_tetrahedons_tbb distribute_tetrahedons
    cases distribute_tetrahedons_alloc centers with
    | none => rfl
    | some st0 =>
      simp only [Option.bind_eq_bind, Option.some_bind]
      rw [h1]
  · intro i st st2 hi h
    exact distribute_tetrahedons_instance_frame centers scales colors st st2 i (by omega) h

theorem one_tetrahedron_vertex :
    one_tetrahedron_arrays.1.mvert[0]? = some ⟨⟨0, 0, 0⟩, 0, 0, 0⟩ := by
  decide

theorem overflow_instance_eq (st : Mesh Int × List MLoopCol) (i : Nat) (hi : i < 2 ^ 31 + 1)
    (hv : uint_mul i 4 + 4 ≤ UINT_SIZE) (hl : uint_mul i 12 + 12 ≤ UINT_SIZE)
    (he : uint_mul i 6 + 6 ≤ UINT_SIZE) :
    distribute_tetrahedons_instance overflow_centers overflow_scales overflow_colors st i =
      if uint_mul i 4 + 4 ≤ st.1.mvert.length ∧ uint_mul i 4 + 4 ≤ st.1.mpoly.length ∧
          uint_mul i 12 + 12 ≤ st.1.mloop.length ∧ uint_mul i 12 + 12 ≤ st.2.length ∧
          uint_mul i 6 + 6 ≤ st.1.medge.length then
        some (instance_writes ⟨1, 1, 1⟩ 1
          ⟨(rgba_b.of_rgba_f (⟨1, 1, 1, 1⟩ : rgba_f Int)).r,
           (rgba_b.of_rgba_f (⟨1, 1, 1, 1⟩ : rgba_f Int)).g,
           (rgba_b.of_rgba_f (⟨1, 1, 1, 1⟩ : rgba_f Int)).b,
           (rgba_b.of_rgba_f (⟨1, 1, 1, 1⟩ : rgba_f Int)).a⟩
          (uint_mul i 4) (uint_mul i 4) (uint_mul i 12) (uint_mul i 6) st)
      else none := by
  apply distribute_tetrahedons_instance_eq _ _ _ st i _ _ _ _ _ _ hv hl he
  · rw [overflow_centers, List.getElem?_replicate, if_pos hi]
  · rw [overflow_scales, List.getElem?_replicate, if_pos hi]
  · rw [overflow_colors, List.getElem?_replicate, if_pos hi]

theorem overflow_written_vertex (st : Mesh Int × List MLoopCol) (k : MLoopCol) (e : Nat)
    (v : MVert Int) (h : st.1.mvert[0]? = some v) :
    (instance_writes (⟨1, 1, 1⟩ : float3 Int) 1 k 0 0 0 e st).1.mvert[0]? =
      some ⟨⟨2, 0, 0⟩, v.no0, v.no1, v.no2⟩ := by
  unfold instance_writes
  dsimp only
  rw [getElem?_write_block, h]
  rfl

/-- With 178956971 particles the loop count `12 * n` is `2^31 + 4`, a negative `int`: no mesh
is built. -/
theorem tight_undefined :
    distribute_tetrahedons tight_centers tight_scales tight_colors = none :=
  distribute_tetrahedons_negative_count tight_centers tight_scales tight_colors
    (by rw [tight_centers, List.length_replicate]; norm_num [INT_SIZE])
    (by rw [tight_centers, List.length_replicate]; norm_num [UINT_SIZE])

/-- The claim C6 fails between `2^31` and `2^32`: for the 178956971 centres of the example,
each with a scale and a colour, `12 * n < 2^32`, and no mesh is built, because the loop count
`12 * n = 2^31 + 4` arrives at `BKE_mesh_new_nomain` as a negative `int`. -/
theorem distribute_tetrahedons_counts_counterexample :
    12 * tight_centers.length < UINT_SIZE ∧
    tight_centers.length ≤ tight_scales.length ∧ tight_centers.length ≤ tight_colors.length ∧
    ¬ ∃ mesh, distribute_tetrahedons tight_centers tight_scales tight_colors = some mesh ∧
      mesh.totloop = 12 * tight_centers.length ∧
      mesh.mloop.length = 12 * tight_centers.length := by
  refine ⟨?_, ?_, ?_, ?_⟩
  · rw [tight_centers, List.length_replicate]; norm_num [UINT_SIZE]
  · rw [tight_scales, tight_centers, List.length_replicate, List.length_replicate]
  · rw [tight_colors, tight_centers, List.length_replicate, List.length_replicate]
  · rintro ⟨mesh, hm, -⟩
    rw [tight_undefined] at hm
    cases hm

/-- The claim C7 fails when the `uint` offsets wrap.  Take `2^31 + 1` particles and the arrays
of one tetrahedron (4 vertices, 6 edges, 12 loops and loop colours, 4 polygons).  The four
offsets of instance `2^31` are `0` modulo `2^32`: its work is defined on these arrays and
writes vertex slot 0, outside the slots `[4 * 2^31, 4 * 2^31 + 4)` and inside those of
instance 0, which writes the slot too.  And with 178956971 particles, the least `n` with
`12 * n ≥ 2^31`, neither build of `distribute_tetrahedons` makes a mesh, whatever the
chunks. -/
theorem distribute_tetrahedons_chunks_counterexample :
    (∃ st2, distribute_tetrahedons_instance overflow_centers overflow_scales overflow_colors
        one_tetrahedron_arrays (2 ^ 31) = some st2 ∧
      st2.1.mvert[0]? ≠ one_tetrahedron_arrays.1.mvert[0]? ∧
      ¬ writes_only_slots_of (2 ^ 31) one_tetrahedron_arrays st2) ∧
    (∃ st1, distribute_tetrahedons_instance overflow_centers overflow_scales overflow_colors
        one_tetrahedron_arrays 0 = some st1 ∧
      st1.1.mvert[0]? ≠ one_tetrahedron_arrays.1.mvert[0]?) ∧
    distribute_tetrahedons tight_centers tight_scales tight_colors = none ∧
    ∀ chunks, distribute_tetrahedons_tbb chunks tight_centers tight_scales tight_colors =
      none := by
  have m4 : uint_mul (2 ^ 31) 4 = 0 := by norm_num [uint_mul, UINT_SIZE]
  have m12 : uint_mul (2 ^ 31) 12 = 0 := by norm_num [uint_mul, UINT_SIZE]
  have m6 : uint_mul (2 ^ 31) 6 = 0 := by norm_num [uint_mul, UINT_SIZE]
  have z4 : uint_mul 0 4 = 0 := by norm_num [uint_mul, UINT_SIZE]
  have z12 : uint_mul 0 12 = 0 := by norm_num [uint_mul, UINT_SIZE]
  have z6 : uint_mul 0 6 = 0 := by norm_num [uint_mul, UINT_SIZE]
  have hb : 0 + 4 ≤ one_tetrahedron_arrays.1.mvert.length ∧
      0 + 4 ≤ one_tetrahedron_arrays.1.mpoly.length ∧
      0 + 12 ≤ one_tetrahedron_arrays.1.mloop.length ∧
      0 + 12 ≤ one_tetrahedron_arrays.2.length ∧
      0 + 6 ≤ one_tetrahedron_arrays.1.medge.length := by
    decide
  have e31 := overflow_instance_eq one_tetrahedron_arrays (2 ^ 31)
    (by norm_num) (by rw [m4]; norm_num [UINT_SIZE]) (by rw [m12]; norm_num [UINT_SIZE])
    (by rw [m6]; norm_num [UINT_SIZE])
  have e0 := overflow_instance_eq one_tetrahedron_arrays 0
    (by norm_num) (by rw [z4]; norm_num [UINT_SIZE]) (by rw [z12]; norm_num [UINT_SIZE])
    (by rw [z6]; norm_num [UINT_SIZE])
  rw [m4, m12, m6, if_pos hb] at e31
  rw [z4, z12, z6, if_pos hb] at e0
  have hne : (some ⟨⟨2, 0, 0⟩, 0, 0, 0⟩ : Option (MVert Int)) ≠ some ⟨⟨0, 0, 0⟩, 0, 0, 0⟩ := by
    decide
  refine ⟨⟨_, e31, ?_, ?_⟩, ⟨_, e0, ?_⟩, tight_undefined, ?_⟩
  · rw [overflow_written_vertex _ _ _ _ one_tetrahedron_vertex, one_tetrahedron_vertex]
    exact hne
  · intro hw
    have := hw.2.1 0 (by norm_num)
    rw [overflow_written_vertex _ _ _ _ one_tetrahedron_vertex, one_tetrahedron_vertex] at this
    exact hne this
  · rw [overflow_written_vertex _ _ _ _ one_tetrahedron_vertex, one_tetrahedron_vertex]
    exact hne
  · intro chunks
    unfold distribute_tetrahedons_tbb
    rw [distribute_tetrahedons_alloc_none tight_centers
      (by rw [tight_centers, List.length_replicate]; norm_num [INT_SIZE])
      (by rw [tight_centers, List.length_replicate]; norm_num [UINT_SIZE])]
    rfl

/-- C6, as amended, on two particles: the mesh is built and has 8 vertices, 12 edges, 24 loops and
8 triangles. -/
theorem distribute_tetrahedons_counts_witness :
    12 * two_centers.length < INT_SIZE ∧
    ∃ mesh, distribute_tetrahedons two_centers two_scales two_colors = some mesh ∧
      (mesh.totvert = 4 * two_centers.length ∧ mesh.mvert.length = 4 * two_centers.length) ∧
      (mesh.totedge = 6 * two_centers.length ∧ mesh.medge.length = 6 * two_centers.length) ∧
      (mesh.totloop = 12 * two_centers.length ∧ mesh.mloop.length = 12 * two_centers.length) ∧
      (mesh.totpoly = 4 * two_centers.length ∧ mesh.mpoly.length = 4 * two_centers.length) ∧
      (∀ i j, i < two_centers.length → j < 4 →
        mesh.mpoly[4 * i + j]? = some ⟨12 * i + 3 * j, 3⟩) ∧
      (∀ p, p < 4 * two_centers.length → mesh.mpoly[p]? = some ⟨3 * p, 3⟩) := by
  have h := distribute_tetrahedons_counts two_centers two_scales two_colors (by decide)
  obtain ⟨mesh, hm⟩ := h.1.mpr ⟨by decide, by decide⟩
  exact ⟨by decide, mesh, hm, h.2 mesh hm⟩

/-- C7, as amended, on two particles processed as the chunks `[1, 2)` then `[0, 1)`. -/
theorem distribute_tetrahedons_chunks_witness :
    (12 * 2 < INT_SIZE ∧ IsConsecutiveSplit [⟨0, 1⟩, ⟨1, 1⟩] 0 2 ∧
      List.Perm [(⟨1, 1⟩ : IndexRange), ⟨0, 1⟩] [⟨0, 1⟩, ⟨1, 1⟩]) ∧
    distribute_tetrahedons_tbb [⟨1, 1⟩, ⟨0, 1⟩] two_centers two_scales two_colors =
      distribute_tetrahedons two_centers two_scales two_colors :=
  ⟨⟨by decide, ⟨rfl, rfl, rfl⟩, List.Perm.swap _ _ _⟩,
    (distribute_tetrahedons_chunks two_centers two_scales two_colors 2 (by decide)
      [⟨0, 1⟩, ⟨1, 1⟩] [⟨1, 1⟩, ⟨0, 1⟩] ⟨rfl, rfl, rfl⟩ (List.Perm.swap _ _ _)).2.1 rfl⟩

/-! ## Flattening -/

theorem lookup_mem {V : Type} (key : String) (v : V) :
    ∀ (entries : List (String × V)), entries.lookup key = some v → (key, v) ∈ entries
  | [], h => by cases h
  | (k, w) :: rest, h => by
    by_cases hk : key = k
    · subst hk
      simp only [List.lookup, beq_self_eq_true] at h
      cases h
      exact List.mem_cons_self _ _
    · have hbeq : (key == k) = false := by simpa using hk
      simp only [List.lookup, hbeq] at h
      exact List.mem_cons_of_mem _ (lookup_mem key v rest h)

theorem lookup_of_mem_keys {V : Type} (key : String) :
    ∀ (entries : List (String × V)), key ∈ entries.map (fun e => e.1) →
      ∃ v, entries.lookup key = some v
  | [], h => by cases h
  | (k, w) :: rest, h => by
    by_cases hk : key = k
    · subst hk
      exact ⟨w, by simp [List.lookup]⟩
    · have hbeq : (key == k) = false := by simpa using hk
      have : key ∈ rest.map (fun e => e.1) := by
        simp only [List.map_cons, List.mem_cons] at h
        rcases h with h | h
        · exact absurd h hk
        · exact h
      obtain ⟨v, hv⟩ := lookup_of_mem_keys key rest this
      exact ⟨v, by simp [List.lookup, hbeq, hv]⟩

theorem mem_keys_of_lookup {V : Type} (key : String) (v : V) (entries : List (String × V))
    (h : entries.lookup key = some v) : key ∈ entries.map (fun e => e.1) :=
  List.mem_map.mpr ⟨(key, v), lookup_mem key v entries h, rfl⟩

theorem collect_map_some {α β : Type} (f : α → Option β) (g : α → β) :
    ∀ (l : List α), (∀ x ∈ l, f x = some (g x)) → collect (l.map f) = some (l.map g)
  | [], _ => rfl
  | a :: l, h => by
    have h1 := h a (List.mem_cons_self _ _)
    have h2 := collect_map_some f g l (fun x hx => h x (List.mem_cons_of_mem _ hx))
    simp [collect, h1, h2]

theorem collect_length {α : Type} :
    ∀ (l : List (Option α)) (r : List α), collect l = some r → r.length = l.length
  | [], r, h => by
    simp only [collect, Option.some.injEq] at h
    subst h
    rfl
  | none :: l, r, h => by cases h
  | some a :: l, r, h => by
    simp only [collect, Option.map_eq_some'] at h
    obtain ⟨r2, h2, rfl⟩ := h
    simp [collect_length l r2 h2]

/-- The live span of an attribute of a well-formed block that has the attribute. -/
theorem attribute_span_valid {V : Type} (b : AttributesBlock V) (name : String)
    (hb : b.valid) (hn : name ∈ b.columns.map (fun c => c.1)) :
    ∃ column, b.columns.lookup name = some column ∧ column.length = b.capacity ∧
      b.attribute_span name = some (column.take b.active_count) ∧
      (column.take b.active_count).length = b.active_count := by
  obtain ⟨column, hc⟩ := lookup_of_mem_keys name b.columns hn
  have hlen : column.length = b.capacity := hb.2.2.2 _ (lookup_mem name column b.columns hc)
  have hle : b.active_count ≤ column.length := by rw [hlen]; exact hb.1
  refine ⟨column, hc, hlen, ?_, ?_⟩
  · simp [AttributesBlock.attribute_span, hc, hle]
  · simp [List.length_take, hle]

theorem sum_active_filter {V : Type} :
    ∀ (blocks : List (AttributesBlock V)),
      ((blocks.filter (fun b => decide (0 < b.active_count))).map
        (fun b => b.active_count)).sum = (blocks.map (fun b => b.active_count)).sum
  | [] => rfl
  | b :: rest => by
    by_cases h : 0 < b.active_count
    · simp [List.filter_cons, h, sum_active_filter rest]
    · have h0 : b.active_count = 0 := by omega
      simp [List.filter_cons, h, sum_active_filter rest, h0]

theorem flatten_attribute_valid {F : Type} (c : AttributesBlockContainer F)
    (name : String) (type : CPPType) (hc : c.valid) (ha : c.has_attribute name type) :
    c.flatten_attribute name type = some (c.live_values name) ∧
      (c.live_values name).length = c.count_active ∧
      ∀ v ∈ c.live_values name, v.type = type := by
  have hkey : name ∈ c.schema.map (fun s => s.1) := mem_keys_of_lookup name type c.schema ha
  have hspan : ∀ b ∈ c.active_blocks,
      b.attribute_span name = some ((b.column name).take b.active_count) ∧
      ((b.column name).take b.active_count).length = b.active_count ∧
      ∀ v ∈ b.column name, v.type = type := by
    intro b hb
    have hb2 : b ∈ c.blocks := (List.mem_filter.mp hb).1
    obtain ⟨hv, hcols, htypes⟩ := hc.2 b hb2
    obtain ⟨column, h1, h2, h3, h4⟩ := attribute_span_valid b name hv (by rw [hcols]; exact hkey)
    have hcol : b.column name = column := by simp [AttributesBlock.column, h1]
    rw [hcol]
    refine ⟨h3, h4, ?_⟩
    intro v hv2
    have := htypes (name, column) (lookup_mem name column b.columns h1) v hv2
    rw [ha] at this
    exact (Option.some.inj this).symm
  have hcollect := collect_map_some (fun b : AttributesBlock (GenericValue F) =>
    b.attribute_span name) (fun b => (b.column name).take b.active_count) c.active_blocks
    (fun b hb => (hspan b hb).1)
  have htypes : ∀ v ∈ c.live_values name, v.type = type := by
    intro v hv
    simp only [AttributesBlockContainer.live_values, List.mem_flatten, List.mem_map] at hv
    obtain ⟨l, ⟨b, hb, rfl⟩, hv2⟩ := hv
    exact (hspan b hb).2.2 v (List.mem_of_mem_take hv2)
  refine ⟨?_, ?_, htypes⟩
  · unfold AttributesBlockContainer.flatten_attribute
    rw [ha]
    simp only [if_true, hcollect]
    have hall : (c.live_values name).all (fun v => decide (v.type = type)) = true := by
      simp only [List.all_eq_true, decide_eq_true_eq]
      exact htypes
    unfold AttributesBlockContainer.live_values at hall
    rw [hall]
    rfl
  · unfold AttributesBlockContainer.live_values
    rw [List.length_flatten, List.map_map]
    have : (c.active_blocks.map (List.length ∘ fun b => (b.column name).take b.active_count))
        = c.active_blocks.map (fun b => b.active_count) := by
      apply List.map_congr_left
      intro b hb
      exact (hspan b hb).2.1
    rw [this]
    exact sum_active_filter c.blocks

/-! ## Frame cache -/

theorem cache_type_old {F : Type} (sizes : NameSizes) (name : String)
    (container : AttributesBlockContainer F) (heap : Heap) (old : BParticlesTypeCache F) :
    cache_type sizes name container heap old =
      cache_type sizes name container heap BParticlesTypeCache.zero := rfl

/-- The type record written for a container whose three attributes can be flattened. -/
theorem cache_type_eq {F : Type} (sizes : NameSizes) (name : String)
    (c : AttributesBlockContainer F) (heap : Heap) (old : BParticlesTypeCache F)
    (vp vs vc : List F)
    (hp : c.flatten_attribute_into "Position" .Float3 c.count_active = some vp)
    (hs : c.flatten_attribute_into "Size" .Float c.count_active = some vs)
    (hc : c.flatten_attribute_into "Color" .RgbaF c.count_active = some vc) :
    cache_type sizes name c heap old =
      some (⟨heap.next + 4,
          (heap.next + 3) :: (heap.next + 2) :: (heap.next + 1) :: heap.next :: heap.live⟩,
        { name := strncpy name (sizes.sizeof_type_name - 1)
          particle_amount := c.count_active
          num_attributes_float := 3
          attributes_float := some (heap.next,
            [⟨strncpy "Position" sizes.sizeof_attribute_name, 3, some (heap.next + 1, vp)⟩,
             ⟨strncpy "Size" sizes.sizeof_attribute_name, 1, some (heap.next + 2, vs)⟩,
             ⟨strncpy "Color" sizes.sizeof_attribute_name, 4, some (heap.next + 3, vc)⟩]) }) := by
  simp [cache_type, cache_attribute, hp, hs, hc, Heap.alloc, modifyAt, List.replicate,
    BParticlesAttributeCacheFloat.zero, CPPType.floats_per_element]

theorem cache_types_cons {F : Type} (sizes : NameSizes)
    (kv : String × AttributesBlockContainer F) (l : List (String × AttributesBlockContainer F))
    (heap : Heap) :
    cache_types sizes (kv :: l) heap =
      (cache_type sizes kv.1 kv.2 heap BParticlesTypeCache.zero).bind (fun r =>
        (cache_types sizes l r.1).bind (fun r2 => some (r2.1, r.2 :: r2.2))) := by
  rw [cache_types]
  cases cache_type sizes kv.1 kv.2 heap BParticlesTypeCache.zero with
  | none => rfl
  | some r =>
    obtain ⟨h1, t⟩ := r
    simp only [Option.some_bind]
    cases cache_types sizes l h1 with
    | none => rfl
    | some r2 => rfl

theorem cache_types_append {F : Type} (sizes : NameSizes)
    (l : List (String × AttributesBlockContainer F)) (kv : String × AttributesBlockContainer F)
    (heap : Heap) :
    cache_types sizes (l ++ [kv]) heap =
      (cache_types sizes l heap).bind (fun r =>
        (cache_type sizes kv.1 kv.2 r.1 BParticlesTypeCache.zero).bind (fun r2 =>
          some (r2.1, r.2 ++ [r2.2]))) := by
  induction l generalizing heap with
  | nil =>
    simp only [List.nil_append, cache_types, Option.some_bind]
    cases cache_type sizes kv.1 kv.2 heap BParticlesTypeCache.zero with
    | none => rfl
    | some r => rfl
  | cons a l ih =>
    rw [List.cons_append, cache_types_cons, cache_types_cons]
    simp only [ih]
    cases cache_type sizes a.1 a.2 heap BParticlesTypeCache.zero with
    | none => rfl
    | some r =>
      simp only [Option.some_bind]
      cases cache_types sizes l r.1 with
      | none => rfl
      | some r2 =>
        simp only [Option.some_bind]
        cases cache_type sizes kv.1 kv.2 r2.1 BParticlesTypeCache.zero with
        | none => rfl
        | some r3 => rfl

theorem cache_types_length {F : Type} (sizes : NameSizes) :
    ∀ (l : List (String × AttributesBlockContainer F)) (heap : Heap) (r),
      cache_types sizes l heap = some r → r.2.length = l.length
  | [], heap, r, h => by
    simp only [cache_types, Option.some.injEq] at h
    subst h
    rfl
  | kv :: rest, heap, r, h => by
    simp only [cache_types] at h
    cases h1 : cache_type sizes kv.1 kv.2 heap BParticlesTypeCache.zero with
    | none => rw [h1] at h; cases h
    | some r1 =>
      obtain ⟨heap1, t⟩ := r1
      rw [h1] at h
      simp only at h
      cases h2 : cache_types sizes rest heap1 with
      | none => rw [h2] at h; cases h
      | some r2 =>
        obtain ⟨heap2, ts⟩ := r2
        rw [h2] at h
        simp only [Option.some.injEq] at h
        subst h
        simp [cache_types_length sizes rest heap1 _ h2]

/-- The loop over the containers, run for the first `k` containers. -/
theorem cache_loop_first {F : Type} (sizes : NameSizes)
    (pairs : List (String × AttributesBlockContainer F)) (heap : Heap) (k : Nat)
    (hk : k ≤ pairs.length) :
    for_uint k
      (cache_types_step sizes (pairs.map (fun kv => kv.1)) (pairs.map (fun kv => kv.2)))
      (heap, List.replicate pairs.length BParticlesTypeCache.zero) =
    (cache_types sizes (pairs.take k) heap).bind (fun r =>
      some (r.1, r.2 ++ List.replicate (pairs.length - k) BParticlesTypeCache.zero)) := by
  induction k with
  | zero => simp [for_uint_zero, cache_types]
  | succ k ih =>
    have hk2 : k < pairs.length := by omega
    rw [for_uint_succ, ih (by omega), List.take_succ, List.getElem?_eq_getElem hk2]
    simp only [Option.toList_some, cache_types_append]
    cases h1 : cache_types sizes (List.take k pairs) heap with
    | none => rfl
    | some r =>
      obtain ⟨heap1, ts⟩ := r
      have hlen : ts.length = k := by
        have := cache_types_length sizes _ heap _ h1
        simpa [List.length_take, Nat.min_eq_left (Nat.le_of_lt hk2)] using this
      simp only [cache_types_step, Option.some_bind, Option.bind_eq_bind, List.getElem?_map,
        List.getElem?_eq_getElem hk2, Option.map_some']
      have hold : (ts ++ List.replicate (pairs.length - k) BParticlesTypeCache.zero)[k]? =
          some (BParticlesTypeCache.zero : BParticlesTypeCache F) := by
        rw [List.getElem?_append_right (by omega), hlen, Nat.sub_self,
          List.getElem?_replicate, if_pos (by omega)]
      rw [hold]
      simp only [Option.some_bind]
      cases h2 : cache_type sizes pairs[k].1 pairs[k].2 heap1 BParticlesTypeCache.zero with
      | none => rfl
      | some r2 =>
        obtain ⟨heap2, t⟩ := r2
        simp only [Option.some_bind, Option.pure_def, Option.some.injEq, Prod.mk.injEq, true_and]
        apply List.ext_getElem?
        intro j
        rw [List.getElem?_set]
        simp only [List.length_append, List.length_replicate, hlen]
        by_cases hj : k = j
        · subst hj
          rw [if_pos rfl, if_pos (by omega), List.append_assoc,
            List.getElem?_append_right (by omega), hlen, Nat.sub_self]
          simp
        · rw [if_neg hj]
          by_cases hj2 : j < k
          · rw [List.getElem?_append_left (by omega), List.append_assoc,
              List.getElem?_append_left (by omega)]
          · rw [List.getElem?_append_right (by omega), List.getElem?_append_right (by
              simp only [List.length_append, List.length_singleton, hlen]; omega)]
            simp only [List.getElem?_replicate, List.length_append, List.length_singleton, hlen]
            by_cases hj3 : j < pairs.length
            · rw [if_pos (by omega), if_pos (by omega)]
            · rw [if_neg (by omega), if_neg (by omega)]

/-- A type record is written only when the three attributes can be flattened, and then it is
the record of `cache_type_eq`. -/
theorem cache_type_some {F : Type} (sizes : NameSizes) (name : String)
    (c : AttributesBlockContainer F) (heap : Heap) (old : BParticlesTypeCache F)
    (r : Heap × BParticlesTypeCache F) (h : cache_type sizes name c heap old = some r) :
    ∃ vp vs vc,
      c.flatten_attribute_into "Position" .Float3 c.count_active = some vp ∧
      c.flatten_attribute_into "Size" .Float c.count_active = some vs ∧
      c.flatten_attribute_into "Color" .RgbaF c.count_active = some vc := by
  cases hp : c.flatten_attribute_into "Position" .Float3 c.count_active with
  | none => simp [cache_type, cache_attribute, hp] at h
  | some vp =>
    cases hs : c.flatten_attribute_into "Size" .Float c.count_active with
    | none =>
      simp [cache_type, cache_attribute, hp, hs, Heap.alloc, modifyAt, List.replicate] at h
    | some vs =>
      cases hc : c.flatten_attribute_into "Color" .RgbaF c.count_active with
      | none =>
        simp [cache_type, cache_attribute, hp, hs, hc, Heap.alloc, modifyAt,
          List.replicate] at h
      | some vc => exact ⟨vp, vs, vc, rfl, rfl, rfl⟩

/-- What the loop over the containers leaves, whenever it completes: one record per registry
entry, in order, each with four fresh heap blocks. -/
theorem cache_types_some {F : Type} (sizes : NameSizes) :
    ∀ (l : List (String × AttributesBlockContainer F)) (heap heap2 : Heap)
      (types : List (BParticlesTypeCache F)),
      cache_types sizes l heap = some (heap2, types) →
      heap2.next = heap.next + 4 * l.length ∧
      heap2.live.Perm (types.flatMap BParticlesTypeCache.pointers ++ heap.live) ∧
      (∀ p ∈ types.flatMap BParticlesTypeCache.pointers, heap.next ≤ p ∧ p < heap2.next) ∧
      (types.flatMap BParticlesTypeCache.pointers).Nodup ∧
      (∀ t ∈ types, t.valid) ∧
      List.Forall₂ (is_type_record sizes) l types
  | [], heap, heap2, types, h => by
    simp only [cache_types, Option.some.injEq, Prod.mk.injEq] at h
    obtain ⟨rfl, rfl⟩ := h
    simp
  | kv :: rest, heap, heap2, types, h => by
    rw [cache_types_cons] at h
    cases h1 : cache_type sizes kv.1 kv.2 heap BParticlesTypeCache.zero with
    | none => rw [h1] at h; cases h
    | some r1 =>
      rw [h1, Option.some_bind] at h
      cases h2 : cache_types sizes rest r1.1 with
      | none => rw [h2] at h; cases h
      | some r2 =>
        rw [h2, Option.some_bind] at h
        simp only [Option.some.injEq, Prod.mk.injEq] at h
        obtain ⟨rfl, rfl⟩ := h
        obtain ⟨vp, vs, vc, hp, hs, hc⟩ := cache_type_some sizes kv.1 kv.2 heap _ r1 h1
        rw [cache_type_eq sizes kv.1 kv.2 heap _ vp vs vc hp hs hc] at h1
        have hr1 := (Option.some.inj h1).symm
        obtain ⟨i1, i2, i3, i4, i5, i6⟩ := cache_types_some sizes rest r1.1 r2.1 r2.2 h2
        subst hr1
        have hptr : BParticlesTypeCache.pointers
            ({ name := strncpy kv.1 (sizes.sizeof_type_name - 1)
               particle_amount := kv.2.count_active
               num_attributes_float := 3
               attributes_float := some (heap.next,
                 [⟨strncpy "Position" sizes.sizeof_attribute_name, 3, some (heap.next + 1, vp)⟩,
                  ⟨strncpy "Size" sizes.sizeof_attribute_name, 1, some (heap.next + 2, vs)⟩,
                  ⟨strncpy "Color" sizes.sizeof_attribute_name, 4,
                    some (heap.next + 3, vc)⟩]) } : BParticlesTypeCache F) =
            [heap.next + 1, heap.next + 2, heap.next + 3, heap.next] := by
          simp [BParticlesTypeCache.pointers]
        simp only at i1 i2 i3
        refine ⟨?_, ?_, ?_, ?_, ?_, ?_⟩
        · show r2.1.next = heap.next + 4 * (rest.length + 1)
          omega
        · rw [List.flatMap_cons, hptr]
          refine i2.trans ?_
          have : (r2.2.flatMap BParticlesTypeCache.pointers ++
              (heap.next + 3) :: (heap.next + 2) :: (heap.next + 1) :: heap.next :: heap.live).Perm
              (((heap.next + 3) :: (heap.next + 2) :: (heap.next + 1) :: heap.next :: heap.live)
                ++ r2.2.flatMap BParticlesTypeCache.pointers) := List.perm_append_comm
          refine this.trans ?_
          have h4 : ([heap.next + 1, heap.next + 2, heap.next + 3, heap.next] ++
              r2.2.flatMap BParticlesTypeCache.pointers ++ heap.live).Perm
              ([heap.next + 3, heap.next + 2, heap.next + 1, heap.next] ++
                (heap.live ++ r2.2.flatMap BParticlesTypeCache.pointers)) := by
            rw [List.append_assoc]
            apply List.Perm.append
            · have hrot : ([heap.next + 1, heap.next + 2, heap.next + 3] ++ [heap.next]).Perm
                  ([heap.next] ++ [heap.next + 1, heap.next + 2, heap.next + 3]) :=
                List.perm_append_comm
              exact hrot.trans
                (List.reverse_perm [heap.next + 3, heap.next + 2, heap.next + 1, heap.next])
            · exact List.perm_append_comm
          exact h4.symm
        · intro p hp2
          rw [List.flatMap_cons, hptr, List.mem_append] at hp2
          rcases hp2 with hp2 | hp2
          · simp only [List.mem_cons, List.mem_singleton, List.not_mem_nil, or_false] at hp2
            omega
          · have := i3 p hp2
            omega
        · rw [List.flatMap_cons, hptr, List.nodup_append]
          refine ⟨by simp, i4, ?_⟩
          intro p hp2 hp3
          have := i3 p hp3
          simp only [List.mem_cons, List.mem_singleton, List.not_mem_nil, or_false] at hp2
          omega
        · intro t ht
          rcases List.mem_cons.mp ht with rfl | ht
          · simp [BParticlesTypeCache.valid]
          · exact i5 t ht
        · refine List.Forall₂.cons ?_ i6
          exact ⟨rfl, rfl, rfl, _, _, _, _, vp, vs, vc, rfl, hp, hs, hc⟩

/-! ## Releasing the cache -/

theorem free_all_nil (heap : Heap) : heap.free_all [] = some heap := rfl

theorem free_all_cons (heap : Heap) (p : Nat) (ps : List Nat) :
    heap.free_all (p :: ps) = (heap.free p).bind (fun h => h.free_all ps) := by
  simp [Heap.free_all, List.foldlM_cons]

theorem free_all_append (heap : Heap) (ps qs : List Nat) :
    heap.free_all (ps ++ qs) = (heap.free_all ps).bind (fun h => h.free_all qs) := by
  simp [Heap.free_all, List.foldlM_append]

/-- Releasing blocks that are all outstanding succeeds and leaves the other blocks. -/
theorem free_all_perm :
    ∀ (ps : List Nat) (heap : Heap) (rest : List Nat), heap.live.Perm (ps ++ rest) →
      ∃ heap2, heap.free_all ps = some heap2 ∧ heap2.next = heap.next ∧ heap2.live.Perm rest
  | [], heap, rest, h => ⟨heap, rfl, rfl, h⟩
  | p :: ps, heap, rest, h => by
    have hp : p ∈ heap.live := h.symm.subset (List.mem_cons_self _ _)
    have h2 : (heap.live.erase p).Perm (ps ++ rest) := by
      have := h.erase p
      simpa using this
    obtain ⟨heap2, e, e1, e2⟩ := free_all_perm ps { heap with live := heap.live.erase p } rest h2
    refine ⟨heap2, ?_, e1, e2⟩
    rw [free_all_cons]
    simp [Heap.free, hp, e]

theorem foldlM_free_values {F : Type} :
    ∀ (attributes : List (BParticlesAttributeCacheFloat F)) (heap : Heap),
      attributes.foldlM free_cached_attribute heap =
      heap.free_all (attributes.filterMap (fun a => a.values.map (fun v => v.1)))
  | [], heap => rfl
  | a :: rest, heap => by
    rw [List.foldlM_cons]
    unfold free_cached_attribute
    cases hv : a.values with
    | none =>
      simp only [List.filterMap_cons, hv, Option.map_none', Option.bind_eq_bind,
        Option.some_bind]
      exact foldlM_free_values rest heap
    | some v =>
      simp only [List.filterMap_cons, hv, Option.map_some', free_all_cons,
        Option.bind_eq_bind]
      cases heap.free v.1 with
      | none => rfl
      | some h2 => exact foldlM_free_values rest h2

theorem ref_c_array_all {α : Type} (p : Nat) (elems : List α) :
    ref_c_array (some (p, elems)) elems.length = some elems := by
  simp [ref_c_array]

/-- Releasing a type record releases the blocks it points to, in order. -/
theorem free_cached_type_eq {F : Type} (heap : Heap) (t : BParticlesTypeCache F)
    (ht : t.valid) : free_cached_type heap t = heap.free_all t.pointers := by
  unfold free_cached_type BParticlesTypeCache.pointers
  unfold BParticlesTypeCache.valid at ht
  cases ha : t.attributes_float with
  | none =>
    rw [ha] at ht
    simp only at ht
    rw [ht]
    rfl
  | some a =>
    obtain ⟨p, attributes⟩ := a
    rw [ha] at ht
    simp only at ht
    rw [← ht, ref_c_array_all]
    simp only [Option.bind_eq_bind, Option.some_bind, foldlM_free_values, free_all_append]
    cases heap.free_all (attributes.filterMap (fun a => a.values.map (fun v => v.1))) with
    | none => rfl
    | some h2 =>
      simp only [Option.some_bind, free_all_cons, free_all_nil]
      cases h2.free p <;> rfl

theorem foldlM_free_all {α : Type} (f : Heap → α → Option Heap) (ptrs : α → List Nat) :
    ∀ (l : List α) (heap : Heap), (∀ x ∈ l, ∀ h, f h x = h.free_all (ptrs x)) →
      l.foldlM f heap = heap.free_all (l.flatMap ptrs)
  | [], heap, _ => rfl
  | a :: rest, heap, hf => by
    rw [List.foldlM_cons, List.flatMap_cons, free_all_append, hf a (List.mem_cons_self _ _)]
    simp only [Option.bind_eq_bind]
    cases heap.free_all (ptrs a) with
    | none => rfl
    | some h2 =>
      exact foldlM_free_all f ptrs rest h2 (fun x hx => hf x (List.mem_cons_of_mem _ hx))

/-- Releasing a frame record releases the blocks it points to, in order. -/
theorem free_cached_frame_eq {F : Type} (heap : Heap) (f : BParticlesFrameCache F)
    (hf : f.valid) : free_cached_frame heap f = heap.free_all f.pointers := by
  unfold free_cached_frame BParticlesFrameCache.pointers
  unfold BParticlesFrameCache.valid at hf
  cases ha : f.particle_types with
  | none =>
    rw [ha] at hf
    simp only at hf
    rw [hf]
    rfl
  | some a =>
    obtain ⟨p, types⟩ := a
    rw [ha] at hf
    simp only at hf
    rw [← hf.1, ref_c_array_all]
    simp only [Option.bind_eq_bind, Option.some_bind, free_all_append]
    rw [foldlM_free_all free_cached_type BParticlesTypeCache.pointers types heap
      (fun t ht h => free_cached_type_eq h t (hf.2 t ht))]
    cases heap.free_all (types.flatMap BParticlesTypeCache.pointers) with
    | none => rfl
    | some h2 =>
      simp only [Option.some_bind, free_all_cons, free_all_nil]
      cases h2.free p <;> rfl

/-- Releasing the cache releases the blocks it points to, in order, and empties it. -/
theorem free_cache_eq {F : Type} (bpmd : BParticlesModifierData F) (heap : Heap)
    (hv : bpmd.valid) :
    BParticles_modifier_free_cache bpmd heap =
      (heap.free_all bpmd.pointers).bind (fun h => some (BParticlesModifierData.empty, h)) := by
  unfold BParticles_modifier_free_cache BParticlesModifierData.pointers
  unfold BParticlesModifierData.valid at hv
  cases ha : bpmd.cached_frames with
  | none =>
    rw [ha] at hv
    simp only at hv
    simp only [hv, if_true, free_all_nil, Option.some_bind]
    obtain ⟨c, n⟩ := bpmd
    simp only at ha hv
    subst ha hv
    rfl
  | some a =>
    obtain ⟨p, frames⟩ := a
    rw [ha] at hv
    simp only at hv
    simp only
    rw [← hv.1, ref_c_array_all]
    simp only [Option.bind_eq_bind, Option.some_bind, free_all_append]
    rw [foldlM_free_all free_cached_frame BParticlesFrameCache.pointers frames heap
      (fun f hf h => free_cached_frame_eq h f (hv.2 f hf))]
    cases heap.free_all (frames.flatMap BParticlesFrameCache.pointers) with
    | none => rfl
    | some h2 =>
      simp only [Option.some_bind, free_all_cons, free_all_nil]
      cases h2.free p <;> rfl

/-- Releasing a cache that owns its blocks: everything the cache points to is released, once,
and the cache is left empty. -/
theorem free_cache_owned {F : Type} (bpmd : BParticlesModifierData F) (heap : Heap)
    (others : List Nat) (h : cache_owns bpmd heap others) :
    ∃ heap2, BParticles_modifier_free_cache bpmd heap = some (BParticlesModifierData.empty, heap2)
      ∧ heap2.next = heap.next ∧ heap2.live.Perm others := by
  obtain ⟨hv, -, hp⟩ := h
  obtain ⟨heap2, e, e1, e2⟩ := free_all_perm bpmd.pointers heap others hp
  exact ⟨heap2, by rw [free_cache_eq bpmd heap hv, e]; rfl, e1, e2⟩

/-- The function `BParticles_modifier_cache_state` in terms of the type records of the
frame. -/
theorem cache_state_eq {F : Type} (sizes : NameSizes) (bpmd : BParticlesModifierData F)
    (heap : Heap) (state : SimulationState F) (frame : F) :
    BParticles_modifier_cache_state sizes bpmd heap state frame =
      (cache_types sizes state.particles.particle_containers.entries
          ⟨heap.next + 1, heap.next :: heap.live⟩).bind (fun r =>
        (ref_c_array bpmd.cached_frames bpmd.num_cached_frames).bind (fun old_frames =>
          (r.1.realloc (bpmd.cached_frames.map (fun a => a.1))).bind (fun pr =>
            some ({ cached_frames := some (pr.1, old_frames ++
                      [⟨frame, state.particles.particle_containers.entries.length,
                        some (heap.next, r.2)⟩])
                    num_cached_frames := bpmd.num_cached_frames + 1 }, pr.2)))) := by
  unfold BParticles_modifier_cache_state
  simp only [StringMap.foreach_key_value_pair, List.length_map, Heap.alloc]
  rw [cache_loop_first sizes _ _ _ (le_refl _)]
  simp only [List.take_length, Nat.sub_self, List.replicate_zero, List.append_nil,
    Option.bind_eq_bind, Option.pure_def]
  cases cache_types sizes state.particles.particle_containers.entries
      ⟨heap.next + 1, heap.next :: heap.live⟩ with
  | none => rfl
  | some r => rfl



theorem flatten_attribute_into_valid {F : Type} (c : AttributesBlockContainer F)
    (name : String) (type : CPPType) (hc : c.valid) (ha : c.has_attribute name type) :
    c.flatten_attribute_into name type c.count_active =
      some ((c.live_values name).flatMap GenericValue.floats) := by
  obtain ⟨h1, h2, -⟩ := flatten_attribute_valid c name type hc ha
  simp [AttributesBlockContainer.flatten_attribute_into, h1, h2]

theorem cache_types_defined {F : Type} (sizes : NameSizes) :
    ∀ (l : List (String × AttributesBlockContainer F)) (heap : Heap),
      (∀ e ∈ l, e.2.valid ∧ e.2.has_attribute "Position" .Float3 ∧
        e.2.has_attribute "Size" .Float ∧ e.2.has_attribute "Color" .RgbaF) →
      ∃ r, cache_types sizes l heap = some r
  | [], heap, _ => ⟨_, rfl⟩
  | kv :: rest, heap, h => by
    obtain ⟨hv, hp, hs, hc⟩ := h kv (List.mem_cons_self _ _)
    rw [cache_types_cons, cache_type_eq sizes kv.1 kv.2 heap _ _ _ _
      (flatten_attribute_into_valid kv.2 _ _ hv hp) (flatten_attribute_into_valid kv.2 _ _ hv hs)
      (flatten_attribute_into_valid kv.2 _ _ hv hc)]
    obtain ⟨r, hr⟩ := cache_types_defined sizes rest
      ⟨heap.next + 4,
        (heap.next + 3) :: (heap.next + 2) :: (heap.next + 1) :: heap.next :: heap.live⟩
      (fun e he => h e (List.mem_cons_of_mem _ he))
    simp only [Option.some_bind]
    rw [hr]
    exact ⟨_, rfl⟩

theorem ref_c_array_valid {F : Type} (bpmd : BParticlesModifierData F) (hv : bpmd.valid) :
    ref_c_array bpmd.cached_frames bpmd.num_cached_frames = some bpmd.frames := by
  unfold BParticlesModifierData.valid at hv
  unfold BParticlesModifierData.frames
  cases ha : bpmd.cached_frames with
  | none =>
    rw [ha] at hv
    simp only at hv
    simp [ref_c_array, hv]
  | some a =>
    rw [ha] at hv
    simp only at hv
    rw [← hv.1]
    exact ref_c_array_all a.1 a.2

/-- Caching a frame is defined for a well-formed state and a cache whose frame-record array is
an outstanding heap block. -/
theorem cache_state_defined {F : Type} (sizes : NameSizes) (bpmd : BParticlesModifierData F)
    (heap : Heap) (state : SimulationState F) (frame : F)
    (hs : state.valid) (hv : bpmd.valid)
    (hp : ∀ a, bpmd.cached_frames = some a → a.1 ∈ heap.live) :
    ∃ r, BParticles_modifier_cache_state sizes bpmd heap state frame = some r := by
  rw [cache_state_eq, ref_c_array_valid bpmd hv]
  obtain ⟨r, hr⟩ := cache_types_defined sizes state.particles.particle_containers.entries
    ⟨heap.next + 1, heap.next :: heap.live⟩ hs
  rw [hr]
  simp only [Option.some_bind]
  obtain ⟨i1, i2, -⟩ := cache_types_some sizes _ _ r.1 r.2 hr
  cases ha : bpmd.cached_frames with
  | none => exact ⟨_, rfl⟩
  | some a =>
    have hmem : a.1 ∈ r.1.live :=
      i2.symm.subset (List.mem_append_right _ (List.mem_cons_of_mem _ (hp a ha)))
    simp [Heap.realloc, Heap.free, hmem]

/-- What a completed call of `BParticles_modifier_cache_state` leaves in the cache. -/
theorem cache_state_some {F : Type} (sizes : NameSizes) (bpmd bpmd2 : BParticlesModifierData F)
    (heap heap2 : Heap) (state : SimulationState F) (frame : F) (hv : bpmd.valid)
    (h : BParticles_modifier_cache_state sizes bpmd heap state frame = some (bpmd2, heap2)) :
    bpmd2.valid ∧ bpmd2.num_cached_frames = bpmd.num_cached_frames + 1 ∧
    ∃ p types, bpmd2.frames = bpmd.frames ++
        [⟨frame, state.particles.particle_containers.entries.length, some (p, types)⟩] ∧
      List.Forall₂ (is_type_record sizes) state.particles.particle_containers.entries types := by
  rw [cache_state_eq, ref_c_array_valid bpmd hv] at h
  cases hr : cache_types sizes state.particles.particle_containers.entries
      ⟨heap.next + 1, heap.next :: heap.live⟩ with
  | none => rw [hr] at h; cases h
  | some r =>
    rw [hr] at h
    simp only [Option.some_bind] at h
    cases hre : r.1.realloc (bpmd.cached_frames.map (fun a => a.1)) with
    | none => rw [hre] at h; cases h
    | some pr =>
      rw [hre] at h
      simp only [Option.some_bind, Option.some.injEq, Prod.mk.injEq] at h
      obtain ⟨rfl, rfl⟩ := h
      obtain ⟨i1, i2, i3, i4, i5, i6⟩ := cache_types_some sizes _ _ r.1 r.2 hr
      have hlen : r.2.length = state.particles.particle_containers.entries.length :=
        i6.length_eq.symm
      have hframes : bpmd.frames.length = bpmd.num_cached_frames := by
        unfold BParticlesModifierData.valid at hv
        unfold BParticlesModifierData.frames
        cases ha : bpmd.cached_frames with
        | none => rw [ha] at hv; simp only at hv; simp [hv]
        | some a => rw [ha] at hv; exact hv.1
      have hold : ∀ f ∈ bpmd.frames, f.valid := by
        unfold BParticlesModifierData.valid at hv
        unfold BParticlesModifierData.frames
        cases ha : bpmd.cached_frames with
        | none => intro f hf; cases hf
        | some a => rw [ha] at hv; exact hv.2
      refine ⟨?_, rfl, heap.next, r.2, rfl, i6⟩
      simp only [BParticlesModifierData.valid, List.length_append, List.length_singleton,
        hframes, List.mem_append, List.mem_singleton, true_and]
      intro f hf
      rcases hf with hf | rfl
      · exact hold f hf
      · exact ⟨hlen, i5⟩



theorem pointers_eq {F : Type} (bpmd : BParticlesModifierData F) :
    bpmd.pointers = bpmd.frames.flatMap BParticlesFrameCache.pointers ++
      (bpmd.cached_frames.map (fun a => a.1)).toList := by
  unfold BParticlesModifierData.pointers BParticlesModifierData.frames
  cases bpmd.cached_frames with
  | none => rfl
  | some a => rfl

/-- The effect of `MEM_reallocN` on the outstanding blocks. -/
theorem realloc_count (heap : Heap) (old : Option Nat)
    (hold : ∀ p, old = some p → p ∈ heap.live) :
    ∃ h2, heap.realloc old = some (heap.next, h2) ∧ h2.next = heap.next + 1 ∧
      ∀ a, h2.live.count a + old.toList.count a =
        heap.live.count a + if a = heap.next then 1 else 0 := by
  cases old with
  | none =>
    refine ⟨_, rfl, rfl, ?_⟩
    intro a
    simp only [Heap.alloc, Option.toList_none, List.count_nil, add_zero, List.count_cons,
      beq_iff_eq, @eq_comm _ heap.next a]
  | some p =>
    have hp : p ∈ heap.live := hold p rfl
    refine ⟨_, by simp [Heap.realloc, Heap.free, hp]; rfl, rfl, ?_⟩
    intro a
    have h1 : 1 ≤ heap.live.count p := List.one_le_count_iff.mpr hp
    by_cases hpa : a = p
    · subst hpa
      simp only [Heap.alloc, Option.toList_some, List.count_cons, List.count_nil, zero_add,
        beq_iff_eq, List.count_erase, @eq_comm _ heap.next a, if_true]
      split_ifs <;> omega
    · have hpa2 : ¬ p = a := fun e => hpa e.symm
      simp only [Heap.alloc, Option.toList_some, List.count_cons, List.count_nil, zero_add,
        beq_iff_eq, List.count_erase, @eq_comm _ heap.next a, hpa2, if_false]
      split_ifs <;> omega

/-- A completed call of `BParticles_modifier_cache_state` leaves a cache that owns its heap
blocks, next to the same other outstanding blocks. -/
theorem cache_state_owns {F : Type} (sizes : NameSizes) (bpmd bpmd2 : BParticlesModifierData F)
    (heap heap2 : Heap) (state : SimulationState F) (frame : F) (others : List Nat)
    (ho : cache_owns bpmd heap others)
    (h : BParticles_modifier_cache_state sizes bpmd heap state frame = some (bpmd2, heap2)) :
    cache_owns bpmd2 heap2 others := by
  obtain ⟨hv, ⟨hnd, hlt⟩, hperm⟩ := ho
  have hvalid2 := (cache_state_some sizes bpmd bpmd2 heap heap2 state frame hv h).1
  rw [cache_state_eq, ref_c_array_valid bpmd hv] at h
  cases hr : cache_types sizes state.particles.particle_containers.entries
      ⟨heap.next + 1, heap.next :: heap.live⟩ with
  | none => rw [hr] at h; cases h
  | some r =>
    rw [hr] at h
    simp only [Option.some_bind] at h
    obtain ⟨i1, i2, i3, i4, i5, i6⟩ := cache_types_some sizes _ _ r.1 r.2 hr
    simp only at i1 i2 i3
    have cL := fun a => List.perm_iff_count.mp hperm a
    have cB := fun a => List.perm_iff_count.mp i2 a
    have hT := List.nodup_iff_count_le_one.mp i4
    have hL := List.nodup_iff_count_le_one.mp hnd
    have hT2 : ∀ a, 0 < (r.2.flatMap BParticlesTypeCache.pointers).count a →
        heap.next + 1 ≤ a ∧ a < r.1.next := fun a ha => i3 a (List.count_pos_iff.mp ha)
    have hL2 : ∀ a, 0 < heap.live.count a → a < heap.next :=
      fun a ha => hlt a (List.count_pos_iff.mp ha)
    have hold : ∀ p, bpmd.cached_frames.map (fun a => a.1) = some p → p ∈ r.1.live := by
      intro p hp
      have h1 : p ∈ bpmd.pointers := by
        rw [pointers_eq, hp]
        simp
      have h2 : p ∈ heap.live := hperm.symm.subset (List.mem_append_left _ h1)
      exact i2.symm.subset (List.mem_append_right _ (List.mem_cons_of_mem _ h2))
    obtain ⟨h2, e1, e2, e3⟩ := realloc_count r.1 _ hold
    rw [e1] at h
    simp only [Option.some_bind, Option.some.injEq, Prod.mk.injEq] at h
    obtain ⟨rfl, rfl⟩ := h
    have hcount : ∀ a, h2.live.count a =
        (bpmd.frames.flatMap BParticlesFrameCache.pointers).count a +
        (r.2.flatMap BParticlesTypeCache.pointers).count a +
        (if a = heap.next then 1 else 0) + (if a = r.1.next then 1 else 0) +
        others.count a := by
      intro a
      have c1 := cL a
      have c2 := cB a
      have c3 := e3 a
      rw [pointers_eq, List.count_append, List.count_append] at c1
      rw [List.count_append, List.count_cons] at c2
      simp only [beq_iff_eq, @eq_comm _ heap.next a] at c2
      split_ifs at c2 c3 ⊢ <;> omega
    have hcount2 : ∀ a, h2.live.count a =
        ((bpmd.frames.flatMap BParticlesFrameCache.pointers ++ others).count a) +
        (r.2.flatMap BParticlesTypeCache.pointers).count a +
        (if a = heap.next then 1 else 0) + (if a = r.1.next then 1 else 0) := by
      intro a
      rw [hcount a, List.count_append]
      omega
    have hsub : ∀ a, (bpmd.frames.flatMap BParticlesFrameCache.pointers ++ others).count a
        ≤ heap.live.count a := by
      intro a
      have c1 := cL a
      rw [pointers_eq, List.count_append, List.count_append] at c1
      rw [List.count_append]
      omega
    refine ⟨hvalid2, ⟨?_, ?_⟩, ?_⟩
    · apply List.nodup_iff_count_le_one.mpr
      intro a
      rw [hcount2 a]
      have s1 := hsub a
      have s2 := hL a
      have s3 := hT a
      have s4 := hT2 a
      have s5 := hL2 a
      split_ifs <;> omega
    · intro q hq
      have hq2 : 0 < h2.live.count q := List.count_pos_iff.mpr hq
      rw [hcount2 q] at hq2
      have s1 := hsub q
      have s4 := hT2 q
      have s5 := hL2 q
      rw [e2]
      split_ifs at hq2 <;> omega
    · apply List.perm_iff_count.mpr
      intro a
      have hp2 : (BParticlesModifierData.pointers
          ({ cached_frames := some (r.1.next, bpmd.frames ++
              [⟨frame, state.particles.particle_containers.entries.length,
                some (heap.next, r.2)⟩])
             num_cached_frames := bpmd.num_cached_frames + 1 } : BParticlesModifierData F)) =
          (bpmd.frames.flatMap BParticlesFrameCache.pointers ++
            (r.2.flatMap BParticlesTypeCache.pointers ++ [heap.next])) ++ [r.1.next] := by
        simp [BParticlesModifierData.pointers, BParticlesFrameCache.pointers]
      rw [hcount a, hp2]
      simp only [List.count_append, List.count_cons, List.count_nil, beq_iff_eq,
        @eq_comm _ heap.next a, @eq_comm _ r.1.next a]
      split_ifs <;> omega

theorem ten_state_valid : ten_state.valid := by
  intro e he
  simp only [ten_state, List.mem_singleton] at he
  subst he
  refine ⟨⟨by decide, ?_⟩, rfl, rfl, rfl⟩
  intro b hb
  simp only [List.mem_cons, List.mem_singleton, List.not_mem_nil, or_false, or_self] at hb
  subst hb
  refine ⟨⟨by decide, rfl, ?_, ?_⟩, rfl, ?_⟩
  · intro i
    simp only [ten_block, List.getElem?_replicate]
    by_cases hi : i < 5 <;> simp [hi]
  · intro c hc
    simp only [ten_block, List.mem_cons, List.mem_singleton, List.not_mem_nil, or_false] at hc
    rcases hc with rfl | rfl | rfl <;> rfl
  · intro col hc v hv
    simp only [ten_block, List.mem_cons, List.mem_singleton, List.not_mem_nil, or_false] at hc
    rcases hc with rfl | rfl | rfl <;>
      · simp only [List.mem_replicate] at hv
        obtain ⟨-, rfl⟩ := hv
        rfl

theorem dust_state_valid : dust_state.valid := by
  intro e he
  simp only [dust_state, List.mem_singleton] at he
  subst he
  refine ⟨⟨by decide, ?_⟩, rfl, rfl, rfl⟩
  intro b hb
  simp only [dust_container, List.mem_cons, List.mem_singleton, List.not_mem_nil,
    or_false] at hb
  rcases hb with rfl | rfl
  · refine ⟨⟨by decide, rfl, ?_, ?_⟩, rfl, ?_⟩
    · intro i
      match i with
      | 0 => decide
      | 1 => decide
      | (n + 2) => simp [dust_block_0]
    · intro c hc
      simp only [dust_block_0, List.mem_cons, List.mem_singleton, List.not_mem_nil,
        or_false] at hc
      rcases hc with rfl | rfl | rfl <;> rfl
    · intro col hc v hv
      simp only [dust_block_0, List.mem_cons, List.mem_singleton, List.not_mem_nil,
        or_false] at hc
      rcases hc with rfl | rfl | rfl <;>
        · simp only [List.mem_cons, List.mem_singleton, List.not_mem_nil, or_false] at hv
          rcases hv with rfl | rfl <;> rfl
  · refine ⟨⟨by decide, rfl, ?_, ?_⟩, rfl, ?_⟩
    · intro i
      match i with
      | 0 => decide
      | 1 => decide
      | (n + 2) => simp [dust_block_1]
    · intro c hc
      simp only [dust_block_1, List.mem_cons, List.mem_singleton, List.not_mem_nil,
        or_false] at hc
      rcases hc with rfl | rfl | rfl <;> rfl
    · intro col hc v hv
      simp only [dust_block_1, List.mem_cons, List.mem_singleton, List.not_mem_nil,
        or_false] at hc
      rcases hc with rfl | rfl | rfl <;>
        · simp only [List.mem_cons, List.mem_singleton, List.not_mem_nil, or_false] at hv
          rcases hv with rfl | rfl <;> rfl



theorem frames_length_of_valid {F : Type} (bpmd : BParticlesModifierData F) (hv : bpmd.valid) :
    bpmd.frames.length = bpmd.num_cached_frames := by
  unfold BParticlesModifierData.valid at hv
  unfold BParticlesModifierData.frames
  cases ha : bpmd.cached_frames with
  | none => rw [ha] at hv; simp only at hv; simp [hv]
  | some a => rw [ha] at hv; exact hv.1

/-- C2: for every modifier cache holding `k` frame records (`k ≥ 0`, the null cache included)
and every simulation state, a call of `BParticles_modifier_cache_state` that completes leaves
a cache of exactly `k + 1` frame records in which the first `k` records are unchanged and in
the same order, and the last record carries the given frame number and exactly one per-type
record for each container of the registry, in registry order.  The call completes for every
state of well-formed containers with the attributes "Position", "Size" and "Color", when the
frame-record array of the cache is an outstanding heap block. -/
theorem cache_state_appends {F : Type} (sizes : NameSizes) (bpmd : BParticlesModifierData F)
    (heap : Heap) (state : SimulationState F) (frame : F) (k : Nat)
    (hv : bpmd.valid) (hk : bpmd.frames.length = k) :
    (state.valid → (∀ a, bpmd.cached_frames = some a → a.1 ∈ heap.live) →
      ∃ r, BParticles_modifier_cache_state sizes bpmd heap state frame = some r) ∧
    ∀ bpmd2 heap2,
      BParticles_modifier_cache_state sizes bpmd heap state frame = some (bpmd2, heap2) →
      bpmd2.valid ∧ bpmd2.num_cached_frames = k + 1 ∧ bpmd2.frames.length = k + 1 ∧
      bpmd2.frames.take k = bpmd.frames ∧
      ∃ p types,
        bpmd2.frames[k]? = some ⟨frame, state.particles.particle_containers.entries.length,
          some (p, types)⟩ ∧
        types.length = state.particles.particle_containers.entries.length ∧
        List.Forall₂ (is_type_record sizes) state.particles.particle_containers.entries
          types := by
  refine ⟨fun hs hp => cache_state_defined sizes bpmd heap state frame hs hv hp, ?_⟩
  intro bpmd2 heap2 hr
  obtain ⟨v2, n2, p, types, hf, hrec⟩ :=
    cache_state_some sizes bpmd bpmd2 heap heap2 state frame hv hr
  have hnum := frames_length_of_valid bpmd hv
  refine ⟨v2, by omega, ?_, ?_, p, types, ?_, hrec.length_eq.symm, hrec⟩
  · rw [hf, List.length_append, List.length_singleton, hk]
  · rw [hf, ← hk, List.take_left']
    rfl
  · rw [hf, ← hk, List.getElem?_append_right (le_refl _), Nat.sub_self]
    rfl

/-- C2 on the empty cache and the state with the single type "Dust": the call completes, and
leaves one frame record with one type record. -/
theorem cache_state_appends_witness :
    ((BParticlesModifierData.empty : BParticlesModifierData Int).valid ∧
      (BParticlesModifierData.empty : BParticlesModifierData Int).frames.length = 0) ∧
    ∃ bpmd2 heap2,
      BParticles_modifier_cache_state ⟨64, 64⟩ BParticlesModifierData.empty ⟨0, []⟩ dust_state 7
        = some (bpmd2, heap2) ∧
      bpmd2.valid ∧ bpmd2.num_cached_frames = 0 + 1 ∧ bpmd2.frames.length = 0 + 1 ∧
      bpmd2.frames.take 0 = (BParticlesModifierData.empty : BParticlesModifierData Int).frames ∧
      ∃ p types,
        bpmd2.frames[0]? = some ⟨7, dust_state.particles.particle_containers.entries.length,
          some (p, types)⟩ ∧
        types.length = dust_state.particles.particle_containers.entries.length ∧
        List.Forall₂ (is_type_record ⟨64, 64⟩)
          dust_state.particles.particle_containers.entries types := by
  have h := cache_state_appends ⟨64, 64⟩ (BParticlesModifierData.empty : BParticlesModifierData Int)
    ⟨0, []⟩ dust_state 7 0 rfl rfl
  obtain ⟨r, hr⟩ := h.1 dust_state_valid (fun a ha => by cases ha)
  exact ⟨⟨rfl, rfl⟩, r.1, r.2, hr, h.2 r.1 r.2 hr⟩

theorem strncpy_of_le (src : String) (n : Nat) (h : src.length ≤ n) : strncpy src n = src := by
  unfold strncpy
  rw [List.take_of_length_le h]

theorem flatten_attribute_types {F : Type} (c : AttributesBlockContainer F) (name : String)
    (type : CPPType) (flat : List (GenericValue F))
    (h : c.flatten_attribute name type = some flat) : ∀ v ∈ flat, v.type = type := by
  unfold AttributesBlockContainer.flatten_attribute at h
  cases h1 : c.schema.lookup name with
  | none => rw [h1] at h; cases h
  | some t =>
    rw [h1] at h
    simp only at h
    split_ifs at h with h2
    cases h3 : collect (c.active_blocks.map (fun b => b.attribute_span name)) with
    | none => rw [h3] at h; cases h
    | some spans =>
      rw [h3] at h
      simp only at h
      split_ifs at h with h4
      cases h
      intro v hv
      simp only [List.all_eq_true, decide_eq_true_eq] at h4
      exact h4 v hv

theorem floats_length {F : Type} (v : GenericValue F) :
    v.floats.length = v.type.floats_per_element := by
  cases v <;> rfl

theorem flatMap_floats_length {F : Type} (type : CPPType) :
    ∀ (flat : List (GenericValue F)), (∀ v ∈ flat, v.type = type) →
      (flat.flatMap GenericValue.floats).length = flat.length * type.floats_per_element
  | [], _ => by simp
  | v :: rest, h => by
    rw [List.flatMap_cons, List.length_append, floats_length,
      h v (List.mem_cons_self _ _),
      flatMap_floats_length type rest (fun w hw => h w (List.mem_cons_of_mem _ hw)),
      List.length_cons]
    ring

/-- The buffer filled by `flatten_attribute` holds the floats of the flattened attribute. -/
theorem flatten_attribute_into_some {F : Type} (c : AttributesBlockContainer F)
    (name : String) (type : CPPType) (size : Nat) (values : List F)
    (h : c.flatten_attribute_into name type size = some values) :
    ∃ flat, c.flatten_attribute name type = some flat ∧ flat.length = size ∧
      values = flat.flatMap GenericValue.floats ∧
      values.length = size * type.floats_per_element := by
  unfold AttributesBlockContainer.flatten_attribute_into at h
  cases h1 : c.flatten_attribute name type with
  | none => rw [h1] at h; cases h
  | some flat =>
    rw [h1] at h
    simp only at h
    split_ifs at h with h2
    cases h
    exact ⟨flat, rfl, h2, rfl, by
      rw [flatMap_floats_length type flat (flatten_attribute_types c name type flat h1), h2]⟩

/-- C3: for every container of the registry, the per-type record written by a call of
`BParticles_modifier_cache_state` that completes has `particle_amount` equal to the
container's `count_active()` and exactly 3 float attributes in the fixed order: index 0 is
"Position" with 3 floats per particle, index 1 is "Size" with 1 float per particle, index 2 is
"Color" with 4 floats per particle; each value buffer holds
`particle_amount * floats_per_particle` floats, which are the container's flattened attribute
of that name.  (The `name` arrays of the attribute entries are taken to have room for the 8
characters of "Position".)  The call completes for every state of well-formed containers with
the three attributes, when the frame-record array of the cache is an outstanding heap
block. -/
theorem cache_state_type_records {F : Type} (sizes : NameSizes)
    (bpmd : BParticlesModifierData F) (heap : Heap) (state : SimulationState F) (frame : F)
    (hv : bpmd.valid) (hname : 8 ≤ sizes.sizeof_attribute_name) :
    (state.valid → (∀ a, bpmd.cached_frames = some a → a.1 ∈ heap.live) →
      ∃ r, BParticles_modifier_cache_state sizes bpmd heap state frame = some r) ∧
    ∀ bpmd2 heap2,
      BParticles_modifier_cache_state sizes bpmd heap state frame = some (bpmd2, heap2) →
      ∃ p types,
        bpmd2.frames.getLast? = some ⟨frame,
          state.particles.particle_containers.entries.length, some (p, types)⟩ ∧
        List.Forall₂ (fun (kv : String × AttributesBlockContainer F) t =>
          t.particle_amount = kv.2.count_active ∧ t.num_attributes_float = 3 ∧
          ∃ pa a0 a1 a2, t.attributes_float = some (pa, [a0, a1, a2]) ∧
            (a0.name = "Position" ∧ a0.floats_per_particle = 3 ∧
              holds_flattened kv.2 "Position" .Float3 t.particle_amount a0) ∧
            (a1.name = "Size" ∧ a1.floats_per_particle = 1 ∧
              holds_flattened kv.2 "Size" .Float t.particle_amount a1) ∧
            (a2.name = "Color" ∧ a2.floats_per_particle = 4 ∧
              holds_flattened kv.2 "Color" .RgbaF t.particle_amount a2))
          state.particles.particle_containers.entries types := by
  refine ⟨fun hs hp => cache_state_defined sizes bpmd heap state frame hs hv hp, ?_⟩
  intro bpmd2 heap2 hr
  obtain ⟨-, -, p, types, hf, hrec⟩ :=
    cache_state_some sizes bpmd bpmd2 heap heap2 state frame hv hr
  refine ⟨p, types, by rw [hf]; simp, ?_⟩
  refine hrec.imp ?_
  intro kv t ht
  obtain ⟨-, h2, h3, pa, p0, p1, p2, vp, vs, vc, h4, h5, h6, h7⟩ := ht
  obtain ⟨fp, fp1, -, fp3, fp4⟩ := flatten_attribute_into_some _ _ _ _ _ h5
  obtain ⟨fs, fs1, -, fs3, fs4⟩ := flatten_attribute_into_some _ _ _ _ _ h6
  obtain ⟨fc, fc1, -, fc3, fc4⟩ := flatten_attribute_into_some _ _ _ _ _ h7
  refine ⟨h2, h3, pa, _, _, _, h4, ⟨?_, rfl, ?_⟩, ⟨?_, rfl, ?_⟩, ⟨?_, rfl, ?_⟩⟩
  · exact strncpy_of_le _ _ (by simpa using hname)
  · exact ⟨p0, vp, fp, rfl, by rw [h2]; exact fp4, fp1, fp3⟩
  · exact strncpy_of_le _ _ (le_trans (by decide) hname)
  · exact ⟨p1, vs, fs, rfl, by rw [h2]; exact fs4, fs1, fs3⟩
  · exact strncpy_of_le _ _ (le_trans (by decide) hname)
  · exact ⟨p2, vc, fc, rfl, by rw [h2]; exact fc4, fc1, fc3⟩

/-- C3 on the empty cache and the state with the single type "Dust". -/
theorem cache_state_type_records_witness :
    ((BParticlesModifierData.empty : BParticlesModifierData Int).valid ∧
      8 ≤ (⟨64, 64⟩ : NameSizes).sizeof_attribute_name) ∧
    ∃ bpmd2 heap2,
      BParticles_modifier_cache_state ⟨64, 64⟩ BParticlesModifierData.empty ⟨0, []⟩ dust_state 7
        = some (bpmd2, heap2) ∧
      ∃ p types,
        bpmd2.frames.getLast? = some ⟨7,
          dust_state.particles.particle_containers.entries.length, some (p, types)⟩ ∧
        List.Forall₂ (fun (kv : String × AttributesBlockContainer Int) t =>
          t.particle_amount = kv.2.count_active ∧ t.num_attributes_float = 3 ∧
          ∃ pa a0 a1 a2, t.attributes_float = some (pa, [a0, a1, a2]) ∧
            (a0.name = "Position" ∧ a0.floats_per_particle = 3 ∧
              holds_flattened kv.2 "Position" .Float3 t.particle_amount a0) ∧
            (a1.name = "Size" ∧ a1.floats_per_particle = 1 ∧
              holds_flattened kv.2 "Size" .Float t.particle_amount a1) ∧
            (a2.name = "Color" ∧ a2.floats_per_particle = 4 ∧
              holds_flattened kv.2 "Color" .RgbaF t.particle_amount a2))
          dust_state.particles.particle_containers.entries types := by
  have h := cache_state_type_records ⟨64, 64⟩
    (BParticlesModifierData.empty : BParticlesModifierData Int) ⟨0, []⟩ dust_state 7 rfl
    (by decide)
  obtain ⟨r, hr⟩ := h.1 dust_state_valid (fun a ha => by cases ha)
  exact ⟨⟨rfl, by decide⟩, r.1, r.2, hr, h.2 r.1 r.2 hr⟩

theorem cache_states_owns {F : Type} (sizes : NameSizes) (others : List Nat) :
    ∀ (calls : List (SimulationState F × F)) (bpmd bpmd2 : BParticlesModifierData F)
      (heap heap2 : Heap), cache_owns bpmd heap others →
      cache_states sizes bpmd heap calls = some (bpmd2, heap2) → cache_owns bpmd2 heap2 others
  | [], bpmd, bpmd2, heap, heap2, ho, h => by
    simp only [cache_states, List.foldlM_nil, Option.pure_def, Option.some.injEq,
      Prod.mk.injEq] at h
    obtain ⟨rfl, rfl⟩ := h
    exact ho
  | call :: rest, bpmd, bpmd2, heap, heap2, ho, h => by
    simp only [cache_states, List.foldlM_cons, Option.bind_eq_bind] at h
    cases h1 : BParticles_modifier_cache_state sizes bpmd heap call.1 call.2 with
    | none => rw [h1] at h; cases h
    | some r =>
      rw [h1, Option.some_bind] at h
      exact cache_states_owns sizes others rest r.1 bpmd2 r.2 heap2
        (cache_state_owns sizes bpmd r.1 heap r.2 call.1 call.2 others ho h1) h

theorem cache_states_defined {F : Type} (sizes : NameSizes) (others : List Nat) :
    ∀ (calls : List (SimulationState F × F)) (bpmd : BParticlesModifierData F) (heap : Heap),
      cache_owns bpmd heap others → (∀ call ∈ calls, call.1.valid) →
      ∃ r, cache_states sizes bpmd heap calls = some r
  | [], bpmd, heap, _, _ => ⟨_, rfl⟩
  | call :: rest, bpmd, heap, ho, hs => by
    have hp : ∀ a, bpmd.cached_frames = some a → a.1 ∈ heap.live := by
      intro a ha
      apply ho.2.2.symm.subset
      apply List.mem_append_left
      rw [pointers_eq, ha]
      simp
    obtain ⟨r, hr⟩ := cache_state_defined sizes bpmd heap call.1 call.2
      (hs call (List.mem_cons_self _ _)) ho.1 hp
    obtain ⟨r2, hr2⟩ := cache_states_defined sizes others rest r.1 r.2
      (cache_state_owns sizes bpmd r.1 heap r.2 call.1 call.2 others ho hr)
      (fun c hc => hs c (List.mem_cons_of_mem _ hc))
    refine ⟨r2, ?_⟩
    simp only [cache_states, List.foldlM_cons, Option.bind_eq_bind, hr, Option.some_bind]
    exact hr2

theorem empty_owns {F : Type} (heap : Heap) (h : heap.valid) :
    cache_owns (BParticlesModifierData.empty : BParticlesModifierData F) heap heap.live :=
  ⟨rfl, h, List.Perm.refl _⟩

/-- C4: for every cache built by any sequence of `BParticles_modifier_cache_state` calls,
starting from the empty cache, `BParticles_modifier_free_cache` releases every heap block
those calls left allocated (the blocks the cache points to: each attribute value buffer, each
`attributes_float` array, each `particle_types` array and the frame-record array), each
exactly once: the release is the release of the blocks of `bpmd.pointers`, which are pairwise
distinct, it never releases a block that is not outstanding, and afterwards the outstanding
blocks are those of before the calls, so no cache allocation is outstanding. -/
theorem free_cache_releases_all {F : Type} (sizes : NameSizes) (heap0 heap1 : Heap)
    (calls : List (SimulationState F × F)) (bpmd : BParticlesModifierData F)
    (h0 : heap0.valid)
    (hb : cache_states sizes BParticlesModifierData.empty heap0 calls = some (bpmd, heap1)) :
    heap1.live.Perm (bpmd.pointers ++ heap0.live) ∧ bpmd.pointers.Nodup ∧
    ∃ heap2, BParticles_modifier_free_cache bpmd heap1 = some (BParticlesModifierData.empty, heap2)
      ∧ heap1.free_all bpmd.pointers = some heap2 ∧ heap2.live.Perm heap0.live := by
  have ho := cache_states_owns sizes heap0.live calls _ bpmd heap0 heap1 (empty_owns heap0 h0) hb
  obtain ⟨heap2, e1, -, e3⟩ := free_cache_owned bpmd heap1 heap0.live ho
  have hnd : (bpmd.pointers ++ heap0.live).Nodup := ho.2.2.nodup_iff.mp ho.2.1.1
  refine ⟨ho.2.2, (List.nodup_append.mp hnd).1, heap2, e1, ?_, e3⟩
  rw [free_cache_eq bpmd heap1 ho.1] at e1
  cases hfa : heap1.free_all bpmd.pointers with
  | none => rw [hfa] at e1; cases e1
  | some h3 =>
    rw [hfa] at e1
    simp only [Option.some_bind, Option.some.injEq, Prod.mk.injEq, true_and] at e1
    rw [e1]

/-- C4 on frame 0 then frame 1 of the state with the single type "Dust" of 10 active
particles, from an empty heap: no block is outstanding after the release. -/
theorem free_cache_releases_all_witness :
    ∃ bpmd heap1,
      cache_states ⟨64, 64⟩ (BParticlesModifierData.empty : BParticlesModifierData Int) ⟨0, []⟩
        [(ten_state, 0), (ten_state, 1)] = some (bpmd, heap1) ∧
      heap1.live.Perm (bpmd.pointers ++ []) ∧ bpmd.pointers.Nodup ∧
      ∃ heap2, BParticles_modifier_free_cache bpmd heap1 =
          some (BParticlesModifierData.empty, heap2)
        ∧ heap1.free_all bpmd.pointers = some heap2 ∧ heap2.live.Perm [] := by
  obtain ⟨r, hr⟩ := cache_states_defined ⟨64, 64⟩ [] [(ten_state, (0 : Int)), (ten_state, 1)]
    BParticlesModifierData.empty ⟨0, []⟩ (empty_owns ⟨0, []⟩ ⟨List.nodup_nil, by simp⟩)
    (by
      intro call hc
      simp only [List.mem_cons, List.mem_singleton, List.not_mem_nil, or_false] at hc
      rcases hc with rfl | rfl <;> exact ten_state_valid)
  exact ⟨r.1, r.2, hr,
    free_cache_releases_all ⟨64, 64⟩ ⟨0, []⟩ r.2 [(ten_state, 0), (ten_state, 1)] r.1
      ⟨List.nodup_nil, by simp⟩ hr⟩

/-- C5: for every modifier cache (one that owns its heap blocks), after
`BParticles_modifier_free_cache` the cache is fully empty: `cached_frames` is null and
`num_cached_frames` is 0, and every heap block of the cache is released: none of them is
outstanding any more, and the outstanding blocks are exactly those that did not belong to the
cache, so no partially freed state is left.  Calling `BParticles_modifier_free_cache` on an
empty cache changes nothing, neither the cache nor the heap, so applying it twice is applying
it once. -/
theorem free_cache_idempotent {F : Type} (bpmd : BParticlesModifierData F) (heap : Heap)
    (others : List Nat) (ho : cache_owns bpmd heap others) :
    (∃ heap2, BParticles_modifier_free_cache bpmd heap = some (⟨none, 0⟩, heap2) ∧
      heap2.live.Perm others ∧ (∀ p ∈ bpmd.pointers, p ∉ heap2.live) ∧
      heap2.live.length + bpmd.pointers.length = heap.live.length) ∧
    (∀ h : Heap, BParticles_modifier_free_cache (⟨none, 0⟩ : BParticlesModifierData F) h =
      some (⟨none, 0⟩, h)) ∧
    (BParticles_modifier_free_cache bpmd heap).bind
        (fun r => BParticles_modifier_free_cache r.1 r.2) =
      BParticles_modifier_free_cache bpmd heap := by
  obtain ⟨heap2, e1, -, e2⟩ := free_cache_owned bpmd heap others ho
  refine ⟨⟨heap2, e1, e2, ?_, ?_⟩, fun h => rfl, ?_⟩
  · intro p hp hlive
    have hnodup : (bpmd.pointers ++ others).Nodup := ho.2.2.nodup_iff.mp ho.2.1.1
    have hcount := List.nodup_iff_count_le_one.mp hnodup p
    rw [List.count_append] at hcount
    have h1 : 0 < List.count p bpmd.pointers := List.count_pos_iff.mpr hp
    have h2 : 0 < List.count p others := List.count_pos_iff.mpr (e2.subset hlive)
    omega
  · rw [e2.length_eq, ho.2.2.length_eq, List.length_append]
    omega
  · rw [e1]
    rfl

/-- C5 on the cache holding one frame of the state with the single type "Dust". -/
theorem free_cache_idempotent_witness :
    ∃ bpmd heap,
      cache_states ⟨64, 64⟩ (BParticlesModifierData.empty : BParticlesModifierData Int) ⟨0, []⟩
        [(dust_state, 0)] = some (bpmd, heap) ∧ cache_owns bpmd heap [] ∧
      (∃ heap2, BParticles_modifier_free_cache bpmd heap = some (⟨none, 0⟩, heap2) ∧
        heap2.live.Perm [] ∧ (∀ p ∈ bpmd.pointers, p ∉ heap2.live) ∧
        heap2.live.length + bpmd.pointers.length = heap.live.length) ∧
      (∀ h : Heap, BParticles_modifier_free_cache (⟨none, 0⟩ : BParticlesModifierData Int) h =
        some (⟨none, 0⟩, h)) ∧
      (BParticles_modifier_free_cache bpmd heap).bind
          (fun r => BParticles_modifier_free_cache r.1 r.2) =
        BParticles_modifier_free_cache bpmd heap := by
  have h0 : cache_owns (BParticlesModifierData.empty : BParticlesModifierData Int) ⟨0, []⟩ [] :=
    empty_owns ⟨0, []⟩ ⟨List.nodup_nil, by simp⟩
  obtain ⟨r, hr⟩ := cache_states_defined ⟨64, 64⟩ [] [(dust_state, (0 : Int))]
    BParticlesModifierData.empty ⟨0, []⟩ h0
    (by
      intro call hc
      simp only [List.mem_singleton] at hc
      subst hc
      exact dust_state_valid)
  have ho := cache_states_owns ⟨64, 64⟩ [] [(dust_state, (0 : Int))] _ r.1 _ r.2 h0 hr
  exact ⟨r.1, r.2, hr, ho, free_cache_idempotent r.1 r.2 [] ho⟩

/-! ## Point meshes -/

theorem distribute_points_eq {F : Type} [CFloat F] (points : List (float3 F))
    (hn : points.length < INT_SIZE) :
    distribute_points points =
      some { (BKE_mesh_new_nomain points.length 0 0 0 0 : Mesh F) with
        mvert := points.map (fun p => ⟨p, 0, 0, 32767⟩) } := by
  unfold distribute_points
  rw [int_count_eq _ hn]
  simp only [BKE_mesh_new_nomain, Option.bind_eq_bind, Option.pure_def, Option.some_bind]
  rw [for_uint_congr points.length _ (fun acc t => modifyAt acc (0 + t) (fun v =>
    { v with co := (points[t]?).getD v.co, no2 := 32767 })) _ (by
      intro acc i hi
      simp only [List.getElem?_eq_getElem hi, Nat.zero_add, Option.bind_eq_bind,
        Option.some_bind, Option.getD_some, modifyAt_modifyAt])]
  rw [for_uint_modifyAt, if_pos (Or.inr (by simp))]
  simp only [Option.some_bind, Option.some.injEq]
  congr 1
  apply List.ext_getElem?
  intro k
  rw [getElem?_write_block, List.getElem?_replicate, List.getElem?_map]
  by_cases hk : k < points.length
  · simp [hk, List.getElem?_eq_getElem hk]
  · simp [hk, List.getElem?_eq_none (Nat.le_of_not_lt hk)]

theorem extend_all_eq {α β : Type} (flatten : β → Option (List α)) :
    ∀ (containers : List β) (acc : List α),
      containers.foldlM (fun acc container =>
        (flatten container).bind (fun values => some (acc ++ values))) acc =
      (collect (containers.map flatten)).map (fun lists => acc ++ lists.flatten)
  | [], acc => by simp [collect]
  | c :: rest, acc => by
    rw [List.foldlM_cons, List.map_cons]
    cases h : flatten c with
    | none => simp [collect]
    | some values =>
      simp only [Option.bind_eq_bind, Option.some_bind, collect]
      rw [extend_all_eq flatten rest (acc ++ values)]
      cases collect (rest.map flatten) with
      | none => rfl
      | some lists => simp

theorem collect_forall₂ {α β : Type} (f : β → Option α) :
    ∀ (l : List β), (∀ x ∈ l, ∃ y, f x = some y) →
      ∃ ys, collect (l.map f) = some ys ∧ List.Forall₂ (fun x y => f x = some y) l ys
  | [], _ => ⟨[], rfl, List.Forall₂.nil⟩
  | a :: rest, h => by
    obtain ⟨y, hy⟩ := h a (List.mem_cons_self _ _)
    obtain ⟨ys, h1, h2⟩ := collect_forall₂ f rest (fun x hx => h x (List.mem_cons_of_mem _ hx))
    exact ⟨y :: ys, by simp [collect, hy, h1], List.Forall₂.cons hy h2⟩

/-- From `2^31` points on the vertex count arrives at `BKE_mesh_new_nomain` as a negative
`int`: no mesh is built. -/
theorem distribute_points_none {F : Type} [CFloat F] (points : List (float3 F))
    (hn : INT_SIZE ≤ points.length) : distribute_points points = none := by
  unfold distribute_points int_count
  rw [if_neg (by omega)]
  rfl

/-- The positions that `BParticles_modifier_point_mesh_from_state` collects: the flattened
positions of the containers in registry iteration order, as many as there are active
particles. -/
theorem point_mesh_positions {F : Type} [CFloat F] (state : SimulationState F)
    (hpos : ∀ c ∈ state.particles.particle_containers.foreach_value,
      ∃ ps, c.flatten_attribute_float3 "Position" = some ps ∧ ps.length = c.count_active) :
    ∃ positions,
      List.Forall₂ (fun (c : AttributesBlockContainer F) ps =>
          c.flatten_attribute_float3 "Position" = some ps)
        state.particles.particle_containers.foreach_value positions ∧
      positions.flatten.length = (state.particles.particle_containers.foreach_value.map
        (fun c => c.count_active)).sum ∧
      BParticles_modifier_point_mesh_from_state state = distribute_points positions.flatten := by
  obtain ⟨lists, h1, h2⟩ := collect_forall₂
    (fun c : AttributesBlockContainer F => c.flatten_attribute_float3 "Position")
    state.particles.particle_containers.foreach_value (fun c hc => by
      obtain ⟨ps, hps, -⟩ := hpos c hc
      exact ⟨ps, hps⟩)
  have hlen : lists.flatten.length = (state.particles.particle_containers.foreach_value.map
      (fun c => c.count_active)).sum := by
    rw [List.length_flatten]
    congr 1
    have hgen : ∀ (cs : List (AttributesBlockContainer F)) (ls : List (List (float3 F))),
        List.Forall₂ (fun (c : AttributesBlockContainer F) ps =>
          c.flatten_attribute_float3 "Position" = some ps) cs ls →
        (∀ c ∈ cs, ∃ ps, c.flatten_attribute_float3 "Position" = some ps ∧
          ps.length = c.count_active) →
        ls.map List.length = cs.map (fun c => c.count_active) := by
      intro cs ls hf
      induction hf with
      | nil => intro _; rfl
      | cons hab _ ih =>
        intro hall
        obtain ⟨ps, e1, e2⟩ := hall _ (List.mem_cons_self _ _)
        rw [hab] at e1
        cases e1
        rw [List.map_cons, List.map_cons, e2, ih (fun c hc => hall c (List.mem_cons_of_mem _ hc))]
    exact hgen _ _ h2 hpos
  refine ⟨lists, h2, hlen, ?_⟩
  unfold BParticles_modifier_point_mesh_from_state extend_all
  simp only [Option.bind_eq_bind, Option.pure_def]
  rw [extend_all_eq, h1]
  simp only [Option.map_some', List.nil_append, Option.bind_eq_bind, Option.some_bind]

/-- C8, as amended: for every simulation state in which
`flatten_attribute<float3>("Position")` of each container has length `count_active()` and the
sum of `count_active()` over all containers of the registry is below `2^31`, the mesh returned
by `BParticles_modifier_point_mesh_from_state` has as many vertices as that sum and no edges,
loops or polygons; its vertices are, in order, the elements of the concatenation of the
containers' flattened positions in registry iteration order, each with the normal's z
component set to 32767. -/
theorem point_mesh_vertices {F : Type} [CFloat F] (state : SimulationState F)
    (hpos : ∀ c ∈ state.particles.particle_containers.foreach_value,
      ∃ ps, c.flatten_attribute_float3 "Position" = some ps ∧ ps.length = c.count_active)
    (hsum : (state.particles.particle_containers.foreach_value.map
      (fun c => c.count_active)).sum < INT_SIZE) :
    ∃ mesh positions,
      BParticles_modifier_point_mesh_from_state state = some mesh ∧
      List.Forall₂ (fun (c : AttributesBlockContainer F) ps =>
          c.flatten_attribute_float3 "Position" = some ps)
        state.particles.particle_containers.foreach_value positions ∧
      mesh.totvert = (state.particles.particle_containers.foreach_value.map
        (fun c => c.count_active)).sum ∧
      mesh.mvert.length = mesh.totvert ∧
      (mesh.totedge = 0 ∧ mesh.medge = []) ∧ (mesh.totloop = 0 ∧ mesh.mloop = []) ∧
      (mesh.totpoly = 0 ∧ mesh.mpoly = []) ∧
      (∀ i : Nat, mesh.mvert[i]? = (positions.flatten[i]?).map (fun p => (⟨p, 0, 0, 32767⟩ : MVert F))) := by
  obtain ⟨lists, h2, hlen, heq⟩ := point_mesh_positions state hpos
  refine ⟨{ (BKE_mesh_new_nomain lists.flatten.length 0 0 0 0 : Mesh F) with
      mvert := lists.flatten.map (fun p => ⟨p, 0, 0, 32767⟩) }, lists, ?_, h2, ?_, ?_,
    ⟨rfl, rfl⟩, ⟨rfl, rfl⟩, ⟨rfl, rfl⟩, ?_⟩
  · rw [heq]
    exact distribute_points_eq lists.flatten (by rw [hlen]; exact hsum)
  · simp only [BKE_mesh_new_nomain]
    exact hlen
  · simp only [BKE_mesh_new_nomain, List.length_map]
  · intro i
    simp only [List.getElem?_map]

/-- The typed flattening of "Position" is defined on a well-formed container that has the
attribute, and has one element per active particle. -/
theorem flatten_attribute_float3_valid {F : Type} (c : AttributesBlockContainer F)
    (name : String) (hc : c.valid) (ha : c.has_attribute name .Float3) :
    ∃ ps, c.flatten_attribute_float3 name = some ps ∧ ps.length = c.count_active := by
  obtain ⟨h1, h2, h3⟩ := flatten_attribute_valid c name .Float3 hc ha
  obtain ⟨ps, e1, e2⟩ := collect_forall₂ GenericValue.as_float3 (c.live_values name) (by
    intro v hv
    have := h3 v hv
    cases v with
    | ofFloat3 p => exact ⟨p, rfl⟩
    | ofFloat x => cases this
    | ofRgbaF x => cases this)
  refine ⟨ps, ?_, ?_⟩
  · simp [AttributesBlockContainer.flatten_attribute_float3, h1, e1]
  · rw [← e2.length_eq, h2]

/-- C8, as amended, on the state with the single type "Dust" of three particles. -/
theorem point_mesh_vertices_witness :
    ((∀ c ∈ dust_state.particles.particle_containers.foreach_value,
      ∃ ps, c.flatten_attribute_float3 "Position" = some ps ∧ ps.length = c.count_active) ∧
      (dust_state.particles.particle_containers.foreach_value.map
        (fun c => c.count_active)).sum < INT_SIZE) ∧
    ∃ mesh positions,
      BParticles_modifier_point_mesh_from_state dust_state = some mesh ∧
      List.Forall₂ (fun (c : AttributesBlockContainer Int) ps =>
          c.flatten_attribute_float3 "Position" = some ps)
        dust_state.particles.particle_containers.foreach_value positions ∧
      mesh.totvert = (dust_state.particles.particle_containers.foreach_value.map
        (fun c => c.count_active)).sum ∧
      mesh.mvert.length = mesh.totvert ∧
      (mesh.totedge = 0 ∧ mesh.medge = []) ∧ (mesh.totloop = 0 ∧ mesh.mloop = []) ∧
      (mesh.totpoly = 0 ∧ mesh.mpoly = []) ∧
      (∀ i : Nat, mesh.mvert[i]? =
        (positions.flatten[i]?).map (fun p => (⟨p, 0, 0, 32767⟩ : MVert Int))) := by
  have h : ∀ c ∈ dust_state.particles.particle_containers.foreach_value,
      ∃ ps, c.flatten_attribute_float3 "Position" = some ps ∧ ps.length = c.count_active := by
    intro c hc
    simp only [StringMap.foreach_value, List.mem_map] at hc
    obtain ⟨e, he, rfl⟩ := hc
    obtain ⟨hv, hp, -, -⟩ := dust_state_valid e he
    exact flatten_attribute_float3_valid e.2 "Position" hv hp
  exact ⟨⟨h, by decide⟩, point_mesh_vertices dust_state h (by decide)⟩

theorem crowd_container_valid (n : Nat) : (crowd_container n).valid := by
  refine ⟨by simp [crowd_container], ?_⟩
  intro b hb
  cases List.mem_singleton.mp hb
  refine ⟨⟨le_refl _, List.length_replicate _ _, ?_, ?_⟩, rfl, ?_⟩
  · intro i
    show (List.replicate n true)[i]? = some true ↔ i < n
    rw [List.getElem?_replicate]
    by_cases hi : i < n
    · simp [hi]
    · simp [hi]
  · intro c hc
    cases List.mem_singleton.mp hc
    exact List.length_replicate _ _
  · intro col hcol v hv
    cases List.mem_singleton.mp hcol
    cases List.eq_of_mem_replicate hv
    rfl

theorem crowd_state_count (n : Nat) :
    ((crowd_state n).particles.particle_containers.foreach_value.map
      (fun c => c.count_active)).sum = n := by
  simp [crowd_state, StringMap.foreach_value, crowd_container,
    AttributesBlockContainer.count_active, crowd_block]

/-- The claim C8 fails from `2^31` particles on: in the state with the single type "Crowd" of
`2^31` active particles the flattened positions have length `count_active()`, and no mesh is
built, because the vertex count arrives at `BKE_mesh_new_nomain` as a negative `int`. -/
theorem point_mesh_vertices_counterexample :
    (∀ c ∈ (crowd_state (2 ^ 31)).particles.particle_containers.foreach_value,
      ∃ ps, c.flatten_attribute_float3 "Position" = some ps ∧ ps.length = c.count_active) ∧
    ((crowd_state (2 ^ 31)).particles.particle_containers.foreach_value.map
      (fun c => c.count_active)).sum = 2 ^ 31 ∧
    ¬ ∃ mesh, BParticles_modifier_point_mesh_from_state (crowd_state (2 ^ 31)) = some mesh ∧
      mesh.totvert = ((crowd_state (2 ^ 31)).particles.particle_containers.foreach_value.map
        (fun c => c.count_active)).sum := by
  have h : ∀ c ∈ (crowd_state (2 ^ 31)).particles.particle_containers.foreach_value,
      ∃ ps, c.flatten_attribute_float3 "Position" = some ps ∧ ps.length = c.count_active := by
    intro c hc
    simp only [StringMap.foreach_value, List.mem_map] at hc
    obtain ⟨e, he, rfl⟩ := hc
    cases List.mem_singleton.mp he
    exact flatten_attribute_float3_valid (crowd_container (2 ^ 31)) "Position"
      (crowd_container_valid (2 ^ 31)) rfl
  have hsum : ((crowd_state (2 ^ 31)).particles.particle_containers.foreach_value.map
      (fun c => c.count_active)).sum = 2 ^ 31 := crowd_state_count (2 ^ 31)
  refine ⟨h, hsum, ?_⟩
  rintro ⟨mesh, hm, -⟩
  obtain ⟨positions, -, hlen, heq⟩ := point_mesh_positions (crowd_state (2 ^ 31)) h
  rw [heq, distribute_points_none positions.flatten (by
    rw [hlen, hsum]; norm_num [INT_SIZE])] at hm
  cases hm

/-! ## Attribute blocks -/

theorem new_block_valid {V : Type} (capacity : Nat) (defaults : List (String × V)) :
    (AttributesBlock.new capacity defaults).valid := by
  refine ⟨Nat.zero_le _, by simp [AttributesBlock.new], ?_, ?_⟩
  · intro i
    simp only [AttributesBlock.new, List.getElem?_replicate]
    by_cases hi : i < capacity <;> simp [hi]
  · intro c hc
    simp only [AttributesBlock.new, List.mem_map] at hc
    obtain ⟨d, -, rfl⟩ := hc
    simp [AttributesBlock.new]

/-- An allocation in a well-formed block takes the slot `active_count` and leaves a well-formed
block with one more live slot. -/
theorem try_allocate_slot_valid {V : Type} (b b2 : AttributesBlock V) (slot : Nat)
    (hb : b.valid) (h : b.try_allocate_slot = some (slot, b2)) :
    b2.valid ∧ b2.capacity = b.capacity ∧ b2.active_count = b.active_count + 1 ∧
      slot = b.active_count := by
  unfold AttributesBlock.try_allocate_slot at h
  split_ifs at h with hlt
  simp only [Option.some.injEq, Prod.mk.injEq] at h
  obtain ⟨rfl, rfl⟩ := h
  obtain ⟨h1, h2, h3, h4⟩ := hb
  refine ⟨⟨hlt, by simpa using h2, ?_, h4⟩, rfl, rfl, rfl⟩
  intro i
  simp only [List.getElem?_set]
  by_cases hi : b.active_count = i
  · subst hi
    simp [h2, hlt]
  · rw [if_neg hi, h3 i]
    omega

/-- A free in a well-formed block leaves a well-formed block with one live slot less. -/
theorem deallocate_slot_valid {V : Type} (b b2 : AttributesBlock V) (index : Nat)
    (hb : b.valid) (h : b.deallocate_slot index = some b2) :
    b2.valid ∧ b2.capacity = b.capacity ∧ b2.active_count + 1 = b.active_count ∧
      index < b.active_count := by
  unfold AttributesBlock.deallocate_slot at h
  obtain ⟨h1, h2, h3, h4⟩ := hb
  dsimp only at h
  split_ifs at h with hu hlast
  · have hidx : index < b.active_count := (h3 index).mp hu
    simp only [Option.some.injEq] at h
    subst h
    refine ⟨⟨by simp only; omega, by simpa using h2, ?_, h4⟩, rfl, by simp only; omega, hidx⟩
    intro i
    simp only [List.getElem?_set]
    by_cases hi : index = i
    · subst hi
      have : index < b.used.length := by omega
      simp [this]
      omega
    · rw [if_neg hi, h3 i]
      omega
  · have hidx : index < b.active_count := (h3 index).mp hu
    simp only [Option.some.injEq] at h
    subst h
    refine ⟨⟨by simp only; omega, by simpa using h2, ?_, ?_⟩, rfl, by simp only; omega, hidx⟩
    · intro i
      simp only [List.getElem?_set, List.length_set]
      by_cases hi : b.active_count - 1 = i
      · subst hi
        have : b.active_count - 1 < b.used.length := by omega
        simp [this]
      · rw [if_neg hi]
        by_cases hi2 : index = i
        · subst hi2
          have : index < b.used.length := by omega
          simp [this]
          omega
        · rw [if_neg hi2, if_neg hi2, h3 i]
          omega
    · intro c hc
      simp only [List.mem_map] at hc
      obtain ⟨c0, hc0, rfl⟩ := hc
      simp only
      cases c0.2[b.active_count - 1]? with
      | none => exact h4 c0 hc0
      | some v => simpa using h4 c0 hc0

theorem block_run_step_valid {V : Type} (r : BlockRun V) (op : BlockOp) (start : Nat)
    (hv : r.block.valid) (hc : r.block.active_count + r.frees = start + r.allocations) :
    (r.step op).block.valid ∧ (r.step op).block.capacity = r.block.capacity ∧
      (r.step op).block.active_count + (r.step op).frees = start + (r.step op).allocations := by
  cases op with
  | allocate =>
    simp only [BlockRun.step]
    cases h : r.block.try_allocate_slot with
    | none => exact ⟨hv, rfl, hc⟩
    | some res =>
      obtain ⟨e1, e2, e3, -⟩ := try_allocate_slot_valid r.block res.2 res.1 hv h
      refine ⟨e1, e2, ?_⟩
      simp only
      omega
  | free index =>
    simp only [BlockRun.step]
    cases h : r.block.deallocate_slot index with
    | none => exact ⟨hv, rfl, hc⟩
    | some b2 =>
      obtain ⟨e1, e2, e3, -⟩ := deallocate_slot_valid r.block b2 index hv h
      refine ⟨e1, e2, ?_⟩
      simp only
      omega

theorem block_run_valid {V : Type} (ops : List BlockOp) :
    ∀ (r : BlockRun V) (start : Nat), r.block.valid →
      r.block.active_count + r.frees = start + r.allocations →
      (ops.foldl BlockRun.step r).block.valid ∧
        (ops.foldl BlockRun.step r).block.capacity = r.block.capacity ∧
        (ops.foldl BlockRun.step r).block.active_count + (ops.foldl BlockRun.step r).frees =
          start + (ops.foldl BlockRun.step r).allocations := by
  induction ops with
  | nil => intro r start hv hc; exact ⟨hv, rfl, hc⟩
  | cons op rest ih =>
    intro r start hv hc
    obtain ⟨e1, e2, e3⟩ := block_run_step_valid r op start hv hc
    obtain ⟨f1, f2, f3⟩ := ih (r.step op) start e1 e3
    exact ⟨f1, f2.trans e2, f3⟩

/-- C9: for all sequences of allocate/free operations on an attribute block (a new block of
any capacity), `active_count()` after the sequence equals the number of allocations minus the
number of frees, stays within `0 ≤ active_count ≤ capacity`, and the slots in use are exactly
the slots `[0, active_count)`: no hole is left by a free, under the swap-remove compaction. -/
theorem block_active_count {V : Type} (capacity : Nat) (defaults : List (String × V))
    (ops : List BlockOp) :
    ((AttributesBlock.new capacity defaults).run ops).frees ≤
      ((AttributesBlock.new capacity defaults).run ops).allocations ∧
    ((AttributesBlock.new capacity defaults).run ops).block.active_count =
      ((AttributesBlock.new capacity defaults).run ops).allocations -
        ((AttributesBlock.new capacity defaults).run ops).frees ∧
    ((AttributesBlock.new capacity defaults).run ops).block.capacity = capacity ∧
    ((AttributesBlock.new capacity defaults).run ops).block.active_count ≤ capacity ∧
    (∀ i : Nat, ((AttributesBlock.new capacity defaults).run ops).block.used[i]? = some true ↔
      i < ((AttributesBlock.new capacity defaults).run ops).block.active_count) := by
  obtain ⟨⟨h1, h2, h3, h4⟩, hc, hn⟩ := block_run_valid ops
    (⟨AttributesBlock.new capacity defaults, 0, 0⟩ : BlockRun V) 0
    (new_block_valid capacity defaults) rfl
  have h5 := h1
  rw [hc] at h5
  unfold AttributesBlock.run
  exact ⟨by omega, by omega, hc, h5, h3⟩


/-! ## Flatten and unflatten -/

theorem lookup_of_mem_nodup {V : Type} (key : String) (v : V) :
    ∀ (entries : List (String × V)), (entries.map (fun e => e.1)).Nodup →
      (key, v) ∈ entries → entries.lookup key = some v
  | [], _, h => by cases h
  | (k, w) :: rest, hnd, h => by
    simp only [List.map_cons, List.nodup_cons] at hnd
    rcases List.mem_cons.mp h with h | h
    · cases h
      simp [List.lookup]
    · have hne : key ≠ k := by
        intro e
        exact hnd.1 (List.mem_map.mpr ⟨(key, v), h, e⟩)
      have hbeq : (key == k) = false := by simpa using hne
      simp only [List.lookup, hbeq]
      exact lookup_of_mem_nodup key v rest hnd.2 h

theorem block_has_column_of_valid {F : Type} (c : AttributesBlockContainer F) (name : String)
    (type : CPPType) (hc : c.valid) (ha : c.has_attribute name type) :
    ∀ b ∈ c.blocks, block_has_column name b := by
  intro b hb
  obtain ⟨hv, hcols, -⟩ := hc.2 b hb
  obtain ⟨column, h1, h2, -, -⟩ := attribute_span_valid b name hv
    (by rw [hcols]; exact mem_keys_of_lookup name type c.schema ha)
  exact ⟨by rw [hcols]; exact hc.1, column, h1, by rw [h2]; exact hv.1⟩

/-- Writing the live values of the blocks back leaves the blocks as they are. -/
theorem unflatten_blocks_live {V : Type} (name : String) :
    ∀ (blocks : List (AttributesBlock V)), (∀ b ∈ blocks, block_has_column name b) →
      unflatten_blocks name blocks
        (((blocks.filter (fun b => decide (0 < b.active_count))).map
          (fun b => (b.column name).take b.active_count)).flatten) = blocks
  | [], _ => rfl
  | b :: rest, h => by
    obtain ⟨hnd, column, hcol, hle⟩ := h b (List.mem_cons_self _ _)
    have ih := unflatten_blocks_live name rest (fun x hx => h x (List.mem_cons_of_mem _ hx))
    have hc : b.column name = column := by simp [AttributesBlock.column, hcol]
    by_cases hact : 0 < b.active_count
    · simp only [List.filter_cons, hact, decide_True, if_true, List.map_cons,
        List.flatten_cons, unflatten_blocks]
      have hlen : ((b.column name).take b.active_count).length = b.active_count := by
        rw [hc, List.length_take, Nat.min_eq_left hle]
      rw [List.take_left' hlen, List.drop_left' hlen, ih]
      congr 1
      have hmap : b.columns.map (fun c =>
          if c.1 = name then (c.1, (b.column name).take b.active_count ++
            c.2.drop b.active_count) else c) = b.columns := by
        conv_rhs => rw [← List.map_id b.columns]
        apply List.map_congr_left
        intro c0 hc0
        by_cases hn : c0.1 = name
        · rw [if_pos hn]
          have : b.columns.lookup name = some c0.2 :=
            lookup_of_mem_nodup name c0.2 b.columns hnd (by rw [← hn]; exact hc0)
          rw [hcol] at this
          cases this
          rw [hc, List.take_append_drop]
          rfl
        · rw [if_neg hn]
          rfl
      rw [hmap]
    · simp only [List.filter_cons, hact, decide_False, unflatten_blocks, if_false,
        Bool.false_eq_true]
      rw [ih]

theorem lookup_map_values {V : Type} (key : String) (f : String × V → String × V)
    (hf : ∀ e, (f e).1 = e.1) :
    ∀ (entries : List (String × V)),
      (entries.map f).lookup key = (entries.lookup key).map (fun v => (f (key, v)).2)
  | [] => rfl
  | (k, w) :: rest => by
    have h1 : f (k, w) = (k, (f (k, w)).2) := by
      have := hf (k, w)
      exact Prod.ext this rfl
    rw [List.map_cons, h1]
    by_cases hk : key = k
    · subst hk
      simp [List.lookup]
    · have hbeq : (key == k) = false := by simpa using hk
      simp only [List.lookup, hbeq]
      exact lookup_map_values key f hf rest

theorem unflatten_blocks_shape {V : Type} (name : String) :
    ∀ (blocks : List (AttributesBlock V)) (values : List V),
      (unflatten_blocks name blocks values).map (fun b => b.active_count) =
        blocks.map (fun b => b.active_count)
  | [], _ => rfl
  | b :: rest, values => by
    by_cases hact : 0 < b.active_count
    · simp only [unflatten_blocks, hact, if_true, List.map_cons,
        unflatten_blocks_shape name rest]
    · simp only [unflatten_blocks, hact, if_false, List.map_cons,
        unflatten_blocks_shape name rest]

/-- Flattening after a write-back gives the buffer that was written. -/
theorem unflatten_blocks_spans {V : Type} (name : String) :
    ∀ (blocks : List (AttributesBlock V)) (values : List V),
      (∀ b ∈ blocks, block_has_column name b) → values.length = total_active blocks →
      ∃ spans, collect (((unflatten_blocks name blocks values).filter
          (fun b => decide (0 < b.active_count))).map (fun b => b.attribute_span name))
          = some spans ∧ spans.flatten = values
  | [], values, _, hlen => by
    refine ⟨[], rfl, ?_⟩
    simp only [total_active, List.map_nil, List.sum_nil, List.length_eq_zero] at hlen
    rw [hlen]
    rfl
  | b :: rest, values, h, hlen => by
    obtain ⟨hnd, column, hcol, hle⟩ := h b (List.mem_cons_self _ _)
    simp only [total_active, List.map_cons, List.sum_cons] at hlen
    by_cases hact : 0 < b.active_count
    · obtain ⟨spans, e1, e2⟩ := unflatten_blocks_spans name rest (values.drop b.active_count)
        (fun x hx => h x (List.mem_cons_of_mem _ hx)) (by
          rw [List.length_drop, total_active]
          omega)
      have hlook : (b.columns.map (fun c =>
          if c.1 = name then (c.1, values.take b.active_count ++ c.2.drop b.active_count)
          else c)).lookup name =
          some (values.take b.active_count ++ column.drop b.active_count) := by
        rw [lookup_map_values name _ (by intro e; split_ifs <;> rfl), hcol]
        simp
      have htake : (values.take b.active_count).length = b.active_count := by
        rw [List.length_take]
        omega
      have hspan : AttributesBlock.attribute_span
          { b with columns := b.columns.map (fun c =>
              if c.1 = name then (c.1, values.take b.active_count ++ c.2.drop b.active_count)
              else c) } name = some (values.take b.active_count) := by
        simp only [AttributesBlock.attribute_span, hlook, List.length_append, htake,
          Nat.le_add_right, if_true, List.take_left' htake]
      refine ⟨values.take b.active_count :: spans, ?_, ?_⟩
      · simp only [unflatten_blocks, hact, if_true, List.filter_cons, decide_True,
          List.map_cons, hspan, collect, e1, Option.map_some']
      · rw [List.flatten_cons, e2, List.take_append_drop]
    · have h0 : b.active_count = 0 := by omega
      obtain ⟨spans, e1, e2⟩ := unflatten_blocks_spans name rest values
        (fun x hx => h x (List.mem_cons_of_mem _ hx)) (by rw [total_active]; omega)
      refine ⟨spans, ?_, e2⟩
      simp only [unflatten_blocks, hact, if_false, List.filter_cons, decide_False,
        Bool.false_eq_true]
      exact e1

/-- A second write-back overwrites the first. -/
theorem unflatten_blocks_twice {V : Type} (name : String) :
    ∀ (blocks : List (AttributesBlock V)) (v1 v2 : List V),
      v1.length = total_active blocks →
      unflatten_blocks name (unflatten_blocks name blocks v1) v2 =
        unflatten_blocks name blocks v2
  | [], _, _, _ => rfl
  | b :: rest, v1, v2, hlen => by
    simp only [total_active, List.map_cons, List.sum_cons] at hlen
    by_cases hact : 0 < b.active_count
    · have ih := unflatten_blocks_twice name rest (v1.drop b.active_count)
        (v2.drop b.active_count) (by rw [List.length_drop, total_active]; omega)
      have htake : (v1.take b.active_count).length = b.active_count := by
        rw [List.length_take]
        omega
      simp only [unflatten_blocks, hact, if_true, ih, List.map_map]
      congr 2
      apply List.map_congr_left
      intro c0 _
      by_cases hn : c0.1 = name
      · simp only [Function.comp, hn, if_true, List.drop_left' htake]
      · simp only [Function.comp, hn, if_false]
    · have h0 : b.active_count = 0 := by omega
      have ih := unflatten_blocks_twice name rest v1 v2 (by rw [total_active]; omega)
      simp only [unflatten_blocks, hact, if_false, ih]

theorem unflatten_attribute_ok {F : Type} (c c2 : AttributesBlockContainer F) (name : String)
    (type : CPPType) (values : List (GenericValue F))
    (h : c.unflatten_attribute name type values = .ok c2) :
    values.length = c.count_active ∧ c.schema.lookup name = some type ∧
      (∀ v ∈ values, v.type = type) ∧
      c2 = { c with blocks := unflatten_blocks name c.blocks values } := by
  unfold AttributesBlockContainer.unflatten_attribute at h
  split_ifs at h with h1 h2
  simp only [Except.ok.injEq] at h
  refine ⟨by simpa using h1, h2.1, ?_, h.symm⟩
  have := h2.2
  simp only [List.all_eq_true, decide_eq_true_eq] at this
  exact this

theorem unflatten_attribute_eq {F : Type} (c : AttributesBlockContainer F) (name : String)
    (type : CPPType) (values : List (GenericValue F))
    (h1 : values.length = c.count_active) (h2 : c.schema.lookup name = some type)
    (h3 : ∀ v ∈ values, v.type = type) :
    c.unflatten_attribute name type values =
      .ok { c with blocks := unflatten_blocks name c.blocks values } := by
  unfold AttributesBlockContainer.unflatten_attribute
  have hall : values.all (fun v => decide (v.type = type)) = true := by
    simp only [List.all_eq_true, decide_eq_true_eq]
    exact h3
  rw [if_neg (by simp [h1]), if_pos ⟨h2, hall⟩]

/-- C10: for every (well-formed) container, every attribute of its schema and every population
size, zero included: `flatten_attribute` followed by `unflatten_attribute` of the same attribute
leaves the container as it was; the buffer written by `unflatten_attribute` is what
`flatten_attribute` reads afterwards, so that writing the flattened buffer back after the
attribute was overwritten restores exactly the values that were stored; and
`unflatten_attribute` rejects with the size-mismatch error every buffer whose length differs
from the container's `count_active()`. -/
theorem flatten_unflatten_roundtrip {F : Type} (c : AttributesBlockContainer F)
    (name : String) (type : CPPType) (hc : c.valid) (ha : c.has_attribute name type) :
    ∃ flat, c.flatten_attribute name type = some flat ∧ flat.length = c.count_active ∧
      c.unflatten_attribute name type flat = .ok c ∧
      (∀ values c2, c.unflatten_attribute name type values = .ok c2 →
        c2.flatten_attribute name type = some values ∧
        c2.unflatten_attribute name type flat = .ok c) ∧
      (∀ values, values.length ≠ c.count_active →
        c.unflatten_attribute name type values = .error .size_mismatch) := by
  obtain ⟨h1, h2, h3⟩ := flatten_attribute_valid c name type hc ha
  have hcols := block_has_column_of_valid c name type hc ha
  have hlive : unflatten_blocks name c.blocks (c.live_values name) = c.blocks :=
    unflatten_blocks_live name c.blocks hcols
  refine ⟨c.live_values name, h1, h2, ?_, ?_, ?_⟩
  · rw [unflatten_attribute_eq c name type _ h2 ha h3, hlive]
  · intro values c2 hu
    obtain ⟨u1, u2, u3, rfl⟩ := unflatten_attribute_ok c c2 name type values hu
    have hshape := unflatten_blocks_shape name c.blocks values
    constructor
    · obtain ⟨spans, e1, e2⟩ := unflatten_blocks_spans name c.blocks values hcols u1
      have hall : values.all (fun v => decide (v.type = type)) = true := by
        simp only [List.all_eq_true, decide_eq_true_eq]
        exact u3
      unfold AttributesBlockContainer.flatten_attribute
        AttributesBlockContainer.active_blocks
      simp only [u2, if_true, e1, e2, hall]
    · have hcount : AttributesBlockContainer.count_active
          { c with blocks := unflatten_blocks name c.blocks values } = c.count_active := by
        simp only [AttributesBlockContainer.count_active, hshape]
      rw [unflatten_attribute_eq
        { c with blocks := unflatten_blocks name c.blocks values } name type
        (c.live_values name) (h2.trans hcount.symm) u2 h3]
      simp only [unflatten_blocks_twice name c.blocks values _ u1, hlive]
  · intro values hne
    unfold AttributesBlockContainer.unflatten_attribute
    rw [if_pos hne]

/-- C10 on the attribute "Size" of the container of three particles. -/
theorem flatten_unflatten_roundtrip_witness :
    (dust_container.valid ∧ dust_container.has_attribute "Size" .Float) ∧
    ∃ flat, dust_container.flatten_attribute "Size" .Float = some flat ∧
      flat.length = dust_container.count_active ∧
      dust_container.unflatten_attribute "Size" .Float flat = .ok dust_container ∧
      (∀ values c2, dust_container.unflatten_attribute "Size" .Float values = .ok c2 →
        c2.flatten_attribute "Size" .Float = some values ∧
        c2.unflatten_attribute "Size" .Float flat = .ok dust_container) ∧
      (∀ values, values.length ≠ dust_container.count_active →
        dust_container.unflatten_attribute "Size" .Float values = .error .size_mismatch) :=
  ⟨⟨(dust_state_valid ("Dust", dust_container) (List.mem_singleton.mpr rfl)).1, rfl⟩,
    flatten_unflatten_roundtrip dust_container "Size" .Float
      (dust_state_valid ("Dust", dust_container) (List.mem_singleton.mpr rfl)).1 rfl⟩

/-! ## Contents of the tetrahedron mesh -/

theorem foldlM_cons_some {σ α : Type} (f : σ → α → Option σ) (a : α) (l : List α) (s s2 : σ)
    (h : (a :: l).foldlM f s = some s2) :
    ∃ s1, f s a = some s1 ∧ l.foldlM f s1 = some s2 := by
  rw [List.foldlM_cons] at h
  cases h1 : f s a with
  | none =>
    rw [h1] at h
    cases h
  | some s1 =>
    rw [h1] at h
    exact ⟨s1, rfl, h⟩

/-- A fold whose step `i` rewrites the block `[w * i, w * i + w)` of an array of the state:
the array keeps its length, every slot of a block of the list holds a value written for its
block, and the slots outside the blocks of the list are untouched. -/
theorem foldlM_write_block {σ α : Type} (arr : σ → List α) (f : σ → Nat → Option σ) (w : Nat)
    (P : Nat → Nat → α → Prop) (l : List Nat)
    (hstep : ∀ s s2 i, i ∈ l → f s i = some s2 →
      ∃ g, arr s2 = write_block (arr s) (w * i) w g ∧ ∀ t x, t < w → P i t (g t x)) :
    ∀ s s2, l.foldlM f s = some s2 →
      (arr s2).length = (arr s).length ∧
      (∀ i ∈ l, ∀ t, t < w → w * i + t < (arr s).length →
        ∃ x, (arr s2)[w * i + t]? = some x ∧ P i t x) ∧
      (∀ k, (∀ i ∈ l, ¬ (w * i ≤ k ∧ k < w * i + w)) → (arr s2)[k]? = (arr s)[k]?) := by
  induction l with
  | nil =>
    intro s s2 h
    cases h
    exact ⟨rfl, fun i hi => absurd hi (List.not_mem_nil i), fun _ _ => rfl⟩
  | cons a l ih =>
    intro s s2 h
    obtain ⟨s1, h1, h2⟩ := foldlM_cons_some f a l s s2 h
    obtain ⟨g, hg, hP⟩ := hstep s s1 a (List.mem_cons_self _ _) h1
    obtain ⟨hlen, hin, hout⟩ := ih (fun s s2 i hi => hstep s s2 i (List.mem_cons_of_mem _ hi))
      s1 s2 h2
    have hl1 : (arr s1).length = (arr s).length := by rw [hg, length_write_block]
    refine ⟨by rw [hlen, hl1], ?_, ?_⟩
    · intro i hi t ht hb
      by_cases hil : i ∈ l
      · exact hin i hil t ht (by rw [hl1]; exact hb)
      · have hia : i = a := by
          rcases List.mem_cons.mp hi with h | h
          · exact h
          · exact absurd h hil
        subst hia
        rw [hout (w * i + t) (by
          intro i2 hi2 hk
          have hne : i2 ≠ i := fun h => hil (h ▸ hi2)
          have hw : 0 < w := by omega
          have e1 : (w * i + t) / w = i := by
            rw [Nat.mul_add_div hw, Nat.div_eq_of_lt ht, Nat.add_zero]
          have e2 : (w * i + t) / w = i2 := by
            apply Nat.div_eq_of_lt_le
            · rw [Nat.mul_comm i2 w]; exact hk.1
            · rw [Nat.succ_mul, Nat.mul_comm i2 w]; exact hk.2
          exact hne (e2.symm.trans e1)), hg, getElem?_write_block,
          List.getElem?_eq_getElem hb]
        refine ⟨g t (arr s)[w * i + t], ?_, hP _ _ ht⟩
        simp [ht]
    · intro k hk
      rw [hout k (fun i hi => hk i (List.mem_cons_of_mem _ hi)), hg]
      exact getElem?_write_block_of_not_mem _ _ _ _ _ (hk a (List.mem_cons_self _ _))

/-- The loop colour written for a particle colour. -/
theorem loop_col_eq {F : Type} [CFloat F] (k : rgba_f F) :
    (⟨(rgba_b.of_rgba_f k).r, (rgba_b.of_rgba_f k).g, (rgba_b.of_rgba_f k).b,
      (rgba_b.of_rgba_f k).a⟩ : MLoopCol) = loop_color k := rfl

/-- The arrays left by the run over a list of instances below `2^32 / 12`: what the slots of
the instances of the list hold. -/
theorem foldlM_instances_contents {F : Type} [CFloat F]
    (centers : List (float3 F)) (scales : List F) (colors : List (rgba_f F))
    (l : List Nat) (hl : ∀ i ∈ l, 12 * i + 12 ≤ UINT_SIZE) (st st2 : Mesh F × List MLoopCol)
    (h : l.foldlM (distribute_tetrahedons_instance centers scales colors) st = some st2) :
    (∀ i ∈ l, ∀ t, t < 4 → 4 * i + t < st.1.mvert.length →
      ∃ v, st2.1.mvert[4 * i + t]? = some v ∧ instance_vertex centers scales i t v.co) ∧
    (∀ i ∈ l, ∀ t, t < 12 → 12 * i + t < st.1.mloop.length →
      ∃ x, st2.1.mloop[12 * i + t]? = some x ∧
        x = ⟨4 * i + tetrahedon_loop_vertices.getD t 0,
             6 * i + tetrahedon_loop_edges.getD t 0⟩) ∧
    (∀ i ∈ l, ∀ t, t < 6 → 6 * i + t < st.1.medge.length →
      ∃ x, st2.1.medge[6 * i + t]? = some x ∧
        x = ⟨4 * i + (tetrahedon_edges.getD t (0, 0)).1,
             4 * i + (tetrahedon_edges.getD t (0, 0)).2⟩) ∧
    (∀ i ∈ l, ∀ t, t < 12 → 12 * i + t < st.2.length →
      ∃ x, st2.2[12 * i + t]? = some x ∧ ∀ k, colors[i]? = some k → x = loop_color k) := by
  have hU : UINT_SIZE = 4294967296 := by norm_num [UINT_SIZE]
  refine ⟨?_, ?_, ?_, ?_⟩
  · refine (foldlM_write_block (fun s : Mesh F × List MLoopCol => s.1.mvert) _ 4
      (fun i t v => instance_vertex centers scales i t v.co) l ?_ st st2 h).2.1
    intro s s2 i hi hs
    obtain ⟨c, sc, k, hc, hsc, -, -, rfl⟩ :=
      distribute_tetrahedons_instance_some centers scales colors s s2 i (hl i hi) hs
    refine ⟨_, by unfold instance_writes; dsimp only, ?_⟩
    intro t x _ c2 s2 tv hc2 hs2 htv
    rw [hc] at hc2
    rw [hsc] at hs2
    cases hc2
    cases hs2
    simp only [List.getD_eq_getElem?_getD, htv, Option.getD_some]
  · refine (foldlM_write_block (fun s : Mesh F × List MLoopCol => s.1.mloop) _ 12
      (fun i t x => x = ⟨4 * i + tetrahedon_loop_vertices.getD t 0,
             6 * i + tetrahedon_loop_edges.getD t 0⟩) l ?_ st st2 h).2.1
    intro s s2 i hi hs
    obtain ⟨c, sc, k, -, -, -, -, rfl⟩ :=
      distribute_tetrahedons_instance_some centers scales colors s s2 i (hl i hi) hs
    refine ⟨_, by unfold instance_writes; dsimp only, ?_⟩
    intro t x ht
    have := hl i hi
    interval_cases t <;>
      simp only [tetrahedon_loop_vertices, tetrahedon_loop_edges, List.getD_cons_zero,
        List.getD_cons_succ] <;>
      rw [uint_add_eq _ _ (by omega), uint_add_eq _ _ (by omega)]
  · refine (foldlM_write_block (fun s : Mesh F × List MLoopCol => s.1.medge) _ 6
      (fun i t x => x = ⟨4 * i + (tetrahedon_edges.getD t (0, 0)).1,
             4 * i + (tetrahedon_edges.getD t (0, 0)).2⟩) l ?_ st st2 h).2.1
    intro s s2 i hi hs
    obtain ⟨c, sc, k, -, -, -, -, rfl⟩ :=
      distribute_tetrahedons_instance_some centers scales colors s s2 i (hl i hi) hs
    refine ⟨_, by unfold instance_writes; dsimp only, ?_⟩
    intro t x ht
    have := hl i hi
    interval_cases t <;>
      simp only [tetrahedon_edges, List.getD_cons_zero, List.getD_cons_succ] <;>
      rw [uint_add_eq _ _ (by omega), uint_add_eq _ _ (by omega)]
  · refine (foldlM_write_block (fun s : Mesh F × List MLoopCol => s.2) _ 12
      (fun i _ x => ∀ k, colors[i]? = some k → x = loop_color k) l ?_ st st2 h).2.1
    intro s s2 i hi hs
    obtain ⟨c, sc, k, -, -, hk, -, rfl⟩ :=
      distribute_tetrahedons_instance_some centers scales colors s s2 i (hl i hi) hs
    refine ⟨_, by unfold instance_writes; dsimp only, ?_⟩
    intro t x _ k2 hk2
    rw [hk] at hk2
    cases hk2
    rfl

/-- The arrays of the tetrahedron mesh of `n` centres, `12 * n < 2^31`: vertex `4i + t` is
`centers[i] + tetrahedon_vertices[t] * scales[i]`; loop `l` of instance `l / 12` has the vertex
and the edge of the tables, shifted to the instance; edge `e` of instance `e / 6` joins the
vertices of the table, shifted to the instance; and the layer "Color" gives loop `l` the colour
of particle `l / 12`. -/
theorem distribute_tetrahedons_contents {F : Type} [CFloat F]
    (centers : List (float3 F)) (scales : List F) (colors : List (rgba_f F))
    (hn : 12 * centers.length < INT_SIZE) (mesh : Mesh F)
    (h : distribute_tetrahedons centers scales colors = some mesh) :
    (∀ i t, i < centers.length → t < 4 →
      ∃ v, mesh.mvert[4 * i + t]? = some v ∧ instance_vertex centers scales i t v.co) ∧
    (∀ l, l < 12 * centers.length →
      mesh.mloop[l]? = some ⟨4 * (l / 12) + tetrahedon_loop_vertices.getD (l % 12) 0,
        6 * (l / 12) + tetrahedon_loop_edges.getD (l % 12) 0⟩) ∧
    (∀ e, e < 6 * centers.length →
      mesh.medge[e]? = some ⟨4 * (e / 6) + (tetrahedon_edges.getD (e % 6) (0, 0)).1,
        4 * (e / 6) + (tetrahedon_edges.getD (e % 6) (0, 0)).2⟩) ∧
    ∃ layer, mesh.ldata = [("Color", layer)] ∧ layer.length = 12 * centers.length ∧
      ∀ l, l < 12 * centers.length →
        ∃ x, layer[l]? = some x ∧ ∀ k, colors[l / 12]? = some k → x = loop_color k := by
  have hU : UINT_SIZE = 4294967296 := by norm_num [UINT_SIZE]
  have hI : INT_SIZE = 2147483648 := by norm_num [INT_SIZE]
  rw [distribute_tetrahedons_eq centers scales colors hn] at h
  obtain ⟨st2, hfold, hmesh⟩ := Option.bind_eq_some.mp h
  cases hmesh
  have hmem : ∀ i, i < centers.length → i ∈ List.range' 0 centers.length := by
    intro i hi
    simp [List.mem_range']
    exact hi
  have hl : ∀ i ∈ List.range' 0 centers.length, 12 * i + 12 ≤ UINT_SIZE := by
    intro i hi
    simp [List.mem_range'] at hi
    omega
  obtain ⟨hv, hlo, he, hcol⟩ := foldlM_instances_contents centers scales colors _ hl _ _ hfold
  have hlen := (foldlM_write_block (fun s : Mesh F × List MLoopCol => s.2) _ 12
      (fun _ _ _ => True) (List.range' 0 centers.length) (by
        intro s s2 i hi hs
        obtain ⟨c, sc, k, -, -, -, -, rfl⟩ :=
          distribute_tetrahedons_instance_some centers scales colors s s2 i (hl i hi) hs
        exact ⟨_, by unfold instance_writes; dsimp only, fun _ _ _ => trivial⟩)
      _ _ hfold).1
  simp only [BKE_mesh_new_nomain, List.length_replicate] at hv hlo he hcol hlen
  refine ⟨?_, ?_, ?_, st2.2, rfl, hlen, ?_⟩
  · intro i t hi ht
    exact hv i (hmem i hi) t ht (by omega)
  · intro l hlt
    obtain ⟨x, hx, rfl⟩ := hlo (l / 12) (hmem _ (by omega)) (l % 12) (by omega) (by omega)
    rw [show 12 * (l / 12) + l % 12 = l by omega] at hx
    exact hx
  · intro e het
    obtain ⟨x, hx, rfl⟩ := he (e / 6) (hmem _ (by omega)) (e % 6) (by omega) (by omega)
    rw [show 6 * (e / 6) + e % 6 = e by omega] at hx
    exact hx
  · intro l hlt
    obtain ⟨x, hx, hk⟩ := hcol (l / 12) (hmem _ (by omega)) (l % 12) (by omega) (by omega)
    rw [show 12 * (l / 12) + l % 12 = l by omega] at hx
    exact ⟨x, hx, hk⟩

/-- C12, as amended: for `n` centres, scales and colours of equal length `n` with
`12 * n < 2^31`, `distribute_tetrahedons` builds a mesh in which, for every instance `i < n`,
vertex `4i + j` (`j < 4`) is `centers[i] + tetrahedon_vertices[j] * scales[i]` and the twelve
loops `12i .. 12i + 11` carry the byte conversion of `colors[i]` in the layer "Color"; the layer
has `12n` entries, and every loop `l` carries the colour of its own instance `l / 12`. -/
theorem distribute_tetrahedons_instances {F : Type} [CFloat F]
    (centers : List (float3 F)) (scales : List F) (colors : List (rgba_f F))
    (hn : 12 * centers.length < INT_SIZE)
    (hs : scales.length = centers.length) (hc : colors.length = centers.length) :
    ∃ mesh layer, distribute_tetrahedons centers scales colors = some mesh ∧
      mesh.ldata = [("Color", layer)] ∧ layer.length = 12 * centers.length ∧
      (∀ i, i < centers.length →
        ∃ c s k, centers[i]? = some c ∧ scales[i]? = some s ∧ colors[i]? = some k ∧
          (∀ j, j < 4 → ∃ tv v, (tetrahedon_vertices (F := F))[j]? = some tv ∧
            mesh.mvert[4 * i + j]? = some v ∧ v.co = float3.add c (float3.mul tv s)) ∧
          (∀ t, t < 12 → layer[12 * i + t]? = some (loop_color k))) ∧
      (∀ l, l < 12 * centers.length →
        ∃ k, colors[l / 12]? = some k ∧ layer[l]? = some (loop_color k)) := by
  obtain ⟨mesh, hm, -⟩ := distribute_tetrahedons_of_inputs centers scales colors hn
    (by omega) (by omega)
  obtain ⟨hv, -, -, layer, hlayer, hlen, hcol⟩ :=
    distribute_tetrahedons_contents centers scales colors hn mesh hm
  have hloop : ∀ l, l < 12 * centers.length →
      ∃ k, colors[l / 12]? = some k ∧ layer[l]? = some (loop_color k) := by
    intro l hl
    have hk : l / 12 < colors.length := by omega
    obtain ⟨x, hx, hxk⟩ := hcol l hl
    exact ⟨colors[l / 12], List.getElem?_eq_getElem hk,
      by rw [hx, hxk _ (List.getElem?_eq_getElem hk)]⟩
  refine ⟨mesh, layer, hm, hlayer, hlen, ?_, hloop⟩
  intro i hi
  have hi2 : i < scales.length := by omega
  have hi3 : i < colors.length := by omega
  refine ⟨centers[i], scales[i], colors[i], List.getElem?_eq_getElem hi,
    List.getElem?_eq_getElem hi2, List.getElem?_eq_getElem hi3, ?_, ?_⟩
  · intro j hj
    have hj2 : j < (tetrahedon_vertices (F := F)).length := by
      simp only [tetrahedon_vertices, List.length_cons, List.length_nil]
      omega
    obtain ⟨v, hv1, hv2⟩ := hv i j hi hj
    exact ⟨(tetrahedon_vertices (F := F))[j], v, List.getElem?_eq_getElem hj2, hv1,
      hv2 _ _ _ (List.getElem?_eq_getElem hi) (List.getElem?_eq_getElem hi2)
        (List.getElem?_eq_getElem hj2)⟩
  · intro t ht
    obtain ⟨k, hk1, hk2⟩ := hloop (12 * i + t) (by omega)
    rw [show (12 * i + t) / 12 = i by omega, List.getElem?_eq_getElem hi3] at hk1
    cases hk1
    exact hk2

/-- The claim C12 fails from `12 * n ≥ 2^31` on: for the 178956971 centres, scales and colours
of the example the loop count arrives at `BKE_mesh_new_nomain` as a negative `int` and no mesh
is built, so no vertex and no loop colour is set. -/
theorem distribute_tetrahedons_instances_counterexample :
    tight_scales.length = tight_centers.length ∧
    tight_colors.length = tight_centers.length ∧
    ¬ ∃ mesh layer, distribute_tetrahedons tight_centers tight_scales tight_colors = some mesh ∧
      mesh.ldata = [("Color", layer)] ∧
      ∀ i, i < tight_centers.length →
        ∃ c s k, tight_centers[i]? = some c ∧ tight_scales[i]? = some s ∧
          tight_colors[i]? = some k ∧
          (∀ j, j < 4 → ∃ tv v, (tetrahedon_vertices (F := Int))[j]? = some tv ∧
            mesh.mvert[4 * i + j]? = some v ∧ v.co = float3.add c (float3.mul tv s)) ∧
          (∀ t, t < 12 → layer[12 * i + t]? = some (loop_color k)) := by
  refine ⟨?_, ?_, ?_⟩
  · rw [tight_scales, tight_centers, List.length_replicate, List.length_replicate]
  · rw [tight_colors, tight_centers, List.length_replicate, List.length_replicate]
  · rintro ⟨mesh, layer, hm, -⟩
    rw [tight_undefined] at hm
    cases hm

/-- C12, as amended, on two particles: vertex 5 is `centers[1] + tetrahedon_vertices[1] *
scales[1]` and loop 13 carries the colour of particle 1, green. -/
theorem distribute_tetrahedons_instances_witness :
    (12 * two_centers.length < INT_SIZE ∧ two_scales.length = two_centers.length ∧
      two_colors.length = two_centers.length) ∧
    ∃ mesh layer, distribute_tetrahedons two_centers two_scales two_colors = some mesh ∧
      mesh.ldata = [("Color", layer)] ∧
      (∃ v, mesh.mvert[5]? = some v ∧ v.co = ⟨2, 3, 4⟩) ∧
      layer[13]? = some ⟨0, 255, 0, 255⟩ := by
  have h := distribute_tetrahedons_instances two_centers two_scales two_colors (by decide)
    (by decide) (by decide)
  obtain ⟨mesh, layer, hm, hl, -, hi, -⟩ := h
  obtain ⟨c, s, k, hc, hs, hk, hv, hcol⟩ := hi 1 (by decide)
  obtain ⟨tv, v, htv, hv1, hv2⟩ := hv 1 (by decide)
  have hl13 := hcol 1 (by decide)
  cases hc
  cases hs
  cases hk
  cases htv
  exact ⟨⟨by decide, by decide, by decide⟩, mesh, layer, hm, hl, ⟨v, hv1, hv2⟩, hl13⟩

/-! ## Topology of the tetrahedron mesh -/

/-- The loop tables stay inside the 4 vertices and the 6 edges of a tetrahedron. -/
theorem loop_tables_bounds : ∀ t, t < 12 →
    tetrahedon_loop_vertices.getD t 0 < 4 ∧ tetrahedon_loop_edges.getD t 0 < 6 := by
  decide

/-- Every edge of the table joins two different vertices of the tetrahedron. -/
theorem edge_table_distinct : ∀ t, t < 6 →
    (tetrahedon_edges.getD t (0, 0)).1 < 4 ∧ (tetrahedon_edges.getD t (0, 0)).2 < 4 ∧
      (tetrahedon_edges.getD t (0, 0)).1 ≠ (tetrahedon_edges.getD t (0, 0)).2 := by
  decide

/-- In every triangle `q` of the tables, the edge of corner `t` joins the vertex of the corner
with the vertex of the cyclically next corner. -/
theorem loop_edge_joins : ∀ q, q < 4 → ∀ t, t < 3 →
    tetrahedon_edges.getD (tetrahedon_loop_edges.getD (3 * q + t) 0) (0, 0) =
        (tetrahedon_loop_vertices.getD (3 * q + t) 0,
          tetrahedon_loop_vertices.getD (3 * q + (t + 1) % 3) 0) ∨
      tetrahedon_edges.getD (tetrahedon_loop_edges.getD (3 * q + t) 0) (0, 0) =
        (tetrahedon_loop_vertices.getD (3 * q + (t + 1) % 3) 0,
          tetrahedon_loop_vertices.getD (3 * q + t) 0) := by
  decide

/-- Every edge of the tetrahedron is the edge of exactly two corners, `edge_corner_1` and
`edge_corner_2`, which lie in different triangles. -/
theorem edge_corners : ∀ r, r < 6 →
    edge_corner_1.getD r 0 < edge_corner_2.getD r 0 ∧ edge_corner_2.getD r 0 < 12 ∧
    edge_corner_1.getD r 0 / 3 ≠ edge_corner_2.getD r 0 / 3 ∧
    ∀ k, k < 12 → (tetrahedon_loop_edges.getD k 0 = r ↔
      (k = edge_corner_1.getD r 0 ∨ k = edge_corner_2.getD r 0)) := by
  decide

/-- C13, as amended: for `n` centres with `12 * n < 2^31` (and a scale and a colour for each),
the mesh
built by `distribute_tetrahedons` has `4n` vertices, `6n` edges, `12n` loops and `4n` polygons
and is topologically consistent.  Every loop has a vertex index below `4n` and an edge index
below `6n`.  Every edge `e` has two distinct vertices, both of instance `e / 6`.  For every
polygon and every loop `l` of it, the edge `mloop[l].e` joins `mloop[l].v` with the vertex of
the cyclically next loop of the polygon.  Every edge `e` is the edge of exactly two loops,
which belong to two different polygons of instance `e / 6`. -/
theorem distribute_tetrahedons_topology {F : Type} [CFloat F]
    (centers : List (float3 F)) (scales : List F) (colors : List (rgba_f F))
    (hn : 12 * centers.length < INT_SIZE)
    (hs : centers.length ≤ scales.length) (hc : centers.length ≤ colors.length) :
    ∃ mesh, distribute_tetrahedons centers scales colors = some mesh ∧
      (mesh.mvert.length = 4 * centers.length ∧ mesh.medge.length = 6 * centers.length ∧
        mesh.mloop.length = 12 * centers.length ∧ mesh.mpoly.length = 4 * centers.length) ∧
      (∀ l, l < 12 * centers.length →
        ∃ x, mesh.mloop[l]? = some x ∧ x.v < 4 * centers.length ∧ x.e < 6 * centers.length) ∧
      (∀ e, e < 6 * centers.length →
        ∃ ed, mesh.medge[e]? = some ed ∧ ed.v1 ≠ ed.v2 ∧ ed.v1 / 4 = e / 6 ∧
          ed.v2 / 4 = e / 6) ∧
      (∀ p, p < 4 * centers.length → ∃ poly, mesh.mpoly[p]? = some poly ∧
        ∀ t, t < poly.totloop → ∃ x y ed,
          mesh.mloop[poly.loopstart + t]? = some x ∧
          mesh.mloop[poly.loopstart + (t + 1) % poly.totloop]? = some y ∧
          mesh.medge[x.e]? = some ed ∧
          ((ed.v1 = x.v ∧ ed.v2 = y.v) ∨ (ed.v1 = y.v ∧ ed.v2 = x.v))) ∧
      (∀ e, e < 6 * centers.length → ∃ l1 l2 p1 p2 poly1 poly2,
        l1 ≠ l2 ∧ l1 < 12 * centers.length ∧ l2 < 12 * centers.length ∧
        (∀ l x, mesh.mloop[l]? = some x → (x.e = e ↔ (l = l1 ∨ l = l2))) ∧
        p1 ≠ p2 ∧ p1 / 4 = e / 6 ∧ p2 / 4 = e / 6 ∧
        mesh.mpoly[p1]? = some poly1 ∧
        (poly1.loopstart ≤ l1 ∧ l1 < poly1.loopstart + poly1.totloop) ∧
        mesh.mpoly[p2]? = some poly2 ∧
        (poly2.loopstart ≤ l2 ∧ l2 < poly2.loopstart + poly2.totloop)) := by
  obtain ⟨mesh, hm, ⟨-, hlv⟩, ⟨-, hle⟩, ⟨-, hlen⟩, ⟨-, hlp⟩, -, hpoly⟩ :=
    distribute_tetrahedons_of_inputs centers scales colors hn hs hc
  obtain ⟨-, hloop, hedge, -⟩ := distribute_tetrahedons_contents centers scales colors hn mesh hm
  refine ⟨mesh, hm, ⟨hlv, hle, hlen, hlp⟩, ?_, ?_, ?_, ?_⟩
  · intro l hl
    obtain ⟨b1, b2⟩ := loop_tables_bounds (l % 12) (by omega)
    exact ⟨_, hloop l hl, by dsimp only; omega, by dsimp only; omega⟩
  · intro e he
    obtain ⟨b1, b2, b3⟩ := edge_table_distinct (e % 6) (by omega)
    exact ⟨_, hedge e he, by dsimp only; omega, by dsimp only; omega, by dsimp only; omega⟩
  · intro p hp
    refine ⟨_, hpoly p hp, ?_⟩
    dsimp only
    intro t ht
    have hx := hloop (3 * p + t) (by omega)
    have hy := hloop (3 * p + (t + 1) % 3) (by omega)
    rw [show (3 * p + t) / 12 = p / 4 by omega,
      show (3 * p + t) % 12 = 3 * (p % 4) + t by omega] at hx
    rw [show (3 * p + (t + 1) % 3) / 12 = p / 4 by omega,
      show (3 * p + (t + 1) % 3) % 12 = 3 * (p % 4) + (t + 1) % 3 by omega] at hy
    obtain ⟨-, b2⟩ := loop_tables_bounds (3 * (p % 4) + t) (by omega)
    have hed := hedge (6 * (p / 4) + tetrahedon_loop_edges.getD (3 * (p % 4) + t) 0) (by omega)
    rw [show (6 * (p / 4) + tetrahedon_loop_edges.getD (3 * (p % 4) + t) 0) / 6 = p / 4 by omega,
      show (6 * (p / 4) + tetrahedon_loop_edges.getD (3 * (p % 4) + t) 0) % 6 =
        tetrahedon_loop_edges.getD (3 * (p % 4) + t) 0 by omega] at hed
    refine ⟨_, _, _, hx, hy, hed, ?_⟩
    dsimp only
    rcases loop_edge_joins (p % 4) (by omega) t ht with hj | hj
    · rw [hj]
      exact Or.inl ⟨rfl, rfl⟩
    · rw [hj]
      exact Or.inr ⟨rfl, rfl⟩
  · intro e he
    obtain ⟨c1, c2, c3, c4⟩ := edge_corners (e % 6) (by omega)
    refine ⟨12 * (e / 6) + edge_corner_1.getD (e % 6) 0,
      12 * (e / 6) + edge_corner_2.getD (e % 6) 0,
      4 * (e / 6) + edge_corner_1.getD (e % 6) 0 / 3,
      4 * (e / 6) + edge_corner_2.getD (e % 6) 0 / 3, _, _,
      by omega, by omega, by omega, ?_, by omega, by omega, by omega,
      hpoly _ (by omega), by dsimp only; omega, hpoly _ (by omega), by dsimp only; omega⟩
    intro l x hx
    have hl : l < 12 * centers.length := by
      rw [← hlen]
      exact (List.getElem?_eq_some.mp hx).1
    rw [hloop l hl] at hx
    cases hx
    dsimp only
    obtain ⟨-, b2⟩ := loop_tables_bounds (l % 12) (by omega)
    have key := c4 (l % 12) (by omega)
    constructor
    · intro h
      have h1 : tetrahedon_loop_edges.getD (l % 12) 0 = e % 6 := by omega
      rcases key.mp h1 with h2 | h2
      · left; omega
      · right; omega
    · intro h
      have h1 : l / 12 = e / 6 := by omega
      have h2 : tetrahedon_loop_edges.getD (l % 12) 0 = e % 6 := by
        apply key.mpr
        rcases h with h | h
        · left; omega
        · right; omega
      omega

/-- The claim C13 fails between `2^31` and `2^32`: for the 178956971 centres of the example,
each with a scale and a colour, `12 * n < 2^32`, and `distribute_tetrahedons` builds no mesh
at all, because the loop count `12 * n = 2^31 + 4` arrives at `BKE_mesh_new_nomain` as a
negative `int`; there is no mesh whose loops could be consistent. -/
theorem distribute_tetrahedons_topology_counterexample :
    12 * tight_centers.length < UINT_SIZE ∧
    tight_centers.length ≤ tight_scales.length ∧ tight_centers.length ≤ tight_colors.length ∧
    ¬ ∃ mesh, distribute_tetrahedons tight_centers tight_scales tight_colors = some mesh ∧
      ∀ l, l < 12 * tight_centers.length →
        ∃ x, mesh.mloop[l]? = some x ∧ x.v < 4 * tight_centers.length ∧
          x.e < 6 * tight_centers.length := by
  refine ⟨?_, ?_, ?_, ?_⟩
  · rw [tight_centers, List.length_replicate]; norm_num [UINT_SIZE]
  · rw [tight_scales, tight_centers, List.length_replicate, List.length_replicate]
  · rw [tight_colors, tight_centers, List.length_replicate, List.length_replicate]
  · rintro ⟨mesh, hm, -⟩
    rw [tight_undefined] at hm
    cases hm

/-- C13, as amended, on two particles: the mesh is built; loop 13 has a vertex index below 8 and an edge
index below 12, and edge 9 joins two distinct vertices of instance 1. -/
theorem distribute_tetrahedons_topology_witness :
    (12 * two_centers.length < INT_SIZE ∧ two_centers.length ≤ two_scales.length ∧
      two_centers.length ≤ two_colors.length) ∧
    ∃ mesh, distribute_tetrahedons two_centers two_scales two_colors = some mesh ∧
      (∃ x, mesh.mloop[13]? = some x ∧ x.v < 8 ∧ x.e < 12) ∧
      (∃ ed, mesh.medge[9]? = some ed ∧ ed.v1 ≠ ed.v2 ∧ ed.v1 / 4 = 1 ∧ ed.v2 / 4 = 1) := by
  obtain ⟨mesh, hm, -, hl, he, -, -⟩ :=
    distribute_tetrahedons_topology two_centers two_scales two_colors (by decide) (by decide)
      (by decide)
  exact ⟨⟨by decide, by decide, by decide⟩, mesh, hm, hl 13 (by decide), he 9 (by decide)⟩

/-! ## The mesh built from a cached frame -/

theorem mesh_from_cache_step_eq {F : Type} (particle_types : List (BParticlesTypeCache F))
    (acc : List (float3 F) × List F × List (rgba_f F)) (i : Nat) :
    mesh_from_cache_step particle_types acc i =
      (particle_types[i]?).bind (mesh_from_cache_record acc) := rfl

theorem mesh_from_state_eq {F : Type} [CFloat F] (state : SimulationState F) :
    BParticles_modifier_mesh_from_state state =
      (state.particles.particle_containers.foreach_value.foldlM mesh_from_state_container
        ([], [], [])).bind (fun acc => distribute_tetrahedons acc.1 acc.2.1 acc.2.2) := rfl

/-- A loop over the indices of an array that reads the element first is a fold over the
array. -/
theorem for_uint_elements {σ α : Type} (f : σ → α → Option σ) (init : σ) :
    ∀ (xs : List α),
      for_uint xs.length (fun s i => (xs[i]?).bind (f s)) init = xs.foldlM f init := by
  intro xs
  induction xs using List.reverseRecOn with
  | nil => rfl
  | append_singleton ys y ih =>
    rw [List.length_append, List.length_singleton, for_uint_succ, List.foldlM_append,
      for_uint_congr ys.length _ (fun s i => (ys[i]?).bind (f s)) init (by
        intro s i hi
        rw [List.getElem?_append_left hi]), ih]
    cases ys.foldlM f init with
    | none => rfl
    | some s => simp

theorem decode_float3 {F : Type} :
    ∀ (values : List (GenericValue F)), (∀ v ∈ values, v.type = .Float3) →
      ∃ typed, collect (values.map GenericValue.as_float3) = some typed ∧
        float3_array (values.flatMap GenericValue.floats) = typed ∧
        typed.length = values.length
  | [], _ => ⟨[], rfl, rfl, rfl⟩
  | v :: rest, h => by
    obtain ⟨typed, h1, h2, h3⟩ := decode_float3 rest (fun w hw => h w (List.mem_cons_of_mem _ hw))
    have hv := h v (List.mem_cons_self _ _)
    cases v with
    | ofFloat3 p =>
      refine ⟨p :: typed, by simp [collect, GenericValue.as_float3, h1], ?_, by simp [h3]⟩
      show float3_array (p.x :: p.y :: p.z :: rest.flatMap GenericValue.floats) = p :: typed
      rw [float3_array, h2]
    | ofFloat x => cases hv
    | ofRgbaF x => cases hv

theorem decode_float {F : Type} :
    ∀ (values : List (GenericValue F)), (∀ v ∈ values, v.type = .Float) →
      ∃ typed, collect (values.map GenericValue.as_float) = some typed ∧
        values.flatMap GenericValue.floats = typed ∧ typed.length = values.length
  | [], _ => ⟨[], rfl, rfl, rfl⟩
  | v :: rest, h => by
    obtain ⟨typed, h1, h2, h3⟩ := decode_float rest (fun w hw => h w (List.mem_cons_of_mem _ hw))
    have hv := h v (List.mem_cons_self _ _)
    cases v with
    | ofFloat x =>
      refine ⟨x :: typed, by simp [collect, GenericValue.as_float, h1], ?_, by simp [h3]⟩
      simp only [List.flatMap_cons, GenericValue.floats, List.cons_append, List.nil_append, h2]
    | ofFloat3 p => cases hv
    | ofRgbaF x => cases hv

theorem decode_rgba_f {F : Type} :
    ∀ (values : List (GenericValue F)), (∀ v ∈ values, v.type = .RgbaF) →
      ∃ typed, collect (values.map GenericValue.as_rgba_f) = some typed ∧
        rgba_f_array (values.flatMap GenericValue.floats) = typed ∧
        typed.length = values.length
  | [], _ => ⟨[], rfl, rfl, rfl⟩
  | v :: rest, h => by
    obtain ⟨typed, h1, h2, h3⟩ := decode_rgba_f rest (fun w hw => h w (List.mem_cons_of_mem _ hw))
    have hv := h v (List.mem_cons_self _ _)
    cases v with
    | ofRgbaF x =>
      refine ⟨x :: typed, by simp [collect, GenericValue.as_rgba_f, h1], ?_, by simp [h3]⟩
      show rgba_f_array (x.r :: x.g :: x.b :: x.a :: rest.flatMap GenericValue.floats) =
        x :: typed
      rw [rgba_f_array, h2]
    | ofFloat x => cases hv
    | ofFloat3 p => cases hv

/-- The view `ArrayRef<T>(values, size)` of a buffer of exactly `size` elements is the whole
buffer. -/
theorem array_ref_floats_all {F : Type} (p : Nat) (buffer : List F) (w size : Nat)
    (h : buffer.length = size * w) :
    array_ref_floats (some (p, buffer)) w size = some buffer := by
  simp [array_ref_floats, h]

/-- Reading the type record written for a container yields what flattening the container
yields: the same positions, sizes and colours, one of each per active particle. -/
theorem mesh_from_cache_record_eq {F : Type} (sizes : NameSizes)
    (kv : String × AttributesBlockContainer F) (t : BParticlesTypeCache F)
    (h : is_type_record sizes kv t) (acc : List (float3 F) × List F × List (rgba_f F)) :
    ∃ ps ss cs,
      mesh_from_cache_record acc t = some (acc.1 ++ ps, acc.2.1 ++ ss, acc.2.2 ++ cs) ∧
      mesh_from_state_container acc kv.2 = some (acc.1 ++ ps, acc.2.1 ++ ss, acc.2.2 ++ cs) ∧
      ps.length = kv.2.count_active ∧ ss.length = kv.2.count_active ∧
      cs.length = kv.2.count_active := by
  obtain ⟨-, h2, -, pa, p0, p1, p2, vp, vs, vc, h4, h5, h6, h7⟩ := h
  obtain ⟨fp, fp1, fp2, fp3, fp4⟩ := flatten_attribute_into_some _ _ _ _ _ h5
  obtain ⟨fs, fs1, fs2, fs3, fs4⟩ := flatten_attribute_into_some _ _ _ _ _ h6
  obtain ⟨fc, fc1, fc2, fc3, fc4⟩ := flatten_attribute_into_some _ _ _ _ _ h7
  obtain ⟨ps, dp1, dp2, dp3⟩ := decode_float3 fp (flatten_attribute_types _ _ _ _ fp1)
  obtain ⟨ss, ds1, ds2, ds3⟩ := decode_float fs (flatten_attribute_types _ _ _ _ fs1)
  obtain ⟨cs, dc1, dc2, dc3⟩ := decode_rgba_f fc (flatten_attribute_types _ _ _ _ fc1)
  refine ⟨ps, ss, cs, ?_, ?_, by rw [dp3, fp2], by rw [ds3, fs2], by rw [dc3, fc2]⟩
  · unfold mesh_from_cache_record
    rw [h4, h2]
    simp only [Option.bind_eq_bind, Option.some_bind, List.getElem?_cons_zero,
      List.getElem?_cons_succ, Option.pure_def]
    rw [array_ref_floats_all _ _ 3 _ fp4, array_ref_floats_all _ _ 1 _ fs4,
      array_ref_floats_all _ _ 4 _ fc4]
    simp only [Option.some_bind]
    rw [fp3, fs3, fc3, dp2, ds2, dc2]
  · unfold mesh_from_state_container AttributesBlockContainer.flatten_attribute_float3
      AttributesBlockContainer.flatten_attribute_rgba_f
      AttributesBlockContainer.flatten_attribute_float
    rw [fp1, fs1, fc1]
    simp only [dp1, ds1, dc1, Option.bind_eq_bind, Option.some_bind, Option.pure_def]

/-- The loop over the type records of a frame written for a registry yields what the
`foreach_value` over the containers of the registry yields; the three vectors grow by the
number of active particles of the containers. -/
theorem mesh_from_cache_records_eq {F : Type} (sizes : NameSizes) :
    ∀ (entries : List (String × AttributesBlockContainer F))
      (types : List (BParticlesTypeCache F)),
      List.Forall₂ (is_type_record sizes) entries types →
      ∀ acc : List (float3 F) × List F × List (rgba_f F),
        ∃ r, types.foldlM mesh_from_cache_record acc = some r ∧
          (entries.map (fun kv => kv.2)).foldlM mesh_from_state_container acc = some r ∧
          r.1.length = acc.1.length + ((entries.map (fun kv => kv.2)).map
            (fun c => c.count_active)).sum ∧
          r.2.1.length = acc.2.1.length + ((entries.map (fun kv => kv.2)).map
            (fun c => c.count_active)).sum ∧
          r.2.2.length = acc.2.2.length + ((entries.map (fun kv => kv.2)).map
            (fun c => c.count_active)).sum
  | [], [], _, acc => ⟨acc, rfl, rfl, by simp, by simp, by simp⟩
  | kv :: entries, t :: types, h, acc => by
    cases h with
    | cons h1 h2 =>
      obtain ⟨ps, ss, cs, e1, e2, l1, l2, l3⟩ := mesh_from_cache_record_eq sizes kv t h1 acc
      obtain ⟨r, r1, r2, m1, m2, m3⟩ := mesh_from_cache_records_eq sizes entries types h2
        (acc.1 ++ ps, acc.2.1 ++ ss, acc.2.2 ++ cs)
      refine ⟨r, ?_, ?_, ?_, ?_, ?_⟩
      · rw [List.foldlM_cons, e1]
        exact r1
      · rw [List.map_cons, List.foldlM_cons, e2]
        exact r2
      · rw [m1]
        simp only [List.length_append, List.map_cons, List.sum_cons, l1]
        omega
      · rw [m2]
        simp only [List.length_append, List.map_cons, List.sum_cons, l2]
        omega
      · rw [m3]
        simp only [List.length_append, List.map_cons, List.sum_cons, l3]
        omega

/-- The frame record appended by a completed call of `BParticles_modifier_cache_state`, and
the three vectors that both mesh constructions collect for it. -/
theorem cached_frame_vectors {F : Type} (sizes : NameSizes)
    (bpmd bpmd2 : BParticlesModifierData F) (heap heap2 : Heap) (state : SimulationState F)
    (frame : F) (hv : bpmd.valid)
    (h : BParticles_modifier_cache_state sizes bpmd heap state frame = some (bpmd2, heap2)) :
    ∃ p types positions sizes_ colors,
      bpmd2.frames.getLast? = some ⟨frame,
        state.particles.particle_containers.entries.length, some (p, types)⟩ ∧
      List.Forall₂ (is_type_record sizes) state.particles.particle_containers.entries types ∧
      for_uint state.particles.particle_containers.entries.length (mesh_from_cache_step types)
        ([], [], []) = some (positions, sizes_, colors) ∧
      state.particles.particle_containers.foreach_value.foldlM mesh_from_state_container
        ([], [], []) = some (positions, sizes_, colors) ∧
      positions.length = state.count_active ∧ sizes_.length = state.count_active ∧
      colors.length = state.count_active := by
  obtain ⟨-, -, p, types, hf, hrec⟩ :=
    cache_state_some sizes bpmd bpmd2 heap heap2 state frame hv h
  obtain ⟨r, r1, r2, m1, m2, m3⟩ := mesh_from_cache_records_eq sizes _ _ hrec ([], [], [])
  refine ⟨p, types, r.1, r.2.1, r.2.2, by rw [hf]; simp, hrec, ?_, r2, ?_, ?_, ?_⟩
  · rw [hrec.length_eq]
    have e := for_uint_elements mesh_from_cache_record
      (([], [], []) : List (float3 F) × List F × List (rgba_f F)) types
    rw [r1] at e
    exact e
  · simpa [SimulationState.count_active, StringMap.foreach_value] using m1
  · simpa [SimulationState.count_active, StringMap.foreach_value] using m2
  · simpa [SimulationState.count_active, StringMap.foreach_value] using m3

/-- C14: the mesh that `BParticles_modifier_mesh_from_cache` builds from the frame record
appended by `BParticles_modifier_cache_state` on a state equals the mesh that
`BParticles_modifier_mesh_from_state` builds from the state.  The call of `cache_state`
completes for every state whose containers are well formed and have the attributes "Position",
"Size" and "Color" (when the frame-record array of the cache is an outstanding heap block), and
for a state with less than `2^31 / 12` active particles, whose element counts fit the `int`
counts of a mesh, both constructions do build a mesh. -/
theorem mesh_from_cache_eq_mesh_from_state {F : Type} [CFloat F] (sizes : NameSizes)
    (bpmd : BParticlesModifierData F) (heap : Heap) (state : SimulationState F) (frame : F)
    (hv : bpmd.valid) :
    (state.valid → (∀ a, bpmd.cached_frames = some a → a.1 ∈ heap.live) →
      ∃ r, BParticles_modifier_cache_state sizes bpmd heap state frame = some r) ∧
    ∀ bpmd2 heap2,
      BParticles_modifier_cache_state sizes bpmd heap state frame = some (bpmd2, heap2) →
      ∃ cached_frame, bpmd2.frames.getLast? = some cached_frame ∧
        BParticles_modifier_mesh_from_cache cached_frame =
          BParticles_modifier_mesh_from_state state ∧
        (12 * state.count_active < INT_SIZE →
          ∃ mesh, BParticles_modifier_mesh_from_state state = some mesh) := by
  refine ⟨fun hs hp => cache_state_defined sizes bpmd heap state frame hs hv hp, ?_⟩
  intro bpmd2 heap2 hr
  obtain ⟨p, types, positions, sizes_, colors, hlast, -, hcache, hstate, l1, l2, l3⟩ :=
    cached_frame_vectors sizes bpmd bpmd2 heap heap2 state frame hv hr
  have e1 : BParticles_modifier_mesh_from_state state =
      distribute_tetrahedons positions sizes_ colors := by
    rw [mesh_from_state_eq, hstate]
    rfl
  refine ⟨_, hlast, ?_, ?_⟩
  · rw [e1]
    show (for_uint state.particles.particle_containers.entries.length
      (mesh_from_cache_step types) ([], [], [])).bind
        (fun acc => distribute_tetrahedons acc.1 acc.2.1 acc.2.2) = _
    rw [hcache]
    rfl
  · intro hn
    rw [e1]
    obtain ⟨mesh, hm, -⟩ := distribute_tetrahedons_of_inputs positions sizes_ colors
      (by rw [l1]; exact hn) (by omega) (by omega)
    exact ⟨mesh, hm⟩

/-- C14 on the empty cache and the state with the single type "Dust": the frame is cached, and
the mesh built from the cached frame is the mesh built from the state. -/
theorem mesh_from_cache_eq_mesh_from_state_witness :
    (BParticlesModifierData.empty : BParticlesModifierData Int).valid ∧
    ∃ bpmd2 heap2 cached_frame,
      BParticles_modifier_cache_state ⟨64, 64⟩ BParticlesModifierData.empty ⟨0, []⟩ dust_state 7
        = some (bpmd2, heap2) ∧
      bpmd2.frames.getLast? = some cached_frame ∧
      BParticles_modifier_mesh_from_cache cached_frame =
        BParticles_modifier_mesh_from_state dust_state := by
  have h := mesh_from_cache_eq_mesh_from_state ⟨64, 64⟩
    (BParticlesModifierData.empty : BParticlesModifierData Int) ⟨0, []⟩ dust_state 7 rfl
  obtain ⟨r, hr⟩ := h.1 dust_state_valid (fun a ha => by cases ha)
  obtain ⟨cached_frame, h1, h2, -⟩ := h.2 r.1 r.2 hr
  exact ⟨rfl, r.1, r.2, cached_frame, hr, h1, h2⟩

/-- C15: on the frame record appended by a completed call of
`BParticles_modifier_cache_state`, every read of `BParticles_modifier_mesh_from_cache` is in
bounds.  The frame has one type record per index below `num_particle_types`; each record has
exactly the three attribute entries 0, 1, 2, whose buffers hold `3p`, `p` and `4p` floats for
`p = particle_amount`, so the views of `p` elements of type `float3`, `float` and `rgba_f` stay
inside them; the loop over the records completes, and the positions, sizes and colours it
hands to `distribute_tetrahedons` have the same length, so `centers[i]`, `scales[i]` and
`colors[i]` are defined for every instance `i` below the amount, which is the number of active
particles of the state; with less than `2^31 / 12` particles, whose element counts fit the
`int` counts of a mesh, the mesh is built.  The call of `cache_state` completes for every
state of well-formed containers with the three attributes. -/
theorem mesh_from_cache_in_bounds {F : Type} [CFloat F] (sizes : NameSizes)
    (bpmd : BParticlesModifierData F) (heap : Heap) (state : SimulationState F) (frame : F)
    (hv : bpmd.valid) :
    (state.valid → (∀ a, bpmd.cached_frames = some a → a.1 ∈ heap.live) →
      ∃ r, BParticles_modifier_cache_state sizes bpmd heap state frame = some r) ∧
    ∀ bpmd2 heap2,
      BParticles_modifier_cache_state sizes bpmd heap state frame = some (bpmd2, heap2) →
      ∃ cached_frame p types, bpmd2.frames.getLast? = some cached_frame ∧
        cached_frame.particle_types = some (p, types) ∧
        types.length = cached_frame.num_particle_types ∧
        (∀ i, i < cached_frame.num_particle_types →
          ∃ type pa a0 a1 a2 p0 p1 p2 b0 b1 b2, types[i]? = some type ∧
            type.attributes_float = some (pa, [a0, a1, a2]) ∧
            a0.values = some (p0, b0) ∧ b0.length = 3 * type.particle_amount ∧
            a1.values = some (p1, b1) ∧ b1.length = type.particle_amount ∧
            a2.values = some (p2, b2) ∧ b2.length = 4 * type.particle_amount) ∧
        ∃ positions scales colors,
          for_uint cached_frame.num_particle_types (mesh_from_cache_step types) ([], [], []) =
            some (positions, scales, colors) ∧
          BParticles_modifier_mesh_from_cache cached_frame =
            distribute_tetrahedons positions scales colors ∧
          positions.length = state.count_active ∧
          scales.length = positions.length ∧ colors.length = positions.length ∧
          (∀ i, i < positions.length →
            ∃ c s k, positions[i]? = some c ∧ scales[i]? = some s ∧ colors[i]? = some k) ∧
          (12 * positions.length < INT_SIZE →
            ∃ mesh, BParticles_modifier_mesh_from_cache cached_frame = some mesh) := by
  refine ⟨fun hs hp => cache_state_defined sizes bpmd heap state frame hs hv hp, ?_⟩
  intro bpmd2 heap2 hr
  obtain ⟨p, types, positions, scales, colors, hlast, hrec, hcache, -, l1, l2, l3⟩ :=
    cached_frame_vectors sizes bpmd bpmd2 heap heap2 state frame hv hr
  have e1 : BParticles_modifier_mesh_from_cache (⟨frame,
      state.particles.particle_containers.entries.length, some (p, types)⟩ :
        BParticlesFrameCache F) = distribute_tetrahedons positions scales colors := by
    show (for_uint state.particles.particle_containers.entries.length
      (mesh_from_cache_step types) ([], [], [])).bind
        (fun acc => distribute_tetrahedons acc.1 acc.2.1 acc.2.2) = _
    rw [hcache]
    rfl
  refine ⟨_, p, types, hlast, rfl, hrec.length_eq.symm, ?_, positions, scales, colors, hcache,
    e1, l1, by omega, by omega, ?_, ?_⟩
  · intro i hi
    have hi2 : i < types.length := by rw [← hrec.length_eq]; exact hi
    obtain ⟨kv, hkv, ht⟩ : ∃ kv, kv ∈ state.particles.particle_containers.entries ∧
        is_type_record sizes kv types[i] := by
      have := List.forall₂_iff_get.mp hrec
      exact ⟨_, List.getElem_mem hi, this.2 i hi hi2⟩
    obtain ⟨-, h2, -, pa, p0, p1, p2, vp, vs, vc, h4, h5, h6, h7⟩ := ht
    obtain ⟨-, -, -, -, fp4⟩ := flatten_attribute_into_some _ _ _ _ _ h5
    obtain ⟨-, -, -, -, fs4⟩ := flatten_attribute_into_some _ _ _ _ _ h6
    obtain ⟨-, -, -, -, fc4⟩ := flatten_attribute_into_some _ _ _ _ _ h7
    refine ⟨types[i], pa, _, _, _, p0, p1, p2, vp, vs, vc, List.getElem?_eq_getElem hi2, h4,
      rfl, ?_, rfl, ?_, rfl, ?_⟩
    · rw [fp4, h2]
      simp only [CPPType.floats_per_element]
      omega
    · rw [fs4, h2]
      simp only [CPPType.floats_per_element]
      omega
    · rw [fc4, h2]
      simp only [CPPType.floats_per_element]
      omega
  · intro i hi
    have hi2 : i < scales.length := by omega
    have hi3 : i < colors.length := by omega
    exact ⟨positions[i], scales[i], colors[i], List.getElem?_eq_getElem hi,
      List.getElem?_eq_getElem hi2, List.getElem?_eq_getElem hi3⟩
  · intro hn
    rw [e1]
    obtain ⟨mesh, hm, -⟩ := distribute_tetrahedons_of_inputs positions scales colors hn
      (by omega) (by omega)
    exact ⟨mesh, hm⟩

/-- C15 on the empty cache and the state with the single type "Dust": the frame is cached, the
loop over its type records completes, and the mesh is built. -/
theorem mesh_from_cache_in_bounds_witness :
    (BParticlesModifierData.empty : BParticlesModifierData Int).valid ∧
    ∃ bpmd2 heap2 cached_frame mesh,
      BParticles_modifier_cache_state ⟨64, 64⟩ BParticlesModifierData.empty ⟨0, []⟩ dust_state 7
        = some (bpmd2, heap2) ∧
      bpmd2.frames.getLast? = some cached_frame ∧
      BParticles_modifier_mesh_from_cache cached_frame = some mesh := by
  have h := mesh_from_cache_in_bounds ⟨64, 64⟩
    (BParticlesModifierData.empty : BParticlesModifierData Int) ⟨0, []⟩ dust_state 7 rfl
  obtain ⟨r, hr⟩ := h.1 dust_state_valid (fun a ha => by cases ha)
  obtain ⟨cached_frame, p, types, h1, -, -, -, positions, scales, colors, -, -, hlen, -, -, -,
    h6⟩ := h.2 r.1 r.2 hr
  obtain ⟨mesh, hm⟩ := h6 (by rw [hlen]; decide)
  exact ⟨rfl, r.1, r.2, cached_frame, mesh, hr, h1, hm⟩

/-! ## Division on `float3` -/

/-- C17: `float3::safe_divide(a, b)` is total and divides by no zero: for every `a` and `b` it
returns a vector (the embedding would return `none` on a division by a zero divisor), whose
components are, each on its own, `0` when the component of `b` compares equal to zero and the
quotient of the components otherwise; and `safe_divide(a, (0, 0, 0)) = (0, 0, 0)`. -/
theorem safe_divide_total {F : Type} [CFloatDiv F] (a b : float3 F) :
    float3.safe_divide a b = some
      ⟨if CFloatDiv.eq_zero b.x then CFloat.ofInt 0 else CFloatDiv.div a.x b.x,
       if CFloatDiv.eq_zero b.y then CFloat.ofInt 0 else CFloatDiv.div a.y b.y,
       if CFloatDiv.eq_zero b.z then CFloat.ofInt 0 else CFloatDiv.div a.z b.z⟩ ∧
    float3.safe_divide a ⟨CFloat.ofInt 0, CFloat.ofInt 0, CFloat.ofInt 0⟩ =
      some ⟨CFloat.ofInt 0, CFloat.ofInt 0, CFloat.ofInt 0⟩ := by
  constructor
  · unfold float3.safe_divide float_div
    cases hx : CFloatDiv.eq_zero b.x <;> cases hy : CFloatDiv.eq_zero b.y <;>
      cases hz : CFloatDiv.eq_zero b.z <;> simp
  · unfold float3.safe_divide
    simp [CFloatDiv.eq_zero_zero]

/-- C16: the assertion of `operator/(float3, float3)` does not keep zero divisors out.  The
vector `b = (1, 0, 0)` is not the all-zero vector, so `b.is_zero()` is false and the assertion
passes; the divisions `a.y / b.y` and `a.z / b.z` then have the divisor zero. -/
theorem float3_div_zero_divisor :
    float3.is_zero (⟨1, 0, 0⟩ : float3 Int) = false ∧
    float_div (1 : Int) (1 : Int) = some 1 ∧
    float_div (1 : Int) (0 : Int) = none ∧
    float3.div_components (⟨1, 1, 1⟩ : float3 Int) ⟨1, 0, 0⟩ = none ∧
    float3.div (⟨1, 1, 1⟩ : float3 Int) ⟨1, 0, 0⟩ = none := by
  decide

/-! ## Allocation of new particles -/

theorem ceil_div_zero (b : Nat) (hb : 0 < b) : ceil_div 0 b = 0 := by
  unfold ceil_div
  exact Nat.div_eq_of_lt (by omega)

theorem ceil_div_add_mul (k m b : Nat) (hb : 0 < b) :
    ceil_div (k * b + m) b = k + ceil_div m b := by
  unfold ceil_div
  rw [show k * b + m + b - 1 = (m + b - 1) + b * k by rw [Nat.mul_comm]; omega,
    Nat.add_mul_div_left _ _ hb]
  omega

theorem ceil_div_le (a k b : Nat) (hb : 0 < b) (h : a ≤ k * b) : ceil_div a b ≤ k := by
  unfold ceil_div
  apply Nat.le_of_lt_succ
  rw [Nat.div_lt_iff_lt_mul hb, Nat.succ_mul]
  omega

theorem ceil_div_of_le (a b : Nat) (ha : 0 < a) (h : a ≤ b) : ceil_div a b = 1 := by
  unfold ceil_div
  apply Nat.div_eq_of_lt_le <;> omega

/-- The slots `allocate_slots` takes from a block: as many as wanted, up to the slots the
block has left. -/
theorem allocate_slots_count {V : Type} :
    ∀ (n : Nat) (b : AttributesBlock V), b.active_count ≤ b.capacity →
      (b.allocate_slots n).1.capacity = b.capacity ∧
      (b.allocate_slots n).2.length = min n (b.capacity - b.active_count) ∧
      (b.allocate_slots n).1.active_count = b.active_count + (b.allocate_slots n).2.length
  | 0, b, _ => ⟨rfl, by rw [Nat.zero_min]; rfl, rfl⟩
  | n + 1, b, h => by
    by_cases hfull : b.active_count < b.capacity
    · have e : b.try_allocate_slot = some (b.active_count,
          { b with active_count := b.active_count + 1,
                   used := b.used.set b.active_count true }) := by
        simp [AttributesBlock.try_allocate_slot, hfull]
      obtain ⟨h1, h2, h3⟩ := allocate_slots_count n
        { b with active_count := b.active_count + 1, used := b.used.set b.active_count true }
        (by dsimp only; omega)
      dsimp only at h1 h2 h3
      have e1 : (b.allocate_slots (n + 1)).1 = (AttributesBlock.allocate_slots
          { b with active_count := b.active_count + 1,
                   used := b.used.set b.active_count true } n).1 := by
        simp only [AttributesBlock.allocate_slots, e]
      have e2 : (b.allocate_slots (n + 1)).2 = b.active_count :: (AttributesBlock.allocate_slots
          { b with active_count := b.active_count + 1,
                   used := b.used.set b.active_count true } n).2 := by
        simp only [AttributesBlock.allocate_slots, e]
      rw [e1, e2, List.length_cons, h1, h2, h3, h2]
      refine ⟨rfl, ?_, ?_⟩ <;> omega
    · have e : b.try_allocate_slot = none := by
        simp [AttributesBlock.try_allocate_slot, hfull]
      have e1 : b.allocate_slots (n + 1) = (b, []) := by
        simp only [AttributesBlock.allocate_slots, e]
      rw [e1]
      refine ⟨rfl, ?_, rfl⟩
      dsimp only [List.length_nil]
      omega

/-- The first-fit pass keeps the number of blocks, takes as many slots as wanted up to the
slots the blocks have left, and adds them to the live slots. -/
theorem fill_blocks_count {V : Type} (capacity : Nat) :
    ∀ (blocks : List (AttributesBlock V)) (index n : Nat),
      (∀ b ∈ blocks, b.capacity = capacity ∧ b.active_count ≤ b.capacity) →
      (fill_blocks blocks index n).1.length = blocks.length ∧
      (fill_blocks blocks index n).2.length =
        min n (blocks.length * capacity - total_active blocks) ∧
      total_active (fill_blocks blocks index n).1 =
        total_active blocks + (fill_blocks blocks index n).2.length ∧
      total_active blocks ≤ blocks.length * capacity
  | [], index, n, _ => by simp [fill_blocks, total_active]
  | b :: rest, index, n, h => by
    obtain ⟨hc, ha⟩ := h b (List.mem_cons_self _ _)
    obtain ⟨-, a2, a3⟩ := allocate_slots_count n b ha
    obtain ⟨r1, r2, r3, r4⟩ := fill_blocks_count capacity rest (index + 1)
      (n - (b.allocate_slots n).2.length) (fun x hx => h x (List.mem_cons_of_mem _ hx))
    have e1 : (fill_blocks (b :: rest) index n).1 = (b.allocate_slots n).1 ::
        (fill_blocks rest (index + 1) (n - (b.allocate_slots n).2.length)).1 := rfl
    have e2 : (fill_blocks (b :: rest) index n).2 =
        (b.allocate_slots n).2.map (fun slot => (index, slot)) ++
          (fill_blocks rest (index + 1) (n - (b.allocate_slots n).2.length)).2 := rfl
    have t1 : ∀ (x : AttributesBlock V) (xs : List (AttributesBlock V)),
        total_active (x :: xs) = x.active_count + total_active xs := by
      intro x xs
      simp [total_active]
    rw [e1, e2, t1, t1, List.length_cons, List.length_cons, List.length_append, List.length_map,
      r1, r3, a3, Nat.succ_mul]
    rw [hc] at ha a2
    generalize (fill_blocks rest (index + 1) (n - (b.allocate_slots n).2.length)).2.length = fl
      at r2 ⊢
    generalize (b.allocate_slots n).2.length = k at a2 r2 ⊢
    generalize total_active rest = t at r2 r4 ⊢
    generalize rest.length * capacity = rc at r2 r4 ⊢
    refine ⟨rfl, ?_, ?_, ?_⟩ <;> omega

/-- The second pass, with blocks of at least one slot and enough fuel: it creates the least
number of blocks that hold the wanted slots. -/
theorem create_blocks_count {V : Type} (capacity : Nat) (hcap : 0 < capacity)
    (defaults : List (String × V)) :
    ∀ (fuel index n : Nat), n ≤ fuel →
      ∃ r, create_blocks capacity defaults fuel index n = some r ∧
        r.1.length = ceil_div n capacity ∧ r.2.length = n ∧ total_active r.1 = n
  | fuel, index, 0, _ =>
    ⟨([], []), by cases fuel <;> rfl, (ceil_div_zero capacity hcap).symm, rfl, rfl⟩
  | 0, index, n + 1, h => by omega
  | fuel + 1, index, n + 1, h => by
    obtain ⟨-, a2, a3⟩ := allocate_slots_count (n + 1) (AttributesBlock.new capacity defaults)
      (by simp [AttributesBlock.new])
    have hnew : (AttributesBlock.new capacity defaults).capacity -
        (AttributesBlock.new capacity defaults).active_count = capacity := by
      simp [AttributesBlock.new]
    have hzero : (AttributesBlock.new capacity defaults).active_count = 0 := rfl
    rw [hnew] at a2
    rw [hzero, Nat.zero_add] at a3
    obtain ⟨r, e, r1, r2, r3⟩ := create_blocks_count capacity hcap defaults fuel (index + 1)
      (n + 1 - ((AttributesBlock.new capacity defaults).allocate_slots (n + 1)).2.length)
      (by omega)
    refine ⟨(((AttributesBlock.new capacity defaults).allocate_slots (n + 1)).1 :: r.1,
      ((AttributesBlock.new capacity defaults).allocate_slots (n + 1)).2.map
        (fun slot => (index, slot)) ++ r.2), ?_, ?_, ?_, ?_⟩
    · simp only [create_blocks, e]
    · rw [List.length_cons, r1, a2]
      by_cases hle : n + 1 ≤ capacity
      · rw [Nat.min_eq_left hle, Nat.sub_self, ceil_div_zero capacity hcap,
          ceil_div_of_le (n + 1) capacity (by omega) hle]
      · have := ceil_div_add_mul 1 (n + 1 - capacity) capacity hcap
        rw [show 1 * capacity + (n + 1 - capacity) = n + 1 by omega] at this
        rw [Nat.min_eq_right (by omega), this]
        omega
    · rw [List.length_append, List.length_map, r2]
      omega
    · simp only [total_active, List.map_cons, List.sum_cons] at r3 ⊢
      rw [r3, a3]
      omega

theorem total_active_append {V : Type} (xs ys : List (AttributesBlock V)) :
    total_active (xs ++ ys) = total_active xs + total_active ys := by
  simp [total_active]

/-- C11, as amended: for every container whose blocks have the capacity `C > 0` and every `n`,
`new_particles(n)` returns `n` addresses and leaves `count_active() + n` live particles; the
number of blocks the container holds afterwards is the larger of the number it held before and
`ceil((count_active() + n) / C)`, where `count_active()` is taken before the call; so the call
creates at most `ceil((count_active() + n) / C)` blocks. -/
theorem new_particles_blocks {F : Type} [CFloat F] (c : AttributesBlockContainer F) (n : Nat)
    (hcap : 0 < c.block_capacity) (hu : c.uniform) :
    ∃ c2 addresses, c.new_particles n = some (c2, addresses) ∧
      addresses.length = n ∧ c2.count_active = c.count_active + n ∧
      c2.blocks.length =
        max c.blocks.length (ceil_div (c.count_active + n) c.block_capacity) ∧
      c2.blocks.length - c.blocks.length ≤ ceil_div (c.count_active + n) c.block_capacity := by
  obtain ⟨f1, f2, f3, f4⟩ := fill_blocks_count c.block_capacity c.blocks 0 n hu
  obtain ⟨r, e, r1, r2, r3⟩ := create_blocks_count c.block_capacity hcap
    (c.schema.map (fun s => (s.1, s.2.default_value (F := F))))
    (n - (fill_blocks c.blocks 0 n).2.length) c.blocks.length
    (n - (fill_blocks c.blocks 0 n).2.length) (le_refl _)
  have hcount : ∀ d : AttributesBlockContainer F, d.count_active = total_active d.blocks :=
    fun _ => rfl
  have hblocks : ((fill_blocks c.blocks 0 n).1 ++ r.1).length =
      max c.blocks.length (ceil_div (c.count_active + n) c.block_capacity) := by
    rw [List.length_append, f1, r1, hcount]
    by_cases hm : n - (fill_blocks c.blocks 0 n).2.length = 0
    · rw [hm, ceil_div_zero _ hcap, Nat.add_zero]
      have := ceil_div_le (total_active c.blocks + n) c.blocks.length c.block_capacity hcap
        (by omega)
      omega
    · have := ceil_div_add_mul c.blocks.length (n - (fill_blocks c.blocks 0 n).2.length)
        c.block_capacity hcap
      rw [show c.blocks.length * c.block_capacity + (n - (fill_blocks c.blocks 0 n).2.length) =
        total_active c.blocks + n by omega] at this
      rw [this]
      omega
  refine ⟨{ c with blocks := (fill_blocks c.blocks 0 n).1 ++ r.1 },
    (fill_blocks c.blocks 0 n).2 ++ r.2, ?_, ?_, ?_, hblocks, ?_⟩
  · simp only [AttributesBlockContainer.new_particles, e]
  · rw [List.length_append, r2]
    omega
  · rw [hcount, hcount]
    dsimp only
    rw [total_active_append, f3, r3]
    omega
  · dsimp only
    rw [hblocks]
    omega

/-- The claim C11 fails on the scenario of section 8: the container of capacity 4 holds two
blocks and 3 live particles; after `new_particles(1)` it still holds two blocks, more than
`ceil((3 + 1) / 4) = 1`. -/
theorem new_particles_blocks_counterexample :
    scenario_container.block_capacity = 4 ∧ scenario_container.count_active = 3 ∧
    ∃ c2 addresses, scenario_container.new_particles 1 = some (c2, addresses) ∧
      c2.blocks.length = 2 ∧
      ¬ c2.blocks.length ≤
        ceil_div (scenario_container.count_active + 1) scenario_container.block_capacity :=
  ⟨rfl, rfl, _, _, rfl, rfl, by decide⟩

/-- C11, as amended, on the scenario of section 8: `new_particles(7)` fills the 5 free slots
of the two blocks and creates one block; the container then holds `ceil((3 + 7) / 4) = 3`
blocks. -/
theorem new_particles_blocks_witness :
    (0 < scenario_container.block_capacity ∧ scenario_container.uniform) ∧
    ∃ c2 addresses, scenario_container.new_particles 7 = some (c2, addresses) ∧
      addresses.length = 7 ∧ c2.count_active = 10 ∧ c2.blocks.length = 3 := by
  have hu : scenario_container.uniform := by
    intro b hb
    simp only [scenario_container, List.mem_cons, List.mem_singleton, List.not_mem_nil,
      or_false] at hb
    rcases hb with rfl | rfl <;> decide
  obtain ⟨c2, addresses, h1, h2, h3, h4, -⟩ :=
    new_particles_blocks scenario_container 7 (by decide) hu
  exact ⟨⟨by decide, hu⟩, c2, addresses, h1, h2, h3, h4⟩

end BParticles
